import Mathlib

/-!
# QuizApp session engine: scoring, grading, ranking and the room cursor

A shallow embedding of the server modules of the QuizApp repository
(`utils/scoring.js`, `managers/questionManager.js`, `managers/playerManager.js`,
`socketHandle.js`, and the session flow of `server.js`) together with the properties
established about them.

Modelling conventions

* A JavaScript number is a `JsNum`: `NaN`, the two infinities, or a finite value
  held as an exact rational.  The operators on `JsNum` give the exact result;
  `roundToDouble` gives the double nearest to an exact value (round to nearest, a
  tie to the even mantissa, overflow to an infinity), so that an operation of the
  language is the exact operator followed by `JsNum.toDouble`.  The sign of zero is
  not represented.
* `calculateScore` is the scoring function read with exact operators;
  `calculateScoreDouble` is the same function with every operation rounded to a
  double, which is what the program computes.
* A JavaScript value that travels as an answer, an id or a room key is a `JsVal`.
  Numbers inside a `JsVal` are integers (the range in which `String(n)` prints
  plain decimal digits).  An array is held by its reference and by the text that
  `String` gives for it.
* Strings are sequences of Unicode scalar values.
* A handler runs to its end before another event is taken, except the `submit_answer`
  handler of `server.js`, which is also given in the pieces between its `await`s.
-/

namespace QuizApp

/-! ## JavaScript numbers -/

/-- JavaScript number: `NaN`, `Infinity`, `-Infinity` or a finite value. -/
inductive JsNum where
  | nan
  | posInf
  | negInf
  | fin (q : ℚ)
deriving DecidableEq

namespace JsNum

/-- The `-` operator on numbers. -/
def sub : JsNum → JsNum → JsNum
  | nan, _ => nan
  | _, nan => nan
  | posInf, posInf => nan
  | negInf, negInf => nan
  | posInf, _ => posInf
  | negInf, _ => negInf
  | fin _, posInf => negInf
  | fin _, negInf => posInf
  | fin a, fin b => fin (a - b)

/-- The `+` operator on numbers. -/
def add : JsNum → JsNum → JsNum
  | nan, _ => nan
  | _, nan => nan
  | posInf, negInf => nan
  | negInf, posInf => nan
  | posInf, _ => posInf
  | negInf, _ => negInf
  | fin _, posInf => posInf
  | fin _, negInf => negInf
  | fin a, fin b => fin (a + b)

/-- Sign of a number as seen by `*` and `/`: `none` for `NaN`, else `-1`, `0` or `1`. -/
def sign : JsNum → Option Int
  | nan => none
  | posInf => some 1
  | negInf => some (-1)
  | fin q => some (if 0 < q then 1 else if q < 0 then -1 else 0)

/-- Infinity carrying the given sign (`NaN` for sign zero). -/
def infOfSign (s : Int) : JsNum :=
  if 0 < s then posInf else if s < 0 then negInf else nan

/-- The `*` operator on numbers. -/
def mul : JsNum → JsNum → JsNum
  | fin a, fin b => fin (a * b)
  | x, y =>
    match x.sign, y.sign with
    | some s, some t => infOfSign (s * t)
    | _, _ => nan

/-- The `/` operator on numbers (a zero divisor is read as `+0`). -/
def div : JsNum → JsNum → JsNum
  | nan, _ => nan
  | _, nan => nan
  | fin a, fin b =>
    if b = 0 then infOfSign (if 0 < a then 1 else if a < 0 then -1 else 0)
    else fin (a / b)
  | fin _, _ => fin 0
  | posInf, fin b => if b < 0 then negInf else posInf
  | negInf, fin b => if b < 0 then posInf else negInf
  | _, _ => nan

/-- The two-argument `Math.max`. -/
def max : JsNum → JsNum → JsNum
  | nan, _ => nan
  | _, nan => nan
  | posInf, _ => posInf
  | _, posInf => posInf
  | negInf, y => y
  | x, negInf => x
  | fin a, fin b => fin (if a ≤ b then b else a)

/-- `Math.round`: the nearest integer, a tie going towards `+Infinity`. -/
def round : JsNum → JsNum
  | fin q => fin ((q + 1 / 2).floor : ℤ)
  | x => x

/-- `Number.isFinite`. -/
def isFinite : JsNum → Bool
  | fin _ => true
  | _ => false

/-- Truthiness of a number: `NaN` and zero are falsy. -/
def truthy : JsNum → Bool
  | nan => false
  | fin q => decide (q ≠ 0)
  | _ => true

/-- Strict equality `===` on numbers: `NaN` equals nothing. -/
def strictEq : JsNum → JsNum → Bool
  | nan, _ => false
  | _, nan => false
  | x, y => decide (x = y)

end JsNum

/-! ## IEEE-754 doubles -/

/-- The power `2^e` for an integer exponent. -/
def pow2 (e : Int) : ℚ :=
  if 0 ≤ e then ((2 ^ e.toNat : Nat) : ℚ) else 1 / ((2 ^ (-e).toNat : Nat) : ℚ)

/-- The nearest integer, a tie going to the even one. -/
def roundHalfEven (x : ℚ) : Int :=
  let f := x.floor
  if x - f < 1 / 2 then f
  else if 1 / 2 < x - f then f + 1
  else if f % 2 = 0 then f else f + 1

/-- Number of binary digits of `n`; `fuel` bounds the number of digits. -/
def bitLength : Nat → Nat → Nat
  | 0, _ => 0
  | fuel + 1, n => if n = 0 then 0 else bitLength fuel (n / 2) + 1

/-- The exponent `e` with `2^e ≤ a < 2^(e+1)`, for `a > 0`. -/
def binaryExponent (a : ℚ) : Int :=
  let e0 : Int := (bitLength a.num.natAbs a.num.natAbs : Int) - (bitLength a.den a.den : Int)
  if pow2 e0 ≤ a then e0 else e0 - 1

/-- The double nearest to the rational `q` (binary64, round to nearest, a tie to the even
mantissa): the magnitude is rounded to a multiple of the spacing `2^(e-52)` of the doubles
around it, where `e` is its binary exponent and at least `-1022` (below that the spacing is
that of the subnormal numbers, `2^-1074`); a result of `2^1024` or more is an infinity. -/
def roundToDouble (q : ℚ) : JsNum :=
  if q = 0 then .fin 0
  else
    let a := if 0 < q then q else -q
    let e := if binaryExponent a < -1022 then -1022 else binaryExponent a
    let ulp := pow2 (e - 52)
    let r := (roundHalfEven (a / ulp) : ℚ) * ulp
    if pow2 1024 ≤ r then (if 0 < q then .posInf else .negInf)
    else .fin (if 0 < q then r else -r)

/-- The exact result of an operation as the double that the operation gives. -/
def JsNum.toDouble : JsNum → JsNum
  | .fin q => roundToDouble q
  | x => x

/-! ## `utils/scoring.js` -/

/-- The function `calculateScore(basePoints, timeLimit, timeUsed)` of `utils/scoring.js`, its
operators read as exact. -/
def calculateScore (basePoints timeLimit timeUsed : JsNum) : JsNum :=
  let remain := JsNum.max (.fin 0) (timeLimit.sub timeUsed)
  let bonusFactor := (JsNum.fin 1).add ((remain.div timeLimit).mul (.fin (1 / 2)))
  (basePoints.mul bonusFactor).round

/-- The function `calculateScore(basePoints, timeLimit, timeUsed)` of `utils/scoring.js` as
the program computes it: each of `-`, `/`, `*`, `+` and `*` gives the double nearest to its
exact result (`Math.max` and `Math.round` are exact on doubles, and `0.5` is a double). -/
def calculateScoreDouble (basePoints timeLimit timeUsed : JsNum) : JsNum :=
  let remain := JsNum.max (.fin 0) (timeLimit.sub timeUsed).toDouble
  let bonusFactor :=
    ((JsNum.fin 1).add ((remain.div timeLimit).toDouble.mul (.fin (1 / 2))).toDouble).toDouble
  (basePoints.mul bonusFactor).toDouble.round

/-- Rounding to the nearest integer with a tie rounded up. -/
def roundHalfUp (x : ℚ) : ℤ := (x + 1 / 2).floor

/-- The scoring formula as the specification words it, over exact rationals:
`remaining = max(0, limit − used)`, `bonusFactor = 1 + (remaining / limit) × 0.5`,
`gained = round(basePoints × bonusFactor)`. -/
def pointsGainedSpec (basePoints timeLimitSeconds timeUsedSeconds : ℚ) : ℤ :=
  let remaining := Max.max 0 (timeLimitSeconds - timeUsedSeconds)
  let bonusFactor := 1 + (remaining / timeLimitSeconds) * (1 / 2)
  roundHalfUp (basePoints * bonusFactor)

/-! ## JavaScript values and strings -/

/-- JavaScript value as it occurs in payloads and rows: `undefined`, `null`, a boolean, an
integer-valued number, a string, a plain object known by its reference, or an array known
by its reference and by the text that `String` gives for it (its elements, each printed by
`String` and `null` and `undefined` as nothing, joined by commas). -/
inductive JsVal where
  | undefined
  | null
  | bool (b : Bool)
  | num (n : Int)
  | str (s : String)
  | obj (ref : Nat)
  | arr (ref : Nat) (text : String)
deriving DecidableEq

/-- Test `v === null || v === undefined`. -/
def JsVal.isNullish : JsVal → Bool
  | .undefined => true
  | .null => true
  | _ => false

/-- The operator `a ?? b`. -/
def JsVal.orElse (a b : JsVal) : JsVal := if a.isNullish then b else a

/-- Character for a decimal digit value. -/
def digitChar : Nat → Char
  | 0 => '0' | 1 => '1' | 2 => '2' | 3 => '3' | 4 => '4'
  | 5 => '5' | 6 => '6' | 7 => '7' | 8 => '8' | _ => '9'

/-- Decimal digits of `n`, least significant first; `fuel` bounds the number of digits. -/
def decDigits : Nat → Nat → List Nat
  | 0, _ => []
  | fuel + 1, n => if n = 0 then [] else (n % 10) :: decDigits fuel (n / 10)

/-- Decimal numeral of a natural number, as `String(n)` prints it. -/
def natToChars (n : Nat) : List Char :=
  if n = 0 then ['0'] else (decDigits n n).reverse.map digitChar

/-- The numeral `String(n)` of an integer-valued number. -/
def intToChars : Int → List Char
  | Int.ofNat n => natToChars n
  | Int.negSucc n => '-' :: natToChars (n + 1)

/-- The conversion `String(v)`. -/
def jsToString : JsVal → List Char
  | .undefined => "undefined".toList
  | .null => "null".toList
  | .bool true => "true".toList
  | .bool false => "false".toList
  | .num n => intToChars n
  | .str s => s.toList
  | .obj _ => "[object Object]".toList
  | .arr _ text => text.toList

/-- The text `String(a)` of the array `a` with the given elements. -/
def arrayText (items : List JsVal) : String :=
  String.mk (List.intercalate [','] (items.map fun v => if v.isNullish then [] else jsToString v))

/-- White space and line terminators of ECMAScript, the characters `trim()` strips. -/
def isJsWhiteSpace (c : Char) : Bool :=
  let n := c.toNat
  n == 0x09 || n == 0x0A || n == 0x0B || n == 0x0C || n == 0x0D || n == 0x20 || n == 0xA0
    || n == 0x1680 || (0x2000 ≤ n && n ≤ 0x200A) || n == 0x2028 || n == 0x2029
    || n == 0x202F || n == 0x205F || n == 0x3000 || n == 0xFEFF

/-- The method `String.prototype.trim`. -/
def jsTrim (cs : List Char) : List Char :=
  ((cs.dropWhile isJsWhiteSpace).reverse.dropWhile isJsWhiteSpace).reverse

/-- Test for an ASCII decimal digit, the class `\d` and `[0-9]`. -/
def isDecDigit (c : Char) : Bool := decide ('0' ≤ c) && decide (c ≤ '9')

/-- The test `/^\d+$/.test(s)`, the same as `/^[0-9]+$/.test(s)`. -/
def isDigitString (cs : List Char) : Bool := !cs.isEmpty && cs.all isDecDigit

/-- Value of a string of decimal digits. -/
def digitsValue (cs : List Char) : Nat :=
  cs.foldl (fun acc c => 10 * acc + (c.toNat - 48)) 0

/-- Value of a hexadecimal, octal or binary digit, if the character is one in that base. -/
def digitInBase (base : Nat) (c : Char) : Option Nat :=
  let n := c.toNat
  let v := if 48 ≤ n ∧ n ≤ 57 then some (n - 48)
    else if 97 ≤ n ∧ n ≤ 102 then some (n - 87)
    else if 65 ≤ n ∧ n ≤ 70 then some (n - 55)
    else none
  match v with
  | some d => if d < base then some d else none
  | none => none

/-- Value of a non-empty digit string in the given base (`NaN` otherwise). -/
def radixValue (base : Nat) (cs : List Char) : JsNum :=
  if cs.isEmpty then .nan
  else
    match cs.foldl (fun acc c => acc.bind fun a => (digitInBase base c).map fun d => base * a + d)
        (some 0) with
    | some v => .fin v
    | none => .nan

/-- An unsigned decimal literal: digits, an optional fraction and an optional exponent,
with at least one digit before the exponent. -/
def unsignedDecimal (cs : List Char) : Option ℚ :=
  let ip := cs.takeWhile isDecDigit
  let r1 := cs.dropWhile isDecDigit
  let fp := match r1 with
    | '.' :: r => r.takeWhile isDecDigit
    | _ => []
  let r2 := match r1 with
    | '.' :: r => r.dropWhile isDecDigit
    | _ => r1
  if ip.isEmpty && fp.isEmpty then none
  else
    let mant : ℚ := (digitsValue ip : ℚ) + (digitsValue fp : ℚ) / (10 : ℚ) ^ fp.length
    match r2 with
    | [] => some mant
    | e :: r3 =>
      if e = 'e' ∨ e = 'E' then
        match r3 with
        | '-' :: r4 => if isDigitString r4 then some (mant / (10 : ℚ) ^ digitsValue r4) else none
        | '+' :: r4 => if isDigitString r4 then some (mant * (10 : ℚ) ^ digitsValue r4) else none
        | r4 => if isDigitString r4 then some (mant * (10 : ℚ) ^ digitsValue r4) else none
      else none

/-- A decimal literal without its sign: `Infinity` or an unsigned decimal. -/
def unsignedLiteral (cs : List Char) : JsNum :=
  if cs = "Infinity".toList then .posInf
  else
    match unsignedDecimal cs with
    | some q => .fin q
    | none => .nan

/-- The conversion of a string to a number: surrounding white space is dropped, the empty
string is `0`, then a `0x`/`0o`/`0b` integer or a signed decimal literal is read; anything
else is `NaN`.  The value is exact. -/
def stringToNumber (s : List Char) : JsNum :=
  match jsTrim s with
  | [] => .fin 0
  | '0' :: 'x' :: r => radixValue 16 r
  | '0' :: 'X' :: r => radixValue 16 r
  | '0' :: 'o' :: r => radixValue 8 r
  | '0' :: 'O' :: r => radixValue 8 r
  | '0' :: 'b' :: r => radixValue 2 r
  | '0' :: 'B' :: r => radixValue 2 r
  | '+' :: r => unsignedLiteral r
  | '-' :: r => (JsNum.fin 0).sub (unsignedLiteral r)
  | t => unsignedLiteral t

/-- The conversion `Number(v)`; the value that a text denotes is rounded to the nearest
double. -/
def jsToNumber : JsVal → JsNum
  | .undefined => .nan
  | .null => .fin 0
  | .bool true => .fin 1
  | .bool false => .fin 0
  | .num n => .fin n
  | .str s => (stringToNumber s.toList).toDouble
  | .obj _ => .nan
  | .arr _ text => (stringToNumber text.toList).toDouble

/-- Truthiness of a value. -/
def JsVal.truthy : JsVal → Bool
  | .undefined => false
  | .null => false
  | .bool b => b
  | .num n => decide (n ≠ 0)
  | .str s => !s.toList.isEmpty
  | .obj _ => true
  | .arr _ _ => true

/-! ## `managers/questionManager.js` -/

/-- Row of the `questions` table as a plain object; a field that is not set is `undefined`
(`none` for a field that holds no array). -/
structure RawQuestion where
  id : JsVal := .undefined
  content : JsVal := .undefined
  text : JsVal := .undefined
  question : JsVal := .undefined
  question_text : JsVal := .undefined
  choice_a : JsVal := .undefined
  choiceA : JsVal := .undefined
  choice_b : JsVal := .undefined
  choiceB : JsVal := .undefined
  choice_c : JsVal := .undefined
  choiceC : JsVal := .undefined
  choice_d : JsVal := .undefined
  choiceD : JsVal := .undefined
  options : Option (List JsVal) := none
  choices : Option (List JsVal) := none
  time_limit : JsVal := .undefined
  timeLimit : JsVal := .undefined
  points : JsVal := .undefined
  point : JsVal := .undefined
  correct_answer : JsVal := .undefined
  correctAnswer : JsVal := .undefined
deriving DecidableEq

/-- Question object as the server holds it.  Every spelling of a field that the handlers
read is present; an absent spelling is `undefined` (`none` for the numeric fields and for
the arrays). -/
structure Question where
  id : JsVal := .undefined
  _id : JsVal := .undefined
  content : JsVal := .undefined
  text : JsVal := .undefined
  question : JsVal := .undefined
  question_text : JsVal := .undefined
  options : Option (List JsVal) := none
  choices : Option (List JsVal) := none
  choice_a : JsVal := .undefined
  choice_b : JsVal := .undefined
  choice_c : JsVal := .undefined
  choice_d : JsVal := .undefined
  correct_answer : JsVal := .undefined
  correctAnswer : JsVal := .undefined
  time_limit : Option JsNum := none
  timeLimit : Option JsNum := none
  points : Option JsNum := none
deriving DecidableEq

/-- The array `options` built by `normalizeRawQuestion`: a non-empty `options` array, else a
non-empty `choices` array, else the four choice fields; `undefined` and `null` entries
are dropped. -/
def rawOptions (raw : RawQuestion) : List JsVal :=
  let fromArrays : Option (List JsVal) :=
    match raw.options with
    | some (o :: os) => some (o :: os)
    | _ =>
      match raw.choices with
      | some (c :: cs) => some (c :: cs)
      | _ => none
  let options :=
    match fromArrays with
    | some l => l
    | none =>
      [ (raw.choice_a.orElse raw.choiceA).orElse .null,
        (raw.choice_b.orElse raw.choiceB).orElse .null,
        (raw.choice_c.orElse raw.choiceC).orElse .null,
        (raw.choice_d.orElse raw.choiceD).orElse .null ]
  options.filter (fun opt => !opt.isNullish)

/-- The functions `formatQuestion(normalizeRawQuestion(raw))`. -/
def formatQuestion (raw : RawQuestion) : Question :=
  { id := raw.id
    content :=
      (((raw.content.orElse raw.text).orElse raw.question).orElse raw.question_text).orElse
        (.str "")
    options := some (rawOptions raw)
    timeLimit := some (jsToNumber ((raw.time_limit.orElse raw.timeLimit).orElse (.num 15)))
    points := some (jsToNumber ((raw.points.orElse raw.point).orElse (.num 1000)))
    correctAnswer := (raw.correct_answer.orElse raw.correctAnswer).orElse .null }

/-- The call `Question.findByPk(id)`: a row, no row, or a rejected promise. -/
abbrev Db := JsVal → Except String (Option RawQuestion)

/-- The function `getQuestionById(id)`; an error of the store is thrown again. -/
def getQuestionById (db : Db) (id : JsVal) : Except String (Option Question) :=
  if !id.truthy && id != .num 0 then .ok none
  else
    match db id with
    | .error e => .error e
    | .ok none => .ok none
    | .ok (some raw) => .ok (some (formatQuestion raw))

/-- Result of reading an answer as an index: `null`, a number, or a member that the
lookup table inherits from `Object.prototype`. -/
inductive IndexVal where
  | null
  | num (v : JsNum)
  | inherited
deriving DecidableEq

/-- The conversion `Number(x)` on an index value. -/
def IndexVal.toNumber : IndexVal → JsNum
  | .null => .fin 0
  | .num v => v
  | .inherited => .nan

/-- Property names that every object literal inherits. -/
def objectPrototypeKeys : List String :=
  ["constructor", "__defineGetter__", "__defineSetter__", "hasOwnProperty",
   "__lookupGetter__", "__lookupSetter__", "isPrototypeOf", "propertyIsEnumerable",
   "toString", "valueOf", "__proto__", "toLocaleString"]

/-- The lookup `map[s] ?? null` in `{ A: 0, B: 1, C: 2, D: 3, a: 0, b: 1, c: 2, d: 3 }`. -/
def answerMap (key : List Char) : IndexVal :=
  if key = ['A'] ∨ key = ['a'] then .num (.fin 0)
  else if key = ['B'] ∨ key = ['b'] then .num (.fin 1)
  else if key = ['C'] ∨ key = ['c'] then .num (.fin 2)
  else if key = ['D'] ∨ key = ['d'] then .num (.fin 3)
  else if key ∈ objectPrototypeKeys.map String.toList then .inherited
  else .null

/-- Index read from a trimmed text: a digit string is `Number(t)`, the double nearest to
its value, anything else goes through the letter table. -/
def indexOfText (t : List Char) : IndexVal :=
  if isDigitString t then .num (roundToDouble (digitsValue t)) else answerMap t

/-- Lines 241-249 of `checkCorrectAnswer`: a value of type number is taken as it is, any
other value is read from its trimmed text. -/
def providedIndexOf (answerIndex : JsVal) : IndexVal :=
  match answerIndex with
  | .num n => .num (.fin n)
  | a => indexOfText (jsTrim (jsToString a))

/-- Lines 225-252 of `checkCorrectAnswer`: the comparison of the stored answer of the
question found with the answer provided. -/
def gradeStored (stored answerIndex : JsVal) : Bool :=
  if stored.isNullish then false
  else
    let correctIndex := indexOfText (jsTrim (jsToString stored))
    if answerIndex.isNullish then false
    else
      let providedIndex := providedIndexOf answerIndex
      if correctIndex = .null ∨ providedIndex = .null then false
      else correctIndex.toNumber.strictEq providedIndex.toNumber

/-- The function `checkCorrectAnswer(questionId, answerIndex)`; whatever is thrown inside is
caught and answered with `false`. -/
def checkCorrectAnswer (db : Db) (questionId answerIndex : JsVal) : Bool :=
  if !questionId.truthy && questionId != .num 0 then false
  else
    match getQuestionById db questionId with
    | .error _ => false
    | .ok none => false
    | .ok (some q) => gradeStored q.correctAnswer answerIndex

/-- Letter table of the specification: `{A:0, B:1, C:2, D:3}`, either case. -/
def letterIndex (t : List Char) : Option Nat :=
  if t = ['A'] ∨ t = ['a'] then some 0
  else if t = ['B'] ∨ t = ['b'] then some 1
  else if t = ['C'] ∨ t = ['c'] then some 2
  else if t = ['D'] ∨ t = ['d'] then some 3
  else none

/-- The canonicalisation rule read word for word: a string of decimal digits or a raw
integer is its integer value, a single letter goes through the letter table, everything
else is `none`. -/
def canonicalIndexAsWorded : JsVal → Option Int
  | .num n => some n
  | .str s =>
    if isDigitString s.toList then some (digitsValue s.toList : Int)
    else (letterIndex s.toList).map Int.ofNat
  | _ => none

/-- The index of a text under the canonicalisation rule: a text of decimal digits is the
number it denotes, which is the double nearest to its integer value (`Infinity` for a text
too long), a single letter goes through the letter table, any other text has no index. -/
def textIndex (t : List Char) : Option JsNum :=
  if isDigitString t then some (roundToDouble (digitsValue t))
  else (letterIndex t).map fun k => JsNum.fin k

/-- The canonicalisation rule with the refinements the code makes: `null` and `undefined`
have no index; a raw integer is its own index when it is not negative and has none when it
is negative; every other value (a string, a boolean, an object, an array) is read through
its text `String(x)` with the surrounding white space trimmed. -/
def normalizeAnswerRepresentation : JsVal → Option JsNum
  | .undefined => none
  | .null => none
  | .num n => if 0 ≤ n then some (.fin n) else none
  | v => textIndex (jsTrim (jsToString v))

/-- An integer-valued number is a number of the language when a double holds it exactly,
and `String` prints it in plain digits when it is below `10^21` in size; every other value
passes. -/
def JsVal.isRepresentable : JsVal → Bool
  | .num n => decide (roundToDouble n = .fin n) && decide (|n| < 10 ^ 21)
  | _ => true

/-- Store with one question, id 1, whose `correct_answer` column holds the given value. -/
def oneRowDb (stored : JsVal) : Db := fun id =>
  if id = .num 1 then .ok (some { id := .num 1, correct_answer := stored }) else .ok none

/-- Store whose every lookup fails. -/
def failingDb : Db := fun _ => .error "connection lost"

/-! ## `managers/playerManager.js` -/

/-- Player object of the in-memory ledger. -/
structure Player where
  socketId : String
  name : String
  roomId : JsVal := .undefined
  userId : JsVal := .null
  score : ℚ := 0
  joinedAt : Nat := 0
deriving DecidableEq

/-- The map `memoryPlayers`, in insertion order; one entry for each socket id. -/
abbrev Ledger := List Player

/-- The function `getPlayerFromMemory(socketId)`. -/
def getPlayerFromMemory (ledger : Ledger) (socketId : String) : Option Player :=
  ledger.find? (fun p => p.socketId = socketId)

/-- The function `getPlayersInRoom(roomId)`. -/
def getPlayersInRoom (ledger : Ledger) (roomId : JsVal) : List Player :=
  ledger.filter (fun p => p.roomId = roomId)

/-- The function `addPlayerScore(socketId, points)`.  `persistOk` tells whether the call
`RoomPlayer.update` succeeds; when it does not, the rejection leaves the function after the
score in memory has been changed. -/
def addPlayerScore (ledger : Ledger) (socketId : String) (points : JsNum) (persistOk : Bool) :
    Ledger × Except String (Option ℚ) :=
  match getPlayerFromMemory ledger socketId with
  | none => (ledger, .ok none)
  | some player =>
    match (if points.truthy then points else .fin 0) with
    | .fin pointsToAdd =>
      let ledger' := ledger.map fun p =>
        if p.socketId = socketId then { p with score := p.score + pointsToAdd } else p
      if persistOk then (ledger', .ok (some (player.score + pointsToAdd)))
      else (ledger', .error "RoomPlayer.update failed")
    | _ => (ledger, .ok none)

/-- The call `memoryPlayers.set(socketId, player)`: the entry of that socket id is replaced
where it stands, a new socket id is added at the end. -/
def ledgerSet (ledger : Ledger) (player : Player) : Ledger :=
  if ledger.any (fun p => p.socketId = player.socketId) then
    ledger.map (fun p => if p.socketId = player.socketId then player else p)
  else ledger ++ [player]

/-- The function `addPlayer(socketId, { name, roomId, userId })`, called at time `now`.  An
empty `socketId` or `name` throws; a failure of `RoomPlayer.create` (`persistOk` false) is
caught and changes nothing. -/
def addPlayer (ledger : Ledger) (socketId name : String) (roomId userId : JsVal) (now : Nat)
    (persistOk : Bool) : Except String (Ledger × Player) :=
  if socketId.toList.isEmpty || name.toList.isEmpty then
    .error "socketId and name are required"
  else
    let player : Player :=
      { socketId := socketId, name := String.mk (jsTrim name.toList), roomId := roomId,
        userId := userId, score := 0, joinedAt := now }
    let ledger' := ledgerSet ledger player
    if persistOk then .ok (ledger', player) else .ok (ledger', player)

/-- The function `removePlayer(socketId)`; a failure of `RoomPlayer.destroy` (`persistOk`
false) is caught and changes nothing. -/
def removePlayer (ledger : Ledger) (socketId : String) (persistOk : Bool) : Ledger × Bool :=
  match getPlayerFromMemory ledger socketId with
  | some _ =>
    let ledger' := ledger.filter (fun p => p.socketId != socketId)
    if persistOk then (ledger', true) else (ledger', true)
  | none => (ledger, false)

/-- A call of the ledger: `addPlayer`, `addPlayerScore` or `removePlayer`. -/
inductive LedgerOp where
  | addPlayer (socketId name : String) (roomId : JsVal) (now : Nat)
  | addPlayerScore (socketId : String) (points : JsNum)
  | removePlayer (socketId : String)

/-- The ledger after one call; a call that throws leaves the ledger as it is. -/
def applyLedgerOp (ledger : Ledger) : LedgerOp → Ledger
  | .addPlayer socketId name roomId now =>
    match addPlayer ledger socketId name roomId .null now true with
    | .ok (ledger', _) => ledger'
    | .error _ => ledger
  | .addPlayerScore socketId points => (addPlayerScore ledger socketId points true).1
  | .removePlayer socketId => (removePlayer ledger socketId true).1

/-- The ledger after a sequence of calls. -/
def runLedgerOps (ledger : Ledger) (ops : List LedgerOp) : Ledger :=
  ops.foldl applyLedgerOp ledger

/-- The score stored for a socket id. -/
def scoreOf (ledger : Ledger) (socketId : String) : Option ℚ :=
  (getPlayerFromMemory ledger socketId).map (fun p => p.score)

/-- No call of the sequence adds a negative number of points. -/
def nonNegativeDeltas : List LedgerOp → Bool
  | [] => true
  | .addPlayerScore _ (.fin d) :: ops => decide (0 ≤ d) && nonNegativeDeltas ops
  | _ :: ops => nonNegativeDeltas ops

/-- No call of the sequence is `addPlayer` for the given socket id. -/
def neverAdds (socketId : String) : List LedgerOp → Bool
  | [] => true
  | .addPlayer sid _ _ _ :: ops => decide (sid ≠ socketId) && neverAdds socketId ops
  | _ :: ops => neverAdds socketId ops

/-- Every `addPlayer` of the sequence is for a socket id that is not in the ledger at that
moment, at a time not before any `joinedAt` in the ledger. -/
def joinsInOrder (ledger : Ledger) : List LedgerOp → Bool
  | [] => true
  | .addPlayer socketId name roomId now :: ops =>
    (getPlayerFromMemory ledger socketId).isNone
      && ledger.all (fun p => decide (p.joinedAt ≤ now))
      && joinsInOrder (applyLedgerOp ledger (.addPlayer socketId name roomId now)) ops
  | op :: ops => joinsInOrder (applyLedgerOp ledger op) ops

/-- The times `joinedAt` of the players listed do not decrease. -/
def joinOrdered (players : List Player) : Prop :=
  List.Pairwise (fun p q => p.joinedAt ≤ q.joinedAt) players

/-- Two players join room `r` at times 1 and 2, then the first joins again at time 3. -/
def rejoinOps : List LedgerOp :=
  [.addPlayer "s1" "Anh" (.str "r") 1, .addPlayer "s2" "Bao" (.str "r") 2,
   .addPlayer "s1" "Anh" (.str "r") 3]

/-- A player joins, gains 100 points, then 30 points are taken away. -/
def penaltyOps : List LedgerOp :=
  [.addPlayer "s1" "Anh" (.str "r") 1, .addPlayerScore "s1" (.fin 100),
   .addPlayerScore "s1" (.fin (-130))]

/-- A player joins, gains 100 points and joins again. -/
def rejoinAfterScoreOps : List LedgerOp :=
  [.addPlayer "s1" "Anh" (.str "r") 1, .addPlayerScore "s1" (.fin 100),
   .addPlayer "s1" "Anh" (.str "r") 2]

/-- Entry of a ranking. -/
structure RankEntry where
  rank : Nat
  name : String
  score : ℚ
  socketId : String
deriving DecidableEq

/-- The comparator `(a, b) => b.score - a.score || a.name.localeCompare(b.name)`. -/
def rankingCompare (localeCompare : String → String → Int) (a b : Player) : ℚ :=
  if b.score - a.score ≠ 0 then b.score - a.score else (localeCompare a.name b.name : ℚ)

/-- The method `Array.prototype.sort(compare)`: a stable sort, an element coming before
every element it does not compare greater than. -/
def jsSort {α : Type} (compare : α → α → ℚ) (xs : List α) : List α :=
  xs.insertionSort (fun a b => compare a b ≤ 0)

/-- The function `getRanking(roomId)`; `localeCompare` is the collation of the host. -/
def getRanking (localeCompare : String → String → Int) (ledger : Ledger) (roomId : JsVal) :
    List RankEntry :=
  (jsSort (rankingCompare localeCompare) (getPlayersInRoom ledger roomId)).enum.map fun ip =>
    { rank := ip.1 + 1, name := ip.2.name, score := ip.2.score, socketId := ip.2.socketId }

/-- Primary weight of a character: letters without their case. -/
def primaryWeight (c : Char) : Nat :=
  if 65 ≤ c.toNat ∧ c.toNat ≤ 90 then c.toNat + 32 else c.toNat

/-- Case weight of a character: lowercase before uppercase. -/
def caseWeight (c : Char) : Nat :=
  if 65 ≤ c.toNat ∧ c.toNat ≤ 90 then 2 else 1

/-- Sort key of a word of ASCII letters: its primary weights, a separator below every
weight, then its case weights. -/
def collationKey (s : String) : List Nat :=
  s.toList.map primaryWeight ++ 0 :: s.toList.map caseWeight

/-- The method `localeCompare` on words of ASCII letters in the default collation: words
are compared alphabetically without regard to case, and words equal up to case by case,
lowercase first. -/
def asciiLocaleCompare (a b : String) : Int :=
  if collationKey a < collationKey b then -1
  else if collationKey b < collationKey a then 1
  else 0

/-- Case-sensitive lexical comparison `a <= b` of strings, by character code. -/
def lexLe : List Char → List Char → Bool
  | [], _ => true
  | _ :: _, [] => false
  | a :: as, b :: bs =>
    if a.toNat < b.toNat then true
    else if b.toNat < a.toNat then false
    else lexLe as bs

/-- The example ledger of the specification: scores 50, 80, 80, 10 for Bao, Anh, Zed, Chi. -/
def exampleLedger : Ledger :=
  [ { socketId := "s1", name := "Bao", roomId := .str "r", score := 50 },
    { socketId := "s2", name := "Anh", roomId := .str "r", score := 80 },
    { socketId := "s3", name := "Zed", roomId := .str "r", score := 80 },
    { socketId := "s4", name := "Chi", roomId := .str "r", score := 10 },
    { socketId := "s5", name := "Eve", roomId := .str "other", score := 99 } ]

/-- Ledger with two players of equal score whose names differ in case. -/
def mixedCaseLedger : Ledger :=
  [ { socketId := "s1", name := "B", roomId := .str "r", score := 80 },
    { socketId := "s2", name := "a", roomId := .str "r", score := 80 } ]

/-! ## `socketHandle.js`: the session flow -/

/-- Lines 317-326 of `submit_answer` (the same text is in the timeout callback): the index
of the stored answer of a question held in a room. -/
def correctIndexOf (q : Question) : IndexVal :=
  let stored := (q.correct_answer.orElse q.correctAnswer).orElse .null
  if stored.isNullish then .null else indexOfText (jsTrim (jsToString stored))

/-- Line 327 of `submit_answer`:
`correct = correctIndex !== null && Number(answerIndex) === Number(correctIndex)`. -/
def liveCorrect (q : Question) (answerIndex : JsVal) : Bool :=
  correctIndexOf q != .null && (jsToNumber answerIndex).strictEq (correctIndexOf q).toNumber

/-- The expression `Number(q.time_limit ?? q.timeLimit ?? 15)`. -/
def questionTimeLimit (q : Question) : JsNum :=
  match q.time_limit with
  | some v => v
  | none =>
    match q.timeLimit with
    | some v => v
    | none => .fin 15

/-- Lines 330-332 of `submit_answer`: the points of a correct answer.  `timeUsed` is the
payload field, `none` when the client left it out. -/
def liveGained (q : Question) (timeUsed : Option JsNum) : JsNum :=
  let basePoints :=
    match q.points with
    | some v => if v.truthy then v else .fin 1000
    | none => .fin 1000
  let used :=
    match timeUsed with
    | some v => if v.truthy then v else .fin 0
    | none => .fin 0
  calculateScore basePoints (questionTimeLimit q) used

/-- Session object of a room, the value of `ROOMS[roomId]`. -/
structure Room where
  questions : List Question := []
  currentIndex : Nat := 0
  started : Bool := false
  timer : Option Nat := none
deriving DecidableEq

/-- Function handed to `setTimeout`: the timeout of a question, which keeps the room object
and the question it was made for, or the delayed call `sendCurrentQuestion(io, roomId)`. -/
inductive Callback where
  | questionTimeout (roomId : JsVal) (room : Nat) (q : Question)
  | sendQuestion (roomId : JsVal)
deriving DecidableEq

/-- Timer that was set and has neither fired nor been cleared. -/
structure Pending where
  handle : Nat
  delayMs : JsNum
  callback : Callback
deriving DecidableEq

/-- Payload of `new_question`: `index`, `total` and the fields `id`, `text`, `options` and
`timeLimit` of its `question` object. -/
structure NewQuestionPayload where
  index : Nat
  total : Nat
  id : JsVal
  text : JsVal
  options : List JsVal
  timeLimit : JsNum
deriving DecidableEq

/-- The payload built by `sendCurrentQuestion` (lines 400-409 of `socketHandle.js`, lines
74-83 of `server.js`) for the question `q` at position `currentIndex` of a list of
`total` questions. -/
def newQuestionPayload (currentIndex total : Nat) (q : Question) : NewQuestionPayload :=
  { index := currentIndex + 1
    total := total
    id := (q.id.orElse q._id).orElse (.num currentIndex)
    text :=
      (((q.content.orElse q.text).orElse q.question).orElse q.question_text).orElse (.str "")
    options :=
      match q.options with
      | some o => o
      | none =>
        match q.choices with
        | some c => c
        | none =>
          if q.choice_a.truthy then [q.choice_a, q.choice_b, q.choice_c, q.choice_d] else []
    timeLimit := questionTimeLimit q }

/-- Event sent to clients. -/
inductive Emit where
  | newQuestion (roomId : JsVal) (payload : NewQuestionPayload)
  | gameOver (roomId : JsVal) (ranking : List RankEntry)
  | timeUp (roomId : JsVal) (correctIndex : IndexVal)
  | revealAnswer (roomId : JsVal) (correctIndex : IndexVal)
  | revealAnswerBy (roomId : JsVal) (correctIndex : IndexVal) (answeredBy : String)
  | wrongAnswer (socketId : String) (questionId answerIndex : JsVal)
  | answerResult (socketId : String) (correct : Bool) (gained : JsNum)
  | answerFailed (socketId : String) (message : String)
  | rankingData (roomId : JsVal) (ranking : List RankEntry)
deriving DecidableEq

/-- State of the server process: the room objects created so far (a room object is known by
its position), the table `ROOMS` from property key to room object, the timers pending, the
ledger of players and the events sent. -/
structure Server where
  heap : List Room := []
  ROOMS : List (List Char × Nat) := []
  pending : List Pending := []
  nextHandle : Nat := 0
  players : Ledger := []
  out : List Emit := []
deriving DecidableEq

namespace Server

/-- Reference held in `ROOMS[roomId]`. -/
def roomRef (s : Server) (roomId : JsVal) : Option Nat :=
  (s.ROOMS.find? (fun e => e.1 = jsToString roomId)).map (fun e => e.2)

/-- The room object `ROOMS[roomId]`. -/
def room (s : Server) (roomId : JsVal) : Option Room :=
  (s.roomRef roomId).bind (fun r => s.heap[r]?)

/-- The call `setTimeout(callback, delayMs)`. -/
def setTimeout (s : Server) (callback : Callback) (delayMs : JsNum) : Server :=
  { s with
    pending := s.pending ++ [{ handle := s.nextHandle, delayMs := delayMs, callback := callback }]
    nextHandle := s.nextHandle + 1 }

/-- The call `clearTimeout(handle)`. -/
def clearTimeout (s : Server) (handle : Nat) : Server :=
  { s with pending := s.pending.filter (fun t => t.handle != handle) }

/-- The call `io.to(..).emit` or `socket.emit`. -/
def emit (s : Server) (e : Emit) : Server := { s with out := s.out ++ [e] }

/-- Assignment to fields of the room object at reference `r`. -/
def modifyRoom (s : Server) (r : Nat) (f : Room → Room) : Server :=
  { s with heap := s.heap.modify f r }

end Server

/-- The function `sendCurrentQuestion(io, roomId)`, the same text in `socketHandle.js` and
in `server.js`. -/
def sendCurrentQuestion (localeCompare : String → String → Int) (s : Server) (roomId : JsVal) :
    Server :=
  match s.roomRef roomId with
  | none => s
  | some r =>
    match s.heap[r]? with
    | none => s
    | some room =>
      let finish : Server :=
        { s.emit (.gameOver roomId (getRanking localeCompare s.players roomId)) with
          ROOMS := s.ROOMS.filter (fun e => e.1 != jsToString roomId) }
      if room.currentIndex ≥ room.questions.length then finish
      else
        match room.questions[room.currentIndex]? with
        | none => finish
        | some q =>
          let payload := newQuestionPayload room.currentIndex room.questions.length q
          let s1 := s.emit (.newQuestion roomId payload)
          let s2 :=
            match room.timer with
            | some h => (s1.clearTimeout h).modifyRoom r (fun x => { x with timer := none })
            | none => s1
          let delay := (if payload.timeLimit.truthy then payload.timeLimit else .fin 15).mul
            (.fin 1000)
          (s2.modifyRoom r (fun x => { x with timer := some s2.nextHandle })).setTimeout
            (.questionTimeout roomId r q) delay

/-- Body of the timeout of a question, lines 421-443. -/
def questionTimeout (s : Server) (roomId : JsVal) (r : Nat) (q : Question) : Server :=
  let correctIndex := correctIndexOf q
  let s1 := (s.emit (.timeUp roomId correctIndex)).emit (.revealAnswer roomId correctIndex)
  let s2 := s1.modifyRoom r (fun x => { x with currentIndex := x.currentIndex + 1 })
  s2.setTimeout (.sendQuestion roomId) (.fin 700)

/-- Lines 233-241 of `choose_set`, the same as lines 267-272 of `start_game`: the list loaded
is put on the room, which is created when `ROOMS` has none, and the first question is sent. -/
def loadAndSend (localeCompare : String → String → Int) (s : Server) (roomId : JsVal)
    (questions : List Question) : Server :=
  if !roomId.truthy then s
  else
    let s1 : Server :=
      match s.roomRef roomId with
      | some _ => s
      | none =>
        { s with
          heap := s.heap ++ [{ questions := [], currentIndex := 0, started := false, timer := none }]
          ROOMS := s.ROOMS ++ [(jsToString roomId, s.heap.length)] }
    match s1.roomRef roomId with
    | none => s1
    | some r =>
      let s2 := s1.modifyRoom r fun x =>
        { x with questions := questions, currentIndex := 0, started := true }
      sendCurrentQuestion localeCompare s2 roomId

/-- Payload of `submit_answer` together with what the handler meets outside the process:
the question store, and whether `RoomPlayer.update` succeeds. -/
structure Submission where
  socketId : String
  roomId : JsVal := .undefined
  questionId : JsVal := .undefined
  answerIndex : JsVal := .undefined
  timeUsed : Option JsNum := none
  db : Db := fun _ => .ok none
  persistOk : Bool := true

/-- Lines 304-310 of `submit_answer`: the question graded, looked up by id in the room, else
the current question of the room, else the question of that id in the store. -/
def findQuestion (s : Server) (a : Submission) : Except String (Option Question) :=
  let inRoom : Option Question :=
    match s.room a.roomId with
    | none => none
    | some room =>
      match room.questions.find? (fun x => jsToString x.id = jsToString a.questionId) with
      | some q => some q
      | none => room.questions[room.currentIndex]?
  match inRoom with
  | some q => .ok (some q)
  | none => getQuestionById a.db a.questionId

/-- The handler of `submit_answer` in `socketHandle.js`, run to its end before another
event is taken. -/
def submitAnswer (localeCompare : String → String → Int) (s : Server) (a : Submission) :
    Server :=
  let fail (s : Server) (message : String) : Server := s.emit (.answerFailed a.socketId message)
  let report (s : Server) (correct : Bool) (gained : JsNum) : Server :=
    (s.emit (.answerResult a.socketId correct gained)).emit
      (.rankingData a.roomId (getRanking localeCompare s.players a.roomId))
  match findQuestion s a with
  | .error e => fail s e
  | .ok none => report s false (.fin 0)
  | .ok (some q) =>
    let correctIndex := correctIndexOf q
    if liveCorrect q a.answerIndex then
      let gained := liveGained q a.timeUsed
      match addPlayerScore s.players a.socketId gained a.persistOk with
      | (players, .error e) => fail { s with players := players } e
      | (players, .ok _) =>
        let s1 := ({ s with players := players } : Server).emit (.revealAnswer a.roomId correctIndex)
        let s2 :=
          match s1.roomRef a.roomId with
          | none => s1
          | some r =>
            let s3 :=
              match (s1.heap[r]?).bind (fun x => x.timer) with
              | some h => (s1.clearTimeout h).modifyRoom r (fun x => { x with timer := none })
              | none => s1
            (s3.modifyRoom r (fun x => { x with currentIndex := x.currentIndex + 1 })).setTimeout
              (.sendQuestion a.roomId) (.fin 500)
        report s2 true gained
    else
      report (s.emit (.wrongAnswer a.socketId a.questionId a.answerIndex)) false (.fin 0)

/-- Something that happens to the server: a question list is loaded for a room by
`choose_set` or `start_game`, an answer is submitted, or a pending timer fires. -/
inductive Event where
  | chooseSet (roomId : JsVal) (questions : List Question)
  | startGame (roomId : JsVal) (questions : List Question)
  | submit (a : Submission)
  | fire (handle : Nat)

/-- One step of the server. -/
def step (localeCompare : String → String → Int) (s : Server) : Event → Server
  | .chooseSet roomId questions => loadAndSend localeCompare s roomId questions
  | .startGame roomId questions => loadAndSend localeCompare s roomId questions
  | .submit a => submitAnswer localeCompare s a
  | .fire handle =>
    match s.pending.find? (fun t => t.handle = handle) with
    | none => s
    | some t =>
      let s1 := s.clearTimeout handle
      match t.callback with
      | .questionTimeout roomId r q => questionTimeout s1 roomId r q
      | .sendQuestion roomId => sendCurrentQuestion localeCompare s1 roomId

/-- The server after a sequence of events. -/
def run (localeCompare : String → String → Int) (s : Server) (events : List Event) : Server :=
  events.foldl (step localeCompare) s

/-- The invariant `0 ≤ currentIndex ≤ len(questions)` on every room of `ROOMS`. -/
def cursorInBounds (s : Server) : Bool :=
  s.ROOMS.all fun e =>
    match s.heap[e.2]? with
    | some room => decide (room.currentIndex ≤ room.questions.length)
    | none => true

/-- A question whose stored answer is the letter `A`, worth 1000 points in 15 seconds. -/
def questionA : Question :=
  { id := .num 1, correctAnswer := .str "A", timeLimit := some (.fin 15),
    points := some (.fin 1000) }

/-- A question whose stored answer is the letter `B`. -/
def questionB : Question :=
  { id := .num 2, correctAnswer := .str "B", timeLimit := some (.fin 15),
    points := some (.fin 1000) }

/-- A question worth 1000 points in 30 seconds whose stored answer is the index `0`. -/
def question30 : Question :=
  { id := .num 3, correctAnswer := .num 0, timeLimit := some (.fin 30),
    points := some (.fin 1000) }

/-- A server with two players, `s1` and `s2`, who are in room `r`. -/
def twoPlayerServer : Server :=
  { players := [{ socketId := "s1", name := "Anh", roomId := .str "r" },
                { socketId := "s2", name := "Bao", roomId := .str "r" }] }

/-- A correct answer to `questionA` from the given player in room `r`, sent at once. -/
def correctSubmission (socketId : String) : Submission :=
  { socketId := socketId, roomId := .str "r", questionId := .num 1, answerIndex := .num 0,
    timeUsed := some (.fin 0) }

/-- A submission from player `s1` in room `r` for `questionA` carrying the given answer. -/
def submissionWith (answerIndex : JsVal) : Submission :=
  { socketId := "s1", roomId := .str "r", questionId := .num 1, answerIndex := answerIndex,
    timeUsed := some (.fin 0) }

/-- Room `r` is given the one-question list `[questionA]`, then both players answer
correctly before the pause of 500 ms ends. -/
def doubleSubmitTrace : List Event :=
  [.chooseSet (.str "r") [questionA], .submit (correctSubmission "s1"),
   .submit (correctSubmission "s2")]

/-! ## `server.js`: the session flow -/

/-- The object that `choose_set` of `server.js` makes of a loaded question, lines 190-197. -/
def roomQuestion (q : Question) : Question :=
  { id := q.id
    content := ((q.content.orElse q.text).orElse q.question).orElse (.str "")
    options :=
      some (match q.options with
        | some o => o
        | none =>
          match q.choices with
          | some c => c
          | none => [q.choice_a, q.choice_b, q.choice_c, q.choice_d].filter (fun c => c.truthy))
    time_limit := some (questionTimeLimit q)
    points :=
      some (match q.points with
        | some v => v
        | none => .fin 1000)
    correct_answer := (q.correct_answer.orElse q.correctAnswer).orElse .null }

/-- Lines 189-202 of `choose_set` in `server.js`: the list loaded is put on the room in the
shape of `roomQuestion` and the first question is sent. -/
def chooseSetJs (localeCompare : String → String → Int) (s : Server) (roomId : JsVal)
    (questions : List Question) : Server :=
  loadAndSend localeCompare s roomId (questions.map roomQuestion)

/-- A handler of `submit_answer` in `server.js` that waits at an `await`, with the values it
took before: the room object, `questionIndexInRoom` and the question `q`. -/
structure SubmitTask where
  a : Submission
  room : Option Nat
  questionIndexInRoom : Option Nat
  q : Option Question

/-- Lines 215-227 of `submit_answer` in `server.js`, up to the first `await`; `none` when
the payload has no `roomId`. -/
def beginSubmit (s : Server) (a : Submission) : Option SubmitTask :=
  if !a.roomId.truthy then none
  else
    match s.roomRef a.roomId with
    | none => some { a := a, room := none, questionIndexInRoom := none, q := none }
    | some r =>
      match s.heap[r]? with
      | none => some { a := a, room := none, questionIndexInRoom := none, q := none }
      | some room =>
        let questionIndexInRoom :=
          match room.questions.findIdx? (fun x => jsToString x.id = jsToString a.questionId) with
          | some j => j
          | none => room.currentIndex
        some { a := a, room := some r, questionIndexInRoom := some questionIndexInRoom,
               q := room.questions[questionIndexInRoom]? }

/-- The task of a submission whose question was found at position `j` of `questions`, the
list of the room object `r`. -/
def taskAt (a : Submission) (r j : Nat) (questions : List Question) : SubmitTask :=
  { a := a, room := some r, questionIndexInRoom := some j, q := questions[j]? }

/-- The grade of a submission in `server.js`: `checkCorrectAnswer(questionId, answerIndex)`. -/
def jsCorrect (a : Submission) : Bool :=
  checkCorrectAnswer a.db a.questionId a.answerIndex

/-- Lines 240-243 of `submit_answer` in `server.js`: the points of a correct answer,
`Math.max(0, Math.round(remain * 100))`. -/
def jsGained (q : Question) (timeUsed : Option JsNum) : JsNum :=
  let used :=
    match timeUsed with
    | some v => if v.truthy then v else .fin 0
    | none => .fin 0
  let remain := JsNum.max (.fin 0) ((questionTimeLimit q).sub used)
  JsNum.max (.fin 0) ((remain.mul (.fin 100)).round)

/-- The handler from the answer of `checkCorrectAnswer` to the `await` of `addPlayerScore`:
the score of a correct answer is added in memory.  The second component is the error with
which `addPlayerScore` rejects, if it does. -/
def scoreSubmit (s : Server) (t : SubmitTask) : Server × Option String :=
  match t.q with
  | none => (s, none)
  | some q =>
    if jsCorrect t.a then
      match addPlayerScore s.players t.a.socketId (jsGained q t.a.timeUsed) t.a.persistOk with
      | (players, .ok _) => ({ s with players := players }, none)
      | (players, .error e) => ({ s with players := players }, some e)
    else (s, none)

/-- The rest of the handler, lines 229-233 and 247-291 of `server.js`: the result is
reported, the answer revealed and, when the room still is on the question graded, the room
advanced. -/
def finishSubmit (localeCompare : String → String → Int) (s : Server) (t : SubmitTask)
    (rejected : Option String) : Server :=
  match t.q with
  | none => s.emit (.answerResult t.a.socketId (jsCorrect t.a) (.fin 0))
  | some q =>
    match rejected with
    | some e => s.emit (.answerFailed t.a.socketId e)
    | none =>
      let gained := if jsCorrect t.a then jsGained q t.a.timeUsed else .fin 0
      let s1 := s.emit (.answerResult t.a.socketId (jsCorrect t.a) gained)
      let s2 := s1.emit (.revealAnswerBy t.a.roomId (correctIndexOf q) t.a.socketId)
      let s3 := s2.emit (.rankingData t.a.roomId (getRanking localeCompare s2.players t.a.roomId))
      match t.room with
      | none => s3
      | some r =>
        match s3.heap[r]? with
        | none => s3
        | some room =>
          if t.questionIndexInRoom = some room.currentIndex then
            let s4 :=
              match room.timer with
              | some h => (s3.clearTimeout h).modifyRoom r (fun x => { x with timer := none })
              | none => s3
            (s4.modifyRoom r (fun x => { x with currentIndex := x.currentIndex + 1 })).setTimeout
              (.sendQuestion t.a.roomId) (.fin 700)
          else s3

/-- The handler of `submit_answer` in `server.js` run to its end before another event is
taken. -/
def submitAnswerJs (localeCompare : String → String → Int) (s : Server) (a : Submission) :
    Server :=
  match beginSubmit s a with
  | none => s
  | some t => finishSubmit localeCompare (scoreSubmit s t).1 t (scoreSubmit s t).2

/-- The timer `handle` fires. -/
def fireTimer (localeCompare : String → String → Int) (handle : Nat) (s : Server) : Server :=
  step localeCompare s (.fire handle)

/-- A submission to `server.js` and the firing of timer `handle` in one of their orders: the
timer fires before the handler starts (`firePos = 0`), while the handler waits for
`checkCorrectAnswer` (`1`), while it waits for `addPlayerScore` (`2`), or after the handler
has ended (`3` and above). -/
def raceOutcome (localeCompare : String → String → Int) (s : Server) (a : Submission)
    (handle firePos : Nat) : Server :=
  let s0 := if firePos = 0 then fireTimer localeCompare handle s else s
  match beginSubmit s0 a with
  | none => if firePos = 0 then s0 else fireTimer localeCompare handle s0
  | some t =>
    let s1 := if firePos = 1 then fireTimer localeCompare handle s0 else s0
    let s2 := if firePos = 2 then fireTimer localeCompare handle (scoreSubmit s1 t).1
      else (scoreSubmit s1 t).1
    let s3 := finishSubmit localeCompare s2 t (scoreSubmit s1 t).2
    if 3 ≤ firePos then fireTimer localeCompare handle s3 else s3

/-- The number of calls `sendCurrentQuestion(io, roomId)` that are scheduled. -/
def pendingSends (s : Server) (roomId : JsVal) : Nat :=
  (s.pending.filter (fun t => t.callback = .sendQuestion roomId)).length

/-- The value of `currentIndex` of the room object at reference `r`. -/
def currentIndexAt (s : Server) (r : Nat) : Option Nat :=
  (s.heap[r]?).map (fun room => room.currentIndex)

/-- Room `r` of `server.js` after `choose_set` loaded `[questionA, questionB]`. -/
def jsTwoQuestionServer : Server :=
  chooseSetJs asciiLocaleCompare twoPlayerServer (.str "r") [questionA, questionB]

/-- Store of the two questions `questionA` and `questionB`. -/
def twoRowDb : Db := fun id =>
  if id = .num 1 then .ok (some { id := .num 1, correct_answer := .str "A" })
  else if id = .num 2 then .ok (some { id := .num 2, correct_answer := .str "B" })
  else .ok none

/-- An answer of player `s1` in room `r` to the question of id 1, graded against `twoRowDb`. -/
def jsSubmission (answerIndex : JsVal) : Submission :=
  { socketId := "s1", roomId := .str "r", questionId := .num 1, answerIndex := answerIndex,
    timeUsed := some (.fin 5), db := twoRowDb }

/-! ## Traces and observations used in the properties -/

/-- The `index` fields of the `new_question` events sent to a room, in the order sent. -/
def newQuestionIndices (s : Server) (roomId : JsVal) : List Nat :=
  s.out.filterMap fun e =>
    match e with
    | .newQuestion r payload => if r = roomId then some payload.index else none
    | _ => none

/-- The `new_question` events sent, in the order sent. -/
def newQuestionsSent (s : Server) : List Emit :=
  s.out.filter fun e =>
    match e with
    | .newQuestion _ _ => true
    | _ => false

/-- The question with its correct answer removed, in both spellings. -/
def Question.withoutAnswer (q : Question) : Question :=
  { q with correct_answer := .undefined, correctAnswer := .undefined }

/-- The server with the correct answers removed from the questions of every room. -/
def Server.withoutAnswers (s : Server) : Server :=
  { s with
    heap := s.heap.map fun room =>
      { room with questions := room.questions.map Question.withoutAnswer } }

/-- Room `r` of `socketHandle.js` with the list `[questionA, questionB]`: the first question
has timed out and the second has been sent. -/
def secondQuestionServer : Server :=
  run asciiLocaleCompare twoPlayerServer
    [.chooseSet (.str "r") [questionA, questionB], .fire 0, .fire 1]

/-- Room `r` is given three questions, both players answer the first correctly before the
pause ends, then the two pauses end. -/
def skipTrace : List Event :=
  [.chooseSet (.str "r") [questionA, questionB, question30],
   .submit (correctSubmission "s1"), .submit (correctSubmission "s2"), .fire 1, .fire 2]

/-- The flow of `server.js`: room `r` is given three questions, the first times out, an answer
whose `questionId` is in no question arrives during the pause, then the two pauses end. -/
def jsSkipServer : Server :=
  fireTimer asciiLocaleCompare 2
    (fireTimer asciiLocaleCompare 1
      (submitAnswerJs asciiLocaleCompare
        (fireTimer asciiLocaleCompare 0
          (chooseSetJs asciiLocaleCompare twoPlayerServer (.str "r")
            [questionA, questionB, question30]))
        { socketId := "s1", roomId := .str "r", questionId := .num 99, answerIndex := .num 0,
          db := twoRowDb }))

/-- Room `r` on its only question, whose stored answer is the one given. -/
def roomWithAnswer (answer : JsVal) : Server :=
  { heap := [{ questions := [{ questionA with correctAnswer := answer }], currentIndex := 0,
               started := true, timer := none }]
    ROOMS := [("r".toList, 0)] }

/-- The room object of `jsTwoQuestionServer`: on its first question, timer 0 recorded. -/
def jsRoom : Room :=
  { questions := [roomQuestion questionA, roomQuestion questionB], currentIndex := 0,
    started := true, timer := some 0 }

/-- The timer pending in `jsTwoQuestionServer`: the timeout of the first question. -/
def jsTimer : Pending :=
  { handle := 0, delayMs := .fin 15000,
    callback := .questionTimeout (.str "r") 0 (roomQuestion questionA) }

/-- The error with which a call rejects, `none` when it returns. -/
def rejectionOf {α : Type} : Except String α → Option String
  | .error e => some e
  | .ok _ => none

/-- The value a call returns, `none` when it rejects. -/
def returnOf {α : Type} : Except String α → Option α
  | .error _ => none
  | .ok v => some v

/-- A correct answer to `questionA` from player `s1` whose score update is not persisted. -/
def unpersistedSubmission : Submission :=
  { socketId := "s1", roomId := .str "r", questionId := .num 1, answerIndex := .num 0,
    timeUsed := some (.fin 0), persistOk := false }

/-- Room `r` of `socketHandle.js` after `choose_set` loaded `[questionA]`. -/
def oneQuestionServer : Server :=
  run asciiLocaleCompare twoPlayerServer [.chooseSet (.str "r") [questionA]]

/-! ## `roomManager.js`: the room registry -/

/-- The call `map.get(key)` on a `Map` with string keys, kept as the list of its entries in
insertion order. -/
def mapGet {ν : Type} (m : List (String × ν)) (key : String) : Option ν :=
  (m.find? (fun e => e.1 = key)).map (fun e => e.2)

/-- The call `map.has(key)`. -/
def mapHas {ν : Type} (m : List (String × ν)) (key : String) : Bool :=
  m.any (fun e => e.1 = key)

/-- The call `map.set(key, value)`: an existing key keeps its place. -/
def mapSet {ν : Type} (m : List (String × ν)) (key : String) (value : ν) : List (String × ν) :=
  if mapHas m key then m.map (fun e => if e.1 = key then (key, value) else e)
  else m ++ [(key, value)]

/-- The call `map.delete(key)`. -/
def mapDelete {ν : Type} (m : List (String × ν)) (key : String) : List (String × ν) :=
  m.filter (fun e => e.1 != key)

/-- Room object built by `createRoom`. The field `ref` stands for the identity of the object
itself, which is what a caller holds when it keeps the value returned by `createRoom`. -/
structure RoomRecord where
  ref : Nat
  id : String
  hostUserId : JsVal
  questionSetId : JsVal
  status : String
  createdAt : Nat
  code : String
  players : List JsVal
deriving DecidableEq

/-- The two tables of `roomManager.js`, `memoryRooms` (room id to room object) and
`codeToRoomId` (room code to room id), and the number of room objects built so far. -/
structure Registry where
  memoryRooms : List (String × RoomRecord) := []
  codeToRoomId : List (String × String) := []
  nextRef : Nat := 0
deriving DecidableEq

/-- The constant `chars` of `generateRoomCode`. -/
def chars : List Char := "ABCDEFGHIJKLMNOPQRSTUVWXYZ0123456789".toList

/-- The call `s.charAt(i)` for an integer `i`: the empty string outside the string. -/
def charAt (s : List Char) (i : Int) : List Char :=
  if 0 ≤ i then
    match s.get? i.toNat with
    | some c => [c]
    | none => []
  else []

/-- The loop of `generateRoomCode` (lines 9-12): six times
`code += chars.charAt(Math.floor(Math.random() * chars.length))`, where the value of the
`n`-th call of `Math.random()` is `draws n` and the first call made here is number `pos`. -/
def drawCode (draws : Nat → ℚ) (pos : Nat) : List Char :=
  (List.range 6).foldl
    (fun code i => code ++ charAt chars (Rat.floor (draws (pos + i) * (chars.length : ℚ)))) []

/-- The function `generateRoomCode()` (lines 7-14): a code that is in `codeToRoomId` makes it
call itself again. `fuel` is the number of nested calls that may still be made, `none` means
that the call has not returned within them. -/
def generateRoomCode (codeToRoomId : List (String × String)) (draws : Nat → ℚ) :
    Nat → Nat → Option String
  | 0, _ => none
  | fuel + 1, pos =>
    let code := String.mk (drawCode draws pos)
    if mapHas codeToRoomId code then generateRoomCode codeToRoomId draws fuel (pos + 6)
    else some code

/-- The function `createRoom({ hostUserId, questionSetId })` (lines 19-47), where `id` is the
value of `uuidv4()`, `now` the value of `new Date()` and `persistOk` tells whether
`Room.create` succeeds; its failure is caught and logged. The result is the registry after
the call and the room object returned, `none` when `generateRoomCode` does not return. -/
def createRoom (reg : Registry) (id : String) (hostUserId questionSetId : JsVal) (now : Nat)
    (draws : Nat → ℚ) (fuel : Nat) (persistOk : Bool) : Option (Registry × RoomRecord) :=
  match generateRoomCode reg.codeToRoomId draws fuel 0 with
  | none => none
  | some code =>
    let room : RoomRecord :=
      { ref := reg.nextRef, id := id, hostUserId := hostUserId, questionSetId := questionSetId,
        status := "waiting", createdAt := now, code := code, players := [] }
    let reg' : Registry :=
      { memoryRooms := mapSet reg.memoryRooms id room
        codeToRoomId := mapSet reg.codeToRoomId code id
        nextRef := reg.nextRef + 1 }
    if persistOk then some (reg', room) else some (reg', room)

/-- The function `getRoomFromMemory(id)`: `memoryRooms.get(id) || null`. -/
def getRoomFromMemory (reg : Registry) (id : String) : Option RoomRecord :=
  mapGet reg.memoryRooms id

/-- The function `getRoomIdByCode(code)`: `codeToRoomId.get(code) || null`, so an id that is
the empty string is given as `null`. -/
def getRoomIdByCode (reg : Registry) (code : String) : Option String :=
  match mapGet reg.codeToRoomId code with
  | some id => if id = "" then none else some id
  | none => none

/-- The function `getRoomCode(roomId)` (lines 107-110): `memoryRooms.get(roomId)` finds a
room only for a key that is a string, and `room?.code || null` gives `null` for an empty
code. -/
def getRoomCode (reg : Registry) (roomId : JsVal) : Option String :=
  match roomId with
  | .str id =>
    match mapGet reg.memoryRooms id with
    | some room => if room.code = "" then none else some room.code
    | none => none
  | _ => none

/-- The function `removeRoom(id)` (lines 159-164): both tables are updated before
`Room.destroy` is awaited, whose failure (`persistOk = false`) makes the call reject. -/
def removeRoom (reg : Registry) (id : String) (persistOk : Bool) :
    Registry × Except String Unit :=
  let codeToRoomId :=
    match mapGet reg.memoryRooms id with
    | some room =>
      if room.code = "" then reg.codeToRoomId else mapDelete reg.codeToRoomId room.code
    | none => reg.codeToRoomId
  let reg' : Registry :=
    { memoryRooms := mapDelete reg.memoryRooms id
      codeToRoomId := codeToRoomId
      nextRef := reg.nextRef }
  (reg', if persistOk then .ok () else .error "Room.destroy failed")

/-- The registries that calls of `createRoom` and `removeRoom` lead to from the empty one,
where every `uuidv4()` is a non-empty string that is not the id of a room in memory and every
value of `Math.random()` lies in `[0, 1)`. -/
inductive Registry.Reachable : Registry → Prop
  | empty : Registry.Reachable {}
  | createRoom (reg : Registry) (id : String) (hostUserId questionSetId : JsVal) (now : Nat)
      (draws : Nat → ℚ) (fuel : Nat) (persistOk : Bool) (reg' : Registry) (room : RoomRecord) :
      Registry.Reachable reg → id ≠ "" → getRoomFromMemory reg id = none →
      (∀ n, 0 ≤ draws n ∧ draws n < 1) →
      createRoom reg id hostUserId questionSetId now draws fuel persistOk = some (reg', room) →
      Registry.Reachable reg'
  | removeRoom (reg : Registry) (id : String) (persistOk : Bool) :
      Registry.Reachable reg → Registry.Reachable (removeRoom reg id persistOk).1

/-- The code table is the inverse of the room table: every room in memory is stored under
its own id and its code resolves to that id, and every code of the code table resolves to a
room in memory whose code it is. -/
def Registry.Consistent (reg : Registry) : Prop :=
  (∀ id room, getRoomFromMemory reg id = some room →
      room.id = id ∧ getRoomIdByCode reg room.code = some id)
    ∧ ∀ code id, mapGet reg.codeToRoomId code = some id →
        ∃ room, getRoomFromMemory reg id = some room ∧ room.code = code

/-- Every room in memory is stored under its own id, has a non-empty id and a non-empty
code which the code table maps to that id, and every entry of the code table points to a
room in memory with that code. -/
def Registry.WellFormed (reg : Registry) : Prop :=
  (∀ id room, getRoomFromMemory reg id = some room →
      room.id = id ∧ id ≠ "" ∧ room.code ≠ "" ∧ mapGet reg.codeToRoomId room.code = some id)
    ∧ ∀ code id, mapGet reg.codeToRoomId code = some id →
        ∃ room, getRoomFromMemory reg id = some room ∧ room.code = code

/-- Acknowledgement passed to the callback of `create_room`. -/
structure CreateRoomAck where
  ok : Bool
  roomId : JsVal := .undefined
  code : Option String := none
  error : Option String := none
deriving DecidableEq

/-- The handler of `create_room` in `socketHandle.js` (lines 155-171). The constant `roomId`
is bound to the value returned by `createRoom`, which is the room object; that value is
given to `addPlayer`, to `getRoomCode` and to the acknowledgement. The events sent to the
room are left out. -/
def createRoomCommand (reg : Registry) (ledger : Ledger) (socketId displayName : String)
    (questionSetId userId : JsVal) (id : String) (now : Nat) (draws : Nat → ℚ) (fuel : Nat)
    (persistOk : Bool) : Option (Registry × Ledger × CreateRoomAck) :=
  match createRoom reg id userId questionSetId now draws fuel persistOk with
  | none => none
  | some (reg', room) =>
    let roomId : JsVal := .obj room.ref
    match addPlayer ledger socketId displayName roomId userId now persistOk with
    | .error e => some (reg', ledger, { ok := false, error := some e })
    | .ok (ledger', _) =>
      some (reg', ledger', { ok := true, roomId := roomId, code := getRoomCode reg' roomId })

/-- The stream of draws in which `Math.random()` always gives 0. -/
def zeroDraws : Nat → ℚ := fun _ => 0

/-- The registry after one `createRoom` with id `room-1` on the stream `zeroDraws`. -/
def oneRoomRegistry : Registry :=
  match createRoom {} "room-1" .null .null 0 zeroDraws 1 true with
  | some (reg, _) => reg
  | none => {}

/-- The room object that `createRoom` returns for `oneRoomRegistry`. -/
def firstRoom : RoomRecord :=
  { ref := 0, id := "room-1", hostUserId := .null, questionSetId := .null, status := "waiting",
    createdAt := 0, code := "AAAAAA", players := [] }

/-- The stream of draws in which the first six calls of `Math.random()` give 0 and all
later ones give one half. -/
def retryDraws : Nat → ℚ := fun n => if n < 6 then 0 else 1 / 2

/-- A list with one question is loaded for room `r` by `choose_set`, then, while the timer
of that question is pending, `choose_set` loads an empty list for the room. -/
def reloadEmptyTrace : List Event :=
  [.chooseSet (.str "r") [questionA], .chooseSet (.str "r") []]

/-- The server of `socketHandle.js` after `reloadEmptyTrace`. -/
def reloadEmptyServer : Server := run asciiLocaleCompare twoPlayerServer reloadEmptyTrace

/-! ## Properties of the scoring function -/

theorem rat_floor_eq (q : ℚ) : q.floor = ⌊q⌋ := rfl

theorem calculateScore_fin (b L u : ℚ) (hL : 0 < L) :
    calculateScore (.fin b) (.fin L) (.fin u) = .fin (pointsGainedSpec b L u) := by
  have hne : L ≠ 0 := ne_of_gt hL
  simp only [calculateScore, JsNum.sub, JsNum.max, JsNum.div, if_neg hne, JsNum.mul, JsNum.add,
    JsNum.round, pointsGainedSpec, roundHalfUp, max_def]

theorem pow2_eq_zpow (e : Int) : pow2 e = (2 : ℚ) ^ e := by
  unfold pow2
  by_cases h : 0 ≤ e
  · rw [if_pos h]
    obtain ⟨n, rfl⟩ := Int.eq_ofNat_of_zero_le h
    simp
  · rw [if_neg h]
    have hneg : 0 ≤ -e := by omega
    obtain ⟨n, hn⟩ := Int.eq_ofNat_of_zero_le hneg
    have he : e = -(n : ℤ) := by omega
    rw [hn, he]
    simp

theorem pow2_pos (e : Int) : 0 < pow2 e := by
  rw [pow2_eq_zpow]
  positivity

theorem roundHalfEven_nonneg (x : ℚ) (hx : 0 ≤ x) : 0 ≤ roundHalfEven x := by
  have h0 : (0 : Int) ≤ ⌊x⌋ := Int.floor_nonneg.mpr hx
  unfold roundHalfEven
  simp only [rat_floor_eq]
  split_ifs <;> omega

theorem pow2_sub (e : Int) (k : Nat) : pow2 (e - k) = pow2 e / (2 : ℚ) ^ k := by
  rw [pow2_eq_zpow, pow2_eq_zpow, zpow_sub₀ (by norm_num : (2 : ℚ) ≠ 0), zpow_natCast]

theorem roundHalfEven_close (x : ℚ) : |((roundHalfEven x : Int) : ℚ) - x| ≤ 1 / 2 := by
  have h1 : ((⌊x⌋ : Int) : ℚ) ≤ x := Int.floor_le x
  have h2 : x < ((⌊x⌋ : Int) : ℚ) + 1 := Int.lt_floor_add_one x
  unfold roundHalfEven
  simp only [rat_floor_eq]
  rw [abs_le]
  split_ifs with c1 c2 c3
  · constructor <;> linarith
  · push_cast
    constructor <;> linarith
  · constructor <;> linarith
  · push_cast
    constructor <;> linarith

theorem bitLength_spec (fuel n : Nat) (h : n ≤ fuel) (hn : n ≠ 0) :
    2 ^ (bitLength fuel n - 1) ≤ n ∧ n < 2 ^ bitLength fuel n ∧ 1 ≤ bitLength fuel n := by
  induction fuel generalizing n with
  | zero => omega
  | succ fuel ih =>
    rw [bitLength, if_neg hn]
    by_cases h2 : n / 2 = 0
    · have h1 : n = 1 := by omega
      subst h1
      cases fuel <;> simp [bitLength]
    · obtain ⟨a, b, c⟩ := ih (n / 2) (by omega) h2
      refine ⟨?_, ?_, by omega⟩
      · have : bitLength fuel (n / 2) + 1 - 1 = (bitLength fuel (n / 2) - 1) + 1 := by omega
        rw [this, pow_succ]
        omega
      · rw [pow_succ]
        omega

theorem binaryExponent_le (a : ℚ) (ha : 0 < a) : pow2 (binaryExponent a) ≤ a := by
  unfold binaryExponent
  simp only []
  split_ifs with h
  · exact h
  · have hnum : 0 < a.num := Rat.num_pos.mpr ha
    have hnat : a.num.natAbs ≠ 0 := by omega
    obtain ⟨h1, -, h1'⟩ := bitLength_spec a.num.natAbs a.num.natAbs le_rfl hnat
    obtain ⟨-, h2, h2'⟩ := bitLength_spec a.den a.den le_rfl a.den_nz
    set bn := bitLength a.num.natAbs a.num.natAbs
    set bd := bitLength a.den a.den
    have hden : (0 : ℚ) < a.den := by exact_mod_cast a.den_pos
    have hnumq : ((2 : ℚ) ^ (bn - 1)) ≤ (a.num : ℚ) := by
      have : ((a.num.natAbs : ℕ) : ℤ) = a.num := Int.natAbs_of_nonneg (le_of_lt hnum)
      have h1q : ((2 ^ (bn - 1) : ℕ) : ℚ) ≤ ((a.num.natAbs : ℕ) : ℚ) := by exact_mod_cast h1
      have hc : ((a.num.natAbs : ℕ) : ℚ) = (a.num : ℚ) := by
        have hcast : ((a.num.natAbs : ℕ) : ℚ) = (((a.num.natAbs : ℕ) : ℤ) : ℚ) :=
          (Int.cast_natCast _).symm
        rw [hcast, this]
      rw [hc] at h1q
      exact_mod_cast h1q
    have hdenq : (a.den : ℚ) ≤ (2 : ℚ) ^ bd := by
      have : ((a.den : ℕ) : ℚ) ≤ ((2 ^ bd : ℕ) : ℚ) := by exact_mod_cast le_of_lt h2
      exact_mod_cast this
    have hexp : ((bn : ℤ) - (bd : ℤ) - 1) = (((bn - 1 : ℕ) : ℤ) - (bd : ℤ)) := by omega
    rw [pow2_eq_zpow, hexp, zpow_sub₀ (by norm_num : (2 : ℚ) ≠ 0), zpow_natCast, zpow_natCast]
    have ha_eq : a = (a.num : ℚ) / (a.den : ℚ) := (Rat.num_div_den a).symm
    rw [ha_eq]
    have hpos2 : (0 : ℚ) < (2 : ℚ) ^ bd := by positivity
    rw [div_le_div_iff₀ hpos2 hden]
    have hn0 : (0 : ℚ) ≤ (a.num : ℚ) := by exact_mod_cast le_of_lt hnum
    calc (2 : ℚ) ^ (bn - 1) * (a.den : ℚ) ≤ (a.num : ℚ) * (a.den : ℚ) :=
          mul_le_mul_of_nonneg_right hnumq (le_of_lt hden)
      _ ≤ (a.num : ℚ) * (2 : ℚ) ^ bd := mul_le_mul_of_nonneg_left hdenq hn0


theorem binaryExponent_lt (a : ℚ) (ha : 0 < a) : a < pow2 (binaryExponent a + 1) := by
  unfold binaryExponent
  simp only []
  split_ifs with h
  · have hnum : 0 < a.num := Rat.num_pos.mpr ha
    have hnat : a.num.natAbs ≠ 0 := by omega
    obtain ⟨-, h1, h1'⟩ := bitLength_spec a.num.natAbs a.num.natAbs le_rfl hnat
    obtain ⟨h2, -, h2'⟩ := bitLength_spec a.den a.den le_rfl a.den_nz
    set bn := bitLength a.num.natAbs a.num.natAbs
    set bd := bitLength a.den a.den
    have hden : (0 : ℚ) < a.den := by exact_mod_cast a.den_pos
    have hnumq : (a.num : ℚ) < (2 : ℚ) ^ bn := by
      have : ((a.num.natAbs : ℕ) : ℤ) = a.num := Int.natAbs_of_nonneg (le_of_lt hnum)
      have h1q : ((a.num.natAbs : ℕ) : ℚ) < ((2 ^ bn : ℕ) : ℚ) := by exact_mod_cast h1
      have hc : ((a.num.natAbs : ℕ) : ℚ) = (a.num : ℚ) := by
        have hcast : ((a.num.natAbs : ℕ) : ℚ) = (((a.num.natAbs : ℕ) : ℤ) : ℚ) :=
          (Int.cast_natCast _).symm
        rw [hcast, this]
      rw [hc] at h1q
      exact_mod_cast h1q
    have hdenq : (2 : ℚ) ^ (bd - 1) ≤ (a.den : ℚ) := by
      have : ((2 ^ (bd - 1) : ℕ) : ℚ) ≤ ((a.den : ℕ) : ℚ) := by exact_mod_cast h2
      exact_mod_cast this
    have hexp : ((bn : ℤ) - (bd : ℤ) + 1) = ((bn : ℤ) - ((bd - 1 : ℕ) : ℤ)) := by omega
    rw [pow2_eq_zpow, hexp, zpow_sub₀ (by norm_num : (2 : ℚ) ≠ 0), zpow_natCast, zpow_natCast]
    have ha_eq : a = (a.num : ℚ) / (a.den : ℚ) := (Rat.num_div_den a).symm
    rw [ha_eq]
    have hpos2 : (0 : ℚ) < (2 : ℚ) ^ (bd - 1) := by positivity
    rw [div_lt_div_iff₀ hden hpos2]
    have hn0 : (0 : ℚ) < (2 : ℚ) ^ bn := by positivity
    calc (a.num : ℚ) * (2 : ℚ) ^ (bd - 1) ≤ (a.num : ℚ) * (a.den : ℚ) :=
          mul_le_mul_of_nonneg_left hdenq (by exact_mod_cast le_of_lt hnum)
      _ < (2 : ℚ) ^ bn * (a.den : ℚ) := mul_lt_mul_of_pos_right hnumq hden
  · have e : (bitLength a.num.natAbs a.num.natAbs : ℤ) - (bitLength a.den a.den : ℤ) - 1 + 1
        = (bitLength a.num.natAbs a.num.natAbs : ℤ) - (bitLength a.den a.den : ℤ) := by ring
    rw [e]
    exact not_le.mp h

theorem pow2_1024 : pow2 1024 = (2 : ℚ) ^ 1024 := by
  rw [pow2_eq_zpow]
  exact zpow_natCast 2 1024

theorem roundMagnitude_close (a : ℚ) (ha : 0 < a) (hb : a ≤ 2 ^ 100) (e : Int)
    (he : e = if binaryExponent a < -1022 then -1022 else binaryExponent a) :
    |(roundHalfEven (a / pow2 (e - 52)) : ℚ) * pow2 (e - 52) - a| ≤ a / 2 ^ 53 + 1 / 2 ^ 1075
      ∧ 0 ≤ (roundHalfEven (a / pow2 (e - 52)) : ℚ) * pow2 (e - 52)
      ∧ (roundHalfEven (a / pow2 (e - 52)) : ℚ) * pow2 (e - 52) < pow2 1024 := by
  have hulp : 0 < pow2 (e - 52) := pow2_pos _
  set ulp := pow2 (e - 52) with hulp_def
  have hclose := roundHalfEven_close (a / ulp)
  have hm0 : (0 : ℚ) ≤ (roundHalfEven (a / ulp) : ℚ) := by
    exact_mod_cast roundHalfEven_nonneg (a / ulp) (le_of_lt (div_pos ha hulp))
  set m : ℚ := (roundHalfEven (a / ulp) : ℚ) with hm_def
  have hdiff : m * ulp - a = (m - a / ulp) * ulp := by
    field_simp
  have habs : |m * ulp - a| ≤ ulp / 2 := by
    rw [hdiff, abs_mul, abs_of_pos hulp]
    calc |m - a / ulp| * ulp ≤ 1 / 2 * ulp := mul_le_mul_of_nonneg_right hclose (le_of_lt hulp)
      _ = ulp / 2 := by ring
  have hulp_le : ulp / 2 ≤ a / 2 ^ 53 + 1 / 2 ^ 1075 := by
    by_cases hlt : binaryExponent a < -1022
    · rw [if_pos hlt] at he
      have hval : ulp = 1 / 2 ^ 1074 := by
        rw [hulp_def, he, pow2_eq_zpow]
        have hexp : ((-1022 : ℤ) - 52) = -((1074 : ℕ) : ℤ) := by norm_num
        rw [hexp, zpow_neg, zpow_natCast, one_div]
      rw [hval]
      have : (0 : ℚ) ≤ a / 2 ^ 53 := by positivity
      have h2 : (1 : ℚ) / 2 ^ 1074 / 2 = 1 / 2 ^ 1075 := by
        rw [div_div, ← pow_succ]
      linarith
    · rw [if_neg hlt] at he
      have hle := binaryExponent_le a ha
      have hval : ulp = pow2 (binaryExponent a) / 2 ^ 52 := by
        rw [hulp_def, he]
        exact_mod_cast pow2_sub (binaryExponent a) 52
      rw [hval]
      have h1 : pow2 (binaryExponent a) / 2 ^ 52 / 2 ≤ a / 2 ^ 53 := by
        rw [div_div, ← pow_succ]
        exact div_le_div_of_nonneg_right hle (by positivity)
      have : (0 : ℚ) ≤ 1 / 2 ^ 1075 := by positivity
      linarith
  refine ⟨le_trans habs hulp_le, mul_nonneg hm0 (le_of_lt hulp), ?_⟩
  have hupper : m * ulp ≤ a + (a / 2 ^ 53 + 1 / 2 ^ 1075) := by
    have := (abs_le.mp (le_trans habs hulp_le)).2
    linarith
  rw [pow2_1024]
  have h53 : a / 2 ^ 53 ≤ a := div_le_self (le_of_lt ha) (by norm_num)
  have hsmall : (1 : ℚ) / 2 ^ 1075 ≤ 1 := by
    rw [div_le_one (by positivity)]
    exact one_le_pow₀ (by norm_num)
  have hbig : (2 : ℚ) ^ 100 + 2 ^ 100 + 1 < 2 ^ 102 := by norm_num
  have hmono : (2 : ℚ) ^ 102 ≤ 2 ^ 1024 := pow_le_pow_right₀ (by norm_num) (by norm_num)
  linarith

theorem roundToDouble_close (q : ℚ) (hq : |q| ≤ 2 ^ 100) :
    ∃ y, roundToDouble q = .fin y ∧ |y - q| ≤ |q| / 2 ^ 53 + 1 / 2 ^ 1075
      ∧ (0 ≤ q → 0 ≤ y) ∧ (q ≤ 0 → y ≤ 0) := by
  by_cases h0 : q = 0
  · subst h0
    exact ⟨0, by simp [roundToDouble], by norm_num, fun _ => le_rfl, fun _ => le_rfl⟩
  by_cases hpos : 0 < q
  · have habs : |q| = q := abs_of_pos hpos
    rw [habs] at hq ⊢
    obtain ⟨h1, h2, h3⟩ := roundMagnitude_close q hpos hq _ rfl
    refine ⟨_, ?_, h1, fun _ => h2, fun h => absurd hpos (not_lt.mpr h)⟩
    simp only [roundToDouble, h0, if_false, hpos, if_true, not_le.mpr h3]
  · have hneg : q < 0 := lt_of_le_of_ne (not_lt.mp hpos) h0
    have habs : |q| = -q := abs_of_neg hneg
    rw [habs] at hq ⊢
    have hpos' : 0 < -q := by linarith
    obtain ⟨h1, h2, h3⟩ := roundMagnitude_close (-q) hpos' hq _ rfl
    have hval : roundToDouble q = .fin (-((roundHalfEven (-q / pow2 ((if binaryExponent (-q)
        < -1022 then -1022 else binaryExponent (-q)) - 52)) : ℚ) * pow2 ((if binaryExponent (-q)
        < -1022 then -1022 else binaryExponent (-q)) - 52))) := by
      simp only [roundToDouble, h0, if_false, hpos, not_le.mpr h3]
    generalize (roundHalfEven (-q / pow2 ((if binaryExponent (-q) < -1022 then -1022
      else binaryExponent (-q)) - 52)) : ℚ) * pow2 ((if binaryExponent (-q) < -1022 then -1022
      else binaryExponent (-q)) - 52) = r at h1 h2 h3 hval
    refine ⟨-r, hval, ?_, fun h => absurd hneg (not_lt.mpr h), fun _ => by linarith⟩
    have : -r - q = -(r - -q) := by ring
    rw [this, abs_neg]
    exact h1


theorem roundToDouble_step (q B : ℚ) (hq : |q| ≤ B) (hB : B ≤ 2 ^ 100) :
    ∃ y, roundToDouble q = .fin y ∧ |y - q| ≤ B / 2 ^ 53 + 1 / 2 ^ 100
      ∧ (0 ≤ q → 0 ≤ y) ∧ (q ≤ 0 → y ≤ 0) := by
  obtain ⟨y, h1, h2, h3, h4⟩ := roundToDouble_close q (le_trans hq hB)
  refine ⟨y, h1, ?_, h3, h4⟩
  have hη : (1 : ℚ) / 2 ^ 1075 ≤ 1 / 2 ^ 100 :=
    one_div_le_one_div_of_le (by positivity) (pow_le_pow_right₀ (by norm_num) (by norm_num))
  have hdiv : |q| / 2 ^ 53 ≤ B / 2 ^ 53 := div_le_div_of_nonneg_right hq (by positivity)
  linarith

theorem roundHalfEven_intCast (M : ℤ) : roundHalfEven (M : ℚ) = M := by
  unfold roundHalfEven
  simp only [rat_floor_eq, Int.floor_intCast, sub_self]
  norm_num

theorem roundToDouble_natCast (k : ℕ) (hk : k ≤ 2 ^ 53) : roundToDouble (k : ℚ) = .fin k := by
  by_cases h0 : k = 0
  · subst h0
    simp [roundToDouble]
  have hkpos : (0 : ℚ) < (k : ℚ) := by exact_mod_cast Nat.pos_of_ne_zero h0
  have hkne : (k : ℚ) ≠ 0 := ne_of_gt hkpos
  have hk1 : (1 : ℚ) ≤ (k : ℚ) := by exact_mod_cast Nat.pos_of_ne_zero h0
  have hk53 : (k : ℚ) ≤ 2 ^ 53 := by exact_mod_cast hk
  have hlo := binaryExponent_le (k : ℚ) hkpos
  have hhi := binaryExponent_lt (k : ℚ) hkpos
  rw [pow2_eq_zpow] at hlo hhi
  set e := binaryExponent (k : ℚ) with he
  have he0 : 0 ≤ e := by
    by_contra hneg
    have : e + 1 ≤ 0 := by omega
    have h2 : (2 : ℚ) ^ (e + 1) ≤ (2 : ℚ) ^ (0 : ℤ) := zpow_le_zpow_right₀ (by norm_num) this
    rw [zpow_zero] at h2
    linarith
  have he53 : e ≤ 53 := by
    by_contra hbig
    have : (54 : ℤ) ≤ e := by omega
    have h2 : (2 : ℚ) ^ (54 : ℤ) ≤ (2 : ℚ) ^ e := zpow_le_zpow_right₀ (by norm_num) this
    have h3 : (2 : ℚ) ^ (54 : ℤ) = 2 ^ 54 := zpow_natCast 2 54
    rw [h3] at h2
    have : (2 : ℚ) ^ 53 < 2 ^ 54 := by norm_num
    linarith
  have hnlt : ¬ e < -1022 := by omega
  obtain ⟨n, hn⟩ := Int.eq_ofNat_of_zero_le he0
  have hn53 : n ≤ 53 := by omega
  have hulp : pow2 (e - 52) = (2 : ℚ) ^ n / 2 ^ 52 := by
    rw [pow2_eq_zpow, hn, zpow_sub₀ (by norm_num : (2 : ℚ) ≠ 0), zpow_natCast]
    norm_cast
  have hint : ∃ M : ℤ, (k : ℚ) / pow2 (e - 52) = (M : ℚ) := by
    by_cases h52 : n ≤ 52
    · refine ⟨(k : ℤ) * 2 ^ (52 - n), ?_⟩
      rw [hulp]
      have hsplit : (2 : ℚ) ^ 52 = 2 ^ n * 2 ^ (52 - n) := by
        rw [← pow_add]
        congr 1
        omega
      rw [hsplit]
      push_cast
      field_simp
      ring
    · have hn' : n = 53 := by omega
      have hk' : (k : ℚ) = 2 ^ 53 := by
        have : (2 : ℚ) ^ (53 : ℕ) ≤ (k : ℚ) := by
          have h := hlo
          rw [hn, hn', zpow_natCast] at h
          exact h
        linarith
      refine ⟨2 ^ 52, ?_⟩
      rw [hulp, hn', hk']
      norm_num
  obtain ⟨M, hM⟩ := hint
  have hr : (roundHalfEven ((k : ℚ) / pow2 (e - 52)) : ℚ) * pow2 (e - 52) = (k : ℚ) := by
    rw [hM, roundHalfEven_intCast, ← hM]
    field_simp [ne_of_gt (pow2_pos (e - 52))]
  have hsmall : ¬ pow2 1024 ≤ (k : ℚ) := by
    rw [pow2_1024, not_le]
    have h1 : (2 : ℚ) ^ 53 < 2 ^ 54 := by norm_num
    have h2 : (2 : ℚ) ^ 54 ≤ 2 ^ 1024 := pow_le_pow_right₀ (by norm_num) (by norm_num)
    linarith
  simp only [roundToDouble, hkne, if_false, hkpos, if_true, ← he, hnlt, hr, hsmall]

theorem isRepresentable_of_safe (n : ℤ) (hn : |n| ≤ 2 ^ 53) :
    (JsVal.num n).isRepresentable = true := by
  have hsize : |n| < 10 ^ 21 := lt_of_le_of_lt hn (by norm_num)
  simp only [JsVal.isRepresentable, Bool.and_eq_true, decide_eq_true_eq]
  refine ⟨?_, hsize⟩
  by_cases h0 : 0 ≤ n
  · obtain ⟨k, rfl⟩ := Int.eq_ofNat_of_zero_le h0
    have hk : k ≤ 2 ^ 53 := by
      rw [abs_of_nonneg h0] at hn
      exact_mod_cast hn
    simpa using roundToDouble_natCast k hk
  · have hneg : n < 0 := not_le.mp h0
    have hk : (-n).toNat ≤ 2 ^ 53 := by
      rw [abs_of_neg hneg] at hn
      omega
    have hpos := roundToDouble_natCast (-n).toNat hk
    have hcast : (((-n).toNat : ℕ) : ℚ) = -(n : ℚ) := by
      have : (((-n).toNat : ℕ) : ℤ) = -n := Int.toNat_of_nonneg (by omega)
      have h2 : (((-n).toNat : ℕ) : ℚ) = ((((-n).toNat : ℕ) : ℤ) : ℚ) := (Int.cast_natCast _).symm
      rw [h2, this]
      push_cast
      rfl
    rw [hcast] at hpos
    have hq0 : (n : ℚ) ≠ 0 := by exact_mod_cast ne_of_lt hneg
    have hqn : ¬ (0 : ℚ) < (n : ℚ) := by
      have : (n : ℚ) < 0 := by exact_mod_cast hneg
      linarith
    have hqp : (0 : ℚ) < -(n : ℚ) := by
      have : (n : ℚ) < 0 := by exact_mod_cast hneg
      linarith
    have hq0' : -(n : ℚ) ≠ 0 := ne_of_gt hqp
    simp only [roundToDouble, hq0', if_false, hqp, if_true] at hpos
    simp only [roundToDouble, hq0, if_false, hqn]
    split_ifs at hpos ⊢ with c1 c2 <;> simp_all

theorem calculateScoreDouble_product (b L u : ℚ) (hb0 : 0 ≤ b) (hb : b ≤ 10 ^ 12)
    (hL0 : 1 / 10 ^ 6 ≤ L) (hL : L ≤ 10 ^ 12) (hu0 : 0 ≤ u) (hu : u ≤ 10 ^ 12) :
    ∃ p : ℚ, calculateScoreDouble (.fin b) (.fin L) (.fin u) = .fin (roundHalfUp p)
      ∧ |p - b * (1 + Max.max 0 (L - u) / L * (1 / 2))| ≤ 1 / 500 := by
  have hLpos : 0 < L := lt_of_lt_of_le (by positivity) hL0
  have hLne : L ≠ 0 := ne_of_gt hLpos
  have hb' : b ≤ 1000000000000 := by norm_num at hb; exact hb
  have hL' : L ≤ 1000000000000 := by norm_num at hL; exact hL
  have hu' : u ≤ 1000000000000 := by norm_num at hu; exact hu
  have hLinv : 1 / L ≤ 1000000 := by
    rw [div_le_iff₀ hLpos]
    have : (1 : ℚ) / 10 ^ 6 = 1 / 1000000 := by norm_num
    rw [this] at hL0
    linarith
  have h100 : (1000000000000 : ℚ) ≤ 2 ^ 100 := by norm_num
  -- the remaining time
  set ρ0 : ℚ := Max.max 0 (L - u) with hρ0
  have hρ0_nonneg : 0 ≤ ρ0 := le_max_left _ _
  have hρ0_le : ρ0 ≤ L := max_le (le_of_lt hLpos) (by linarith)
  obtain ⟨s, hs, hs1, hs2, hs3⟩ := roundToDouble_step (L - u) (|L - u|) le_rfl (by
    have : |L - u| ≤ 1000000000000 := by
      rw [abs_le]
      constructor <;> linarith
    linarith)
  set rm : ℚ := if (0 : ℚ) ≤ s then s else 0 with hrm
  have hrm_nonneg : 0 ≤ rm := by
    rw [hrm]
    split_ifs with h
    · exact h
    · exact le_rfl
  have hrm_close : |rm - ρ0| ≤ L / 2 ^ 53 + 1 / 2 ^ 100 := by
    by_cases ht : 0 ≤ L - u
    · have hs0 := hs2 ht
      have e1 : rm = s := by rw [hrm, if_pos hs0]
      have e2 : ρ0 = L - u := by rw [hρ0, max_eq_right ht]
      have e3 : |L - u| ≤ L := by
        rw [abs_of_nonneg ht]
        linarith
      rw [e1, e2]
      have : |L - u| / 2 ^ 53 ≤ L / 2 ^ 53 := div_le_div_of_nonneg_right e3 (by positivity)
      linarith
    · have ht' : L - u ≤ 0 := le_of_lt (not_le.mp ht)
      have hs0 := hs3 ht'
      have e1 : rm = 0 := by
        rw [hrm]
        split_ifs with h
        · linarith
        · rfl
      have e2 : ρ0 = 0 := by rw [hρ0, max_eq_left ht']
      rw [e1, e2]
      simp only [sub_zero, abs_zero]
      positivity
  -- the ratio
  have hx1 : |rm / L - ρ0 / L| ≤ 1 / 2 ^ 53 + 1000000 / 2 ^ 100 := by
    have e : rm / L - ρ0 / L = (rm - ρ0) / L := by ring
    rw [e, abs_div, abs_of_pos hLpos]
    have h1 : |rm - ρ0| / L ≤ (L / 2 ^ 53 + 1 / 2 ^ 100) / L :=
      div_le_div_of_nonneg_right hrm_close (le_of_lt hLpos)
    have h2 : (L / 2 ^ 53 + 1 / 2 ^ 100) / L = 1 / 2 ^ 53 + 1 / 2 ^ 100 * (1 / L) := by
      field_simp
      ring
    have h3 : (1 : ℚ) / 2 ^ 100 * (1 / L) ≤ 1 / 2 ^ 100 * 1000000 :=
      mul_le_mul_of_nonneg_left hLinv (by positivity)
    rw [h2] at h1
    linarith
  have hratio0 : 0 ≤ ρ0 / L ∧ ρ0 / L ≤ 1 :=
    ⟨div_nonneg hρ0_nonneg (le_of_lt hLpos), (div_le_one hLpos).mpr hρ0_le⟩
  have hx1b : |rm / L| ≤ 2 := by
    have h := abs_le.mp hx1
    rw [abs_le]
    constructor
    · have : 0 ≤ rm / L := div_nonneg hrm_nonneg (le_of_lt hLpos)
      linarith
    · norm_num at h ⊢
      linarith [h.2, hratio0.2]
  obtain ⟨r1, hr1, hr1c, -, -⟩ := roundToDouble_step (rm / L) 2 hx1b (by norm_num)
  have hr1b : |r1 * (1 / 2)| ≤ 2 := by
    have h := abs_le.mp hr1c
    have h' := abs_le.mp hx1b
    rw [abs_le]
    norm_num at h ⊢
    constructor <;> linarith [h.1, h.2, h'.1, h'.2]
  obtain ⟨hh, hhv, hhc, -, -⟩ := roundToDouble_step (r1 * (1 / 2)) 2 hr1b (by norm_num)
  have hhb : |1 + hh| ≤ 4 := by
    have h := abs_le.mp hhc
    have h' := abs_le.mp hr1b
    rw [abs_le]
    norm_num at h ⊢
    constructor <;> linarith [h.1, h.2, h'.1, h'.2]
  obtain ⟨f, hf, hfc, -, -⟩ := roundToDouble_step (1 + hh) 4 hhb (by norm_num)
  have hfb : |f| ≤ 5 := by
    have h := abs_le.mp hfc
    have h' := abs_le.mp hhb
    rw [abs_le]
    norm_num at h ⊢
    constructor <;> linarith [h.1, h.2, h'.1, h'.2]
  have hbf : |b * f| ≤ 5000000000000 := by
    rw [abs_mul, abs_of_nonneg hb0]
    calc b * |f| ≤ 1000000000000 * 5 := mul_le_mul hb' hfb (abs_nonneg _) (by norm_num)
      _ = 5000000000000 := by norm_num
  obtain ⟨p, hp, hpc, -, -⟩ := roundToDouble_step (b * f) 5000000000000 hbf (by norm_num)
  refine ⟨p, ?_, ?_⟩
  · simp only [calculateScoreDouble, JsNum.sub, JsNum.toDouble, hs, JsNum.max, JsNum.div, hLne,
      if_false, hr1, JsNum.mul, hhv, JsNum.add, hf, hp, JsNum.round, roundHalfUp]
  · -- the factor is close to the exact one
    have hfclose : |f - (1 + ρ0 / L * (1 / 2))| ≤ 1 / 1000000000000000 := by
      have a1 := abs_le.mp hfc
      have a2 := abs_le.mp hhc
      have a3 := abs_le.mp hr1c
      have a4 := abs_le.mp hx1
      rw [abs_le]
      norm_num at a1 a2 a3 a4 ⊢
      constructor <;> linarith [a1.1, a1.2, a2.1, a2.2, a3.1, a3.2, a4.1, a4.2]
    have e : p - b * (1 + ρ0 / L * (1 / 2))
        = (p - b * f) + b * (f - (1 + ρ0 / L * (1 / 2))) := by ring
    rw [e]
    have hprod : |b * (f - (1 + ρ0 / L * (1 / 2)))| ≤ 1000000000000 * (1 / 1000000000000000) := by
      rw [abs_mul, abs_of_nonneg hb0]
      exact mul_le_mul hb' hfclose (abs_nonneg _) (by norm_num)
    have htri := abs_add (p - b * f) (b * (f - (1 + ρ0 / L * (1 / 2))))
    norm_num at hpc hprod ⊢
    linarith

theorem floor_close (x y : ℚ) (h : |x - y| < 1) : |(⌊x⌋ : ℤ) - ⌊y⌋| ≤ 1 := by
  have hx1 : ((⌊x⌋ : ℤ) : ℚ) ≤ x := Int.floor_le x
  have hx2 : x < ((⌊x⌋ : ℤ) : ℚ) + 1 := Int.lt_floor_add_one x
  have hy1 : ((⌊y⌋ : ℤ) : ℚ) ≤ y := Int.floor_le y
  have hy2 : y < ((⌊y⌋ : ℤ) : ℚ) + 1 := Int.lt_floor_add_one y
  obtain ⟨h1, h2⟩ := abs_lt.mp h
  have a1 : ((⌊x⌋ : ℤ) : ℚ) < ((⌊y⌋ : ℤ) : ℚ) + 2 := by linarith
  have a2 : ((⌊y⌋ : ℤ) : ℚ) < ((⌊x⌋ : ℤ) : ℚ) + 2 := by linarith
  have b1 : (⌊x⌋ : ℤ) < ⌊y⌋ + 2 := by exact_mod_cast a1
  have b2 : (⌊y⌋ : ℤ) < ⌊x⌋ + 2 := by exact_mod_cast a2
  rw [abs_le]
  constructor <;> omega

/-- C1 as worded does not hold: `calculateScore(100, 20, 9)` is 127, while the formula over
exact rationals gives `round(127.5) = 128`; the double product is `127.49999999999999`.  The
same happens at `(50, 10, 7)`, 57 against 58, and at `(11, 11, 8)`, 12 against 13. -/
theorem calculateScore_below_exact_formula :
    calculateScoreDouble (.fin 100) (.fin 20) (.fin 9) = .fin 127
      ∧ pointsGainedSpec 100 20 9 = 128
      ∧ calculateScoreDouble (.fin 50) (.fin 10) (.fin 7) = .fin 57
      ∧ pointsGainedSpec 50 10 7 = 58
      ∧ calculateScoreDouble (.fin 11) (.fin 11) (.fin 8) = .fin 12
      ∧ pointsGainedSpec 11 11 8 = 13 := by
  refine ⟨?_, ?_, ?_, ?_, ?_, ?_⟩ <;> decide!

/-- C1 (amended): for `0 ≤ basePoints ≤ 10^12`, `10^-6 ≤ timeLimit ≤ 10^12` and
`0 ≤ timeUsed ≤ 10^12`, `calculateScore`, computed in doubles, returns an integer that
differs by at most 1 from `round(basePoints * (1 + (max(0, limit - used) / limit) * 0.5))`
over exact rationals with ties rounded up, and equals it whenever the exact product is
farther than `1/500` from every half-integer; the three worked inputs give 1500, 1000 and
1250. -/
theorem calculateScoreDouble_near_formula (basePoints timeLimit timeUsed : ℚ)
    (hb0 : 0 ≤ basePoints) (hb : basePoints ≤ 10 ^ 12) (hL0 : 1 / 10 ^ 6 ≤ timeLimit)
    (hL : timeLimit ≤ 10 ^ 12) (hu0 : 0 ≤ timeUsed) (hu : timeUsed ≤ 10 ^ 12) :
    (∃ g : ℤ, calculateScoreDouble (.fin basePoints) (.fin timeLimit) (.fin timeUsed) = .fin g
      ∧ |g - pointsGainedSpec basePoints timeLimit timeUsed| ≤ 1
      ∧ ((∀ k : ℤ, 1 / 500 < |basePoints
              * (1 + (Max.max 0 (timeLimit - timeUsed) / timeLimit) * (1 / 2)) + 1 / 2 - k|) →
          g = pointsGainedSpec basePoints timeLimit timeUsed))
      ∧ pointsGainedSpec basePoints timeLimit timeUsed
        = ⌊basePoints * (1 + (Max.max 0 (timeLimit - timeUsed) / timeLimit) * (1 / 2)) + 1 / 2⌋
      ∧ calculateScoreDouble (.fin 1000) (.fin 30) (.fin 0) = .fin 1500
      ∧ calculateScoreDouble (.fin 1000) (.fin 30) (.fin 30) = .fin 1000
      ∧ calculateScoreDouble (.fin 1000) (.fin 30) (.fin 15) = .fin 1250 := by
  refine ⟨?_, rfl, by decide!, by decide!, by decide!⟩
  obtain ⟨p, hp, hclose⟩ :=
    calculateScoreDouble_product basePoints timeLimit timeUsed hb0 hb hL0 hL hu0 hu
  set E : ℚ := basePoints * (1 + (Max.max 0 (timeLimit - timeUsed) / timeLimit) * (1 / 2))
    with hE
  have hspec : pointsGainedSpec basePoints timeLimit timeUsed = ⌊E + 1 / 2⌋ := rfl
  have hg : roundHalfUp p = ⌊p + 1 / 2⌋ := rfl
  refine ⟨roundHalfUp p, hp, ?_, ?_⟩
  · rw [hspec, hg]
    apply floor_close
    have e : p + 1 / 2 - (E + 1 / 2) = p - E := by ring
    rw [e]
    exact lt_of_le_of_lt hclose (by norm_num)
  · intro hfar
    rw [hspec, hg, Int.floor_eq_iff]
    have h1 : ((⌊E + 1 / 2⌋ : ℤ) : ℚ) ≤ E + 1 / 2 := Int.floor_le _
    have h2 : E + 1 / 2 < ((⌊E + 1 / 2⌋ : ℤ) : ℚ) + 1 := Int.lt_floor_add_one _
    have f1 := hfar ⌊E + 1 / 2⌋
    have f2 := hfar (⌊E + 1 / 2⌋ + 1)
    rw [abs_of_nonneg (by linarith)] at f1
    rw [abs_of_nonpos (by push_cast; linarith)] at f2
    push_cast at f2
    obtain ⟨c1, c2⟩ := abs_le.mp hclose
    constructor <;> linarith

theorem calculateScoreDouble_near_formula_witness :
    ∃ g : ℤ, calculateScoreDouble (.fin 100) (.fin 20) (.fin 9) = .fin g
      ∧ |g - pointsGainedSpec 100 20 9| ≤ 1 :=
  match (calculateScoreDouble_near_formula 100 20 9 (by norm_num) (by norm_num) (by norm_num)
    (by norm_num) (by norm_num) (by norm_num)).1 with
  | ⟨g, h1, h2, _⟩ => ⟨g, h1, h2⟩

theorem pointsGainedSpec_bonus_bounds (L u : ℚ) (hL : 0 < L) (hu : 0 ≤ u) :
    1 ≤ 1 + (Max.max 0 (L - u) / L) * (1 / 2) ∧ 1 + (Max.max 0 (L - u) / L) * (1 / 2) ≤ 3 / 2 := by
  have h0 : 0 ≤ Max.max 0 (L - u) / L := div_nonneg (le_max_left _ _) hL.le
  have h1 : Max.max 0 (L - u) / L ≤ 1 := by
    rw [div_le_one hL]
    exact max_le hL.le (by linarith)
  constructor <;> linarith

/-- C2: for a positive integer `basePoints`, a positive time limit and a non-negative time used,
`calculateScore` returns an integer `g` with `basePoints ≤ g ≤ round(1.5 * basePoints)`, and
`g = basePoints` whenever the time used reaches the limit. -/
theorem calculateScore_range (basePoints : ℤ) (timeLimit timeUsed : ℚ)
    (hb : 0 < basePoints) (hL : 0 < timeLimit) (hu : 0 ≤ timeUsed) :
    ∃ g : ℤ, calculateScore (.fin basePoints) (.fin timeLimit) (.fin timeUsed) = .fin g
      ∧ basePoints ≤ g ∧ g ≤ roundHalfUp (3 / 2 * basePoints)
      ∧ (timeLimit ≤ timeUsed → g = basePoints) := by
  refine ⟨pointsGainedSpec basePoints timeLimit timeUsed, calculateScore_fin _ _ _ hL, ?_, ?_, ?_⟩
  · obtain ⟨h1, -⟩ := pointsGainedSpec_bonus_bounds timeLimit timeUsed hL hu
    have hb' : (0 : ℚ) < basePoints := by exact_mod_cast hb
    simp only [pointsGainedSpec, roundHalfUp, rat_floor_eq]
    apply Int.le_floor.mpr
    nlinarith
  · obtain ⟨-, h2⟩ := pointsGainedSpec_bonus_bounds timeLimit timeUsed hL hu
    have hb' : (0 : ℚ) < basePoints := by exact_mod_cast hb
    simp only [pointsGainedSpec, roundHalfUp, rat_floor_eq]
    apply Int.floor_mono
    nlinarith
  · intro h
    have hmax : Max.max 0 (timeLimit - timeUsed) = 0 := max_eq_left (by linarith)
    simp only [pointsGainedSpec, roundHalfUp, rat_floor_eq, hmax, zero_div, zero_mul, add_zero,
      mul_one]
    rw [Int.floor_eq_iff]
    constructor <;> norm_num

theorem calculateScore_range_witness :
    ∃ g : ℤ, calculateScore (.fin (1000 : ℤ)) (.fin 30) (.fin 40) = .fin g
      ∧ (1000 : ℤ) ≤ g ∧ g ≤ roundHalfUp (3 / 2 * (1000 : ℤ))
      ∧ ((30 : ℚ) ≤ 40 → g = 1000) :=
  calculateScore_range 1000 30 40 (by decide) (by norm_num) (by norm_num)

/-- C3: a negative `timeUsed` is not clamped: `calculateScore(1000, 30, -30)` is 2000, which
differs from `calculateScore(1000, 30, 0) = 1500` and exceeds `round(1.5 * 1000)`; the handler
of `submit_answer` hands a negative `timeUsed` on as it is. -/
theorem calculateScore_negative_timeUsed_unclamped :
    calculateScore (.fin 1000) (.fin 30) (.fin (-30)) = .fin 2000
      ∧ calculateScore (.fin 1000) (.fin 30) (.fin 0) = .fin 1500
      ∧ roundHalfUp (3 / 2 * 1000) = 1500
      ∧ liveGained question30 (some (.fin (-30))) = .fin 2000 := by
  refine ⟨?_, ?_, ?_, ?_⟩ <;> decide!

/-! ## Properties of the grading function -/

theorem decDigits_eq_digits (fuel n : Nat) (h : n ≤ fuel) : decDigits fuel n = Nat.digits 10 n := by
  induction fuel generalizing n with
  | zero =>
    have : n = 0 := by omega
    subst this
    simp [decDigits]
  | succ fuel ih =>
    by_cases hn : n = 0
    · subst hn
      simp [decDigits]
    · have hpos : 0 < n := Nat.pos_of_ne_zero hn
      rw [decDigits, if_neg hn, Nat.digits_def' (by norm_num) hpos, ih (n / 10) (by omega)]

theorem isDecDigit_digitChar (d : Nat) : isDecDigit (digitChar d) = true := by
  unfold digitChar
  split <;> decide

theorem digitChar_value (d : Nat) (h : d < 10) : (digitChar d).toNat - 48 = d := by
  interval_cases d <;> rfl

theorem not_ws_of_isDecDigit (c : Char) (h : isDecDigit c = true) : isJsWhiteSpace c = false := by
  simp only [isDecDigit, Bool.and_eq_true, decide_eq_true_eq] at h
  obtain ⟨h1, h2⟩ := h
  have h1' : 48 ≤ c.toNat := h1
  have h2' : c.toNat ≤ 57 := h2
  simp only [isJsWhiteSpace, Bool.or_eq_false_iff, Bool.and_eq_false_iff, beq_eq_false_iff_ne,
    decide_eq_false_iff_not]
  omega

theorem dropWhile_eq_self_of_head {p : Char → Bool} :
    ∀ (cs : List Char), (∀ c, cs.head? = some c → p c = false) → cs.dropWhile p = cs
  | [], _ => rfl
  | c :: cs, h => by
    have := h c rfl
    simp [List.dropWhile, this]

theorem jsTrim_eq_self (cs : List Char) (h : ∀ c ∈ cs, isJsWhiteSpace c = false) :
    jsTrim cs = cs := by
  unfold jsTrim
  rw [dropWhile_eq_self_of_head cs, dropWhile_eq_self_of_head cs.reverse, List.reverse_reverse]
  · intro c hc
    exact h c (List.mem_reverse.mp (List.mem_of_mem_head? hc))
  · intro c hc
    exact h c (List.mem_of_mem_head? hc)

theorem digitsValue_reverse_map (L : List Nat) (h : ∀ d ∈ L, d < 10) :
    digitsValue (L.reverse.map digitChar) = Nat.ofDigits 10 L := by
  induction L with
  | nil => rfl
  | cons d L ih =>
    have hd : d < 10 := h d (List.mem_cons_self _ _)
    have hL : ∀ e ∈ L, e < 10 := fun e he => h e (List.mem_cons_of_mem _ he)
    have ih' := ih hL
    unfold digitsValue at ih' ⊢
    rw [List.reverse_cons, List.map_append, List.foldl_append, ih']
    simp only [List.map_cons, List.map_nil, List.foldl_cons, List.foldl_nil, Nat.ofDigits_cons]
    rw [digitChar_value d hd]
    ring

theorem natToChars_spec (n : Nat) :
    isDigitString (natToChars n) = true ∧ digitsValue (natToChars n) = n
      ∧ ∀ c ∈ natToChars n, isDecDigit c = true := by
  unfold natToChars
  by_cases hn : n = 0
  · subst hn
    refine ⟨by decide, by decide, by decide⟩
  · rw [if_neg hn, decDigits_eq_digits n n le_rfl]
    have hall : ∀ c ∈ (Nat.digits 10 n).reverse.map digitChar, isDecDigit c = true := by
      intro c hc
      obtain ⟨d, -, rfl⟩ := List.mem_map.mp hc
      exact isDecDigit_digitChar d
    have hne : Nat.digits 10 n ≠ [] := by
      simpa [Nat.digits_eq_nil_iff_eq_zero] using hn
    refine ⟨?_, ?_, hall⟩
    · simp only [isDigitString, Bool.and_eq_true, Bool.not_eq_true', List.all_eq_true]
      refine ⟨?_, hall⟩
      cases hd : Nat.digits 10 n with
      | nil => exact absurd hd hne
      | cons a l => simp
    · rw [digitsValue_reverse_map _ (fun d hd => Nat.digits_lt_base (by norm_num) hd)]
      exact Nat.ofDigits_digits 10 n

theorem answerMap_cases (t : List Char) :
    (∃ k, letterIndex t = some k ∧ answerMap t = .num (.fin k))
      ∨ (letterIndex t = none ∧ (answerMap t = .inherited ∨ answerMap t = .null)) := by
  unfold letterIndex answerMap
  split_ifs <;> simp

theorem roundToDouble_ne_nan (q : ℚ) : roundToDouble q ≠ .nan := by
  unfold roundToDouble
  simp only []
  split_ifs <;> simp

theorem roundToDouble_nonneg (q y : ℚ) (hq : 0 ≤ q) (h : roundToDouble q = .fin y) : 0 ≤ y := by
  by_cases h0 : q = 0
  · subst h0
    simp only [roundToDouble, if_true, JsNum.fin.injEq] at h
    rw [← h]
  · have hpos : 0 < q := lt_of_le_of_ne hq (Ne.symm h0)
    simp only [roundToDouble, h0, if_false, hpos, if_true] at h
    split_ifs at h
    all_goals
      simp only [JsNum.fin.injEq] at h
      rw [← h]
      apply mul_nonneg
      · exact_mod_cast roundHalfEven_nonneg _ (le_of_lt (div_pos hpos (pow2_pos _)))
      · exact le_of_lt (pow2_pos _)

theorem textIndex_usable (t : List Char) (x : JsNum) (h : textIndex t = some x) :
    x ≠ .nan ∧ ∀ q, x = .fin q → 0 ≤ q := by
  unfold textIndex at h
  by_cases hd : isDigitString t = true
  · rw [if_pos hd] at h
    have hx : roundToDouble (digitsValue t) = x := Option.some.inj h
    rw [← hx]
    exact ⟨roundToDouble_ne_nan _, fun q hq => roundToDouble_nonneg _ q (by positivity) hq⟩
  · rw [if_neg hd] at h
    cases hl : letterIndex t with
    | none => rw [hl] at h; cases h
    | some k =>
      rw [hl] at h
      have hx : JsNum.fin (k : ℚ) = x := Option.some.inj h
      rw [← hx]
      refine ⟨by simp, ?_⟩
      intro q hq
      have : (k : ℚ) = q := JsNum.fin.inj hq
      rw [← this]
      positivity

theorem indexOfText_cases (t : List Char) :
    (∃ x, textIndex t = some x ∧ indexOfText t = .num x)
      ∨ (textIndex t = none ∧ (indexOfText t = .inherited ∨ indexOfText t = .null)) := by
  unfold indexOfText textIndex
  by_cases h : isDigitString t = true
  · simp [h]
  · simp only [h, if_false]
    rcases answerMap_cases t with ⟨k, hk, hm⟩ | ⟨hk, hm⟩
    · exact Or.inl ⟨.fin k, by simp [hk], hm⟩
    · exact Or.inr ⟨by simp [hk], hm⟩

theorem normalize_of_text (v : JsVal) (hv : v.isNullish = false) (hn : ∀ n, v ≠ .num n) :
    normalizeAnswerRepresentation v = textIndex (jsTrim (jsToString v)) := by
  cases v with
  | undefined => simp [JsVal.isNullish] at hv
  | null => simp [JsVal.isNullish] at hv
  | num n => exact absurd rfl (hn n)
  | bool b => rfl
  | str s => rfl
  | obj r => rfl
  | arr r t => rfl

theorem negative_text_index (m : Nat) :
    textIndex (jsTrim (jsToString (.num (Int.negSucc m)))) = none := by
  obtain ⟨-, -, h3⟩ := natToChars_spec (m + 1)
  have ht : jsTrim ('-' :: natToChars (m + 1)) = '-' :: natToChars (m + 1) := by
    apply jsTrim_eq_self
    intro c hc
    rcases List.mem_cons.mp hc with rfl | hc
    · decide
    · exact not_ws_of_isDecDigit c (h3 c hc)
  have hd : isDigitString ('-' :: natToChars (m + 1)) = false := by
    simp [isDigitString, isDecDigit]
  have hl : letterIndex ('-' :: natToChars (m + 1)) = none := by
    simp [letterIndex]
  simp only [jsToString, intToChars, ht, textIndex, hd, hl]
  rfl

theorem natural_text_index (m : Nat) :
    textIndex (jsTrim (jsToString (.num (Int.ofNat m)))) = some (roundToDouble (m : ℚ)) := by
  obtain ⟨h1, h2, h3⟩ := natToChars_spec m
  have ht : jsTrim (natToChars m) = natToChars m :=
    jsTrim_eq_self _ (fun c hc => not_ws_of_isDecDigit c (h3 c hc))
  simp only [jsToString, intToChars, ht, textIndex, h1, if_true, h2]

theorem storedIndex_none (v : JsVal) (hv : v.isNullish = false)
    (h : normalizeAnswerRepresentation v = none) :
    indexOfText (jsTrim (jsToString v)) = .inherited
      ∨ indexOfText (jsTrim (jsToString v)) = .null := by
  have key : textIndex (jsTrim (jsToString v)) = none := by
    by_cases hn : ∀ n, v ≠ .num n
    · rw [← normalize_of_text v hv hn]
      exact h
    · push_neg at hn
      obtain ⟨n, rfl⟩ := hn
      cases n with
      | ofNat m => simp [normalizeAnswerRepresentation] at h
      | negSucc m => exact negative_text_index m
  rcases indexOfText_cases (jsTrim (jsToString v)) with ⟨x, hx, -⟩ | ⟨-, h2⟩
  · rw [key] at hx
    cases hx
  · exact h2

theorem storedIndex_cases (v : JsVal) (hv : v.isNullish = false)
    (hr : v.isRepresentable = true) (x : JsNum) :
    indexOfText (jsTrim (jsToString v)) = .num x ↔ normalizeAnswerRepresentation v = some x := by
  have key : normalizeAnswerRepresentation v = textIndex (jsTrim (jsToString v)) := by
    by_cases hn : ∀ n, v ≠ .num n
    · exact normalize_of_text v hv hn
    · push_neg at hn
      obtain ⟨n, rfl⟩ := hn
      cases n with
      | ofNat m =>
        rw [natural_text_index m]
        simp only [JsVal.isRepresentable, Bool.and_eq_true, decide_eq_true_eq] at hr
        have hm : roundToDouble (m : ℚ) = .fin (m : ℚ) := by
          have := hr.1
          simpa using this
        simp [normalizeAnswerRepresentation, hm]
      | negSucc m =>
        rw [negative_text_index m]
        simp [normalizeAnswerRepresentation]
  rw [key]
  rcases indexOfText_cases (jsTrim (jsToString v)) with ⟨y, hy, hi⟩ | ⟨hy, hi | hi⟩
  · rw [hy, hi]
    constructor
    · intro h
      rw [IndexVal.num.inj h]
    · intro h
      rw [Option.some.inj h]
  · rw [hy, hi]
    constructor <;> intro h <;> cases h
  · rw [hy, hi]
    constructor <;> intro h <;> cases h

theorem indexOfText_usable (t : List Char) (x : JsNum) (h : indexOfText t = .num x) :
    x ≠ .nan ∧ ∀ q, x = .fin q → 0 ≤ q := by
  rcases indexOfText_cases t with ⟨y, hy, hi⟩ | ⟨-, hi | hi⟩
  · rw [hi] at h
    rw [← IndexVal.num.inj h]
    exact textIndex_usable t y hy
  · rw [hi] at h
    cases h
  · rw [hi] at h
    cases h

theorem providedIndex_cases (v : JsVal) (hv : v.isNullish = false) :
    (∃ x, normalizeAnswerRepresentation v = some x ∧ providedIndexOf v = .num x ∧ x ≠ .nan)
      ∨ (normalizeAnswerRepresentation v = none
        ∧ (providedIndexOf v = .null ∨ providedIndexOf v = .inherited
          ∨ ∃ q : ℚ, q < 0 ∧ providedIndexOf v = .num (.fin q))) := by
  by_cases hn : ∀ n, v ≠ .num n
  · have he : providedIndexOf v = indexOfText (jsTrim (jsToString v)) := by
      cases v with
      | num n => exact absurd rfl (hn n)
      | undefined => rfl
      | null => rfl
      | bool b => rfl
      | str s => rfl
      | obj r => rfl
      | arr r t => rfl
    rw [he, normalize_of_text v hv hn]
    rcases indexOfText_cases (jsTrim (jsToString v)) with ⟨y, hy, hi⟩ | ⟨hy, hi | hi⟩
    · exact Or.inl ⟨y, hy, hi, (textIndex_usable _ y hy).1⟩
    · exact Or.inr ⟨hy, Or.inr (Or.inl hi)⟩
    · exact Or.inr ⟨hy, Or.inl hi⟩
  · push_neg at hn
    obtain ⟨n, rfl⟩ := hn
    by_cases h0 : 0 ≤ n
    · exact Or.inl ⟨.fin n, by simp [normalizeAnswerRepresentation, h0], rfl, by simp⟩
    · refine Or.inr ⟨by simp [normalizeAnswerRepresentation, h0], Or.inr (Or.inr ⟨n, ?_, rfl⟩)⟩
      have : n < 0 := not_le.mp h0
      exact_mod_cast this

theorem normalize_nullish (v : JsVal) (hv : v.isNullish = true) :
    normalizeAnswerRepresentation v = none := by
  cases v <;> simp_all [JsVal.isNullish, normalizeAnswerRepresentation]

theorem strictEq_of_ne_nan (x y : JsNum) (hx : x ≠ .nan) (hy : y ≠ .nan) :
    x.strictEq y = decide (x = y) := by
  cases x <;> cases y <;> simp_all [JsNum.strictEq]

theorem strictEq_ne_of_ne (x y : JsNum) (h : x ≠ y) : x.strictEq y = false := by
  cases x <;> cases y <;> simp_all [JsNum.strictEq]

theorem gradeStored_true_iff (stored answerIndex : JsVal) :
    gradeStored stored answerIndex = true
      ↔ stored.isNullish = false
        ∧ ∃ x, indexOfText (jsTrim (jsToString stored)) = .num x
            ∧ normalizeAnswerRepresentation answerIndex = some x := by
  unfold gradeStored
  by_cases hs : stored.isNullish = true
  · simp [hs]
  have hs' : stored.isNullish = false := by simpa using hs
  by_cases ha : answerIndex.isNullish = true
  · simp [hs', ha, normalize_nullish answerIndex ha]
  have ha' : answerIndex.isNullish = false := by simpa using ha
  simp only [hs', ha', Bool.false_eq_true, if_false, true_and]
  cases hci : indexOfText (jsTrim (jsToString stored)) with
  | null => simp
  | inherited => simp [IndexVal.toNumber, JsNum.strictEq]
  | num x =>
    obtain ⟨hx1, hx2⟩ := indexOfText_usable _ x hci
    rcases providedIndex_cases answerIndex ha' with ⟨y, hy1, hy2, hy3⟩ | ⟨hy1, hy2 | hy2 | hy2⟩
    · simp [hy1, hy2, IndexVal.toNumber, strictEq_of_ne_nan x y hx1 hy3, eq_comm]
    · simp [hy1, hy2]
    · have hf : x.strictEq JsNum.nan = false := by cases x <;> rfl
      simp [hy1, hy2, IndexVal.toNumber, hf]
    · obtain ⟨q, hq, hy2⟩ := hy2
      have hne : x ≠ .fin q := by
        intro he
        have := hx2 q he
        linarith
      simp [hy1, hy2, IndexVal.toNumber, strictEq_ne_of_ne x (.fin q) hne]

theorem gradeStored_iff (stored answerIndex : JsVal) (hr : stored.isRepresentable = true) :
    gradeStored stored answerIndex = true
      ↔ ∃ i, normalizeAnswerRepresentation stored = some i
          ∧ normalizeAnswerRepresentation answerIndex = some i := by
  rw [gradeStored_true_iff]
  by_cases hs : stored.isNullish = true
  · simp [hs, normalize_nullish stored hs]
  have hs' : stored.isNullish = false := by simpa using hs
  simp only [hs', true_and]
  constructor
  · rintro ⟨x, h1, h2⟩
    exact ⟨x, (storedIndex_cases stored hs' hr x).mp h1, h2⟩
  · rintro ⟨x, h1, h2⟩
    exact ⟨x, (storedIndex_cases stored hs' hr x).mpr h1, h2⟩

theorem gradeStored_false_of_none (stored answerIndex : JsVal)
    (h : normalizeAnswerRepresentation stored = none
      ∨ normalizeAnswerRepresentation answerIndex = none) :
    gradeStored stored answerIndex = false := by
  cases hg : gradeStored stored answerIndex with
  | false => rfl
  | true =>
    obtain ⟨hs, x, h1, h2⟩ := (gradeStored_true_iff _ _).mp hg
    rcases h with h | h
    · rcases storedIndex_none stored hs h with h3 | h3
      · rw [h3] at h1
        cases h1
      · rw [h3] at h1
        cases h1
    · rw [h] at h2
      cases h2

theorem checkCorrectAnswer_of_found (db : Db) (questionId answerIndex : JsVal) (q : Question)
    (hq : getQuestionById db questionId = .ok (some q)) :
    checkCorrectAnswer db questionId answerIndex = gradeStored q.correctAnswer answerIndex := by
  unfold checkCorrectAnswer
  by_cases hg : (!questionId.truthy && questionId != .num 0) = true
  · simp [getQuestionById, hg] at hq
  · simp [hg, hq]

/-- C4 as worded does not hold: with `B` stored, the submitted text `b` padded with blanks is
graded correct although the worded rule gives that text no index. -/
theorem checkCorrectAnswer_worded_rule_fails :
    ¬ (∀ stored submitted : JsVal,
        checkCorrectAnswer (oneRowDb stored) (.num 1) submitted = true
          ↔ ∃ i, canonicalIndexAsWorded stored = some i
              ∧ canonicalIndexAsWorded submitted = some i) := by
  intro h
  have h1 := (h (.str "B") (.str " b ")).mp (by decide!)
  obtain ⟨i, -, hi⟩ := h1
  have hnone : canonicalIndexAsWorded (.str " b ") = none := by decide
  rw [hnone] at hi
  cases hi

/-- C4 (amended): when the question is found, `checkCorrectAnswer` is true exactly when the
stored and the submitted answer, each canonicalised by the same rule, both have an index and
the indices are equal.  The rule: a raw integer that is not negative is its own index and a
negative one has none; any other value is read through its text `String(x)` with the
surrounding white space trimmed, where a text of decimal digits is the number it denotes (the
double nearest to its value), a single letter A-D/a-d is 0-3, and every other text, like
`null` and `undefined`, has no index.  So stored `b` with submitted `1`, stored `C` with
submitted `2`, stored `B` with the submitted array `['b']`, and the stored digits
`9007199254740993` with the submitted digits `9007199254740992` are correct, and stored `A`
with submitted `B` is not.  A stored raw integer is taken to be a number of the language,
which every integer up to `2^53` in size is. -/
theorem checkCorrectAnswer_iff_same_index (db : Db) (questionId answerIndex : JsVal)
    (q : Question) (hq : getQuestionById db questionId = .ok (some q))
    (hr : q.correctAnswer.isRepresentable = true) :
    (checkCorrectAnswer db questionId answerIndex = true
      ↔ ∃ i, normalizeAnswerRepresentation q.correctAnswer = some i
          ∧ normalizeAnswerRepresentation answerIndex = some i)
    ∧ checkCorrectAnswer (oneRowDb (.str "b")) (.num 1) (.num 1) = true
    ∧ checkCorrectAnswer (oneRowDb (.str "C")) (.num 1) (.str "2") = true
    ∧ checkCorrectAnswer (oneRowDb (.str "A")) (.num 1) (.str "B") = false
    ∧ checkCorrectAnswer (oneRowDb (.str "B")) (.num 1) (.arr 0 (arrayText [.str "b"])) = true
    ∧ checkCorrectAnswer (oneRowDb (.str "9007199254740993")) (.num 1)
        (.str "9007199254740992") = true
    ∧ ∀ n : ℤ, |n| ≤ 2 ^ 53 → (JsVal.num n).isRepresentable = true := by
  refine ⟨?_, by decide!, by decide!, by decide!, by decide!, by decide!,
    isRepresentable_of_safe⟩
  rw [checkCorrectAnswer_of_found db questionId answerIndex q hq]
  exact gradeStored_iff _ _ hr

theorem checkCorrectAnswer_iff_same_index_witness :
    getQuestionById (oneRowDb (.str "b")) (.num 1)
        = .ok (some (formatQuestion { id := .num 1, correct_answer := .str "b" }))
      ∧ (checkCorrectAnswer (oneRowDb (.str "b")) (.num 1) (.str " 1 ") = true
        ↔ ∃ i, normalizeAnswerRepresentation
              (formatQuestion { id := .num 1, correct_answer := .str "b" }).correctAnswer = some i
            ∧ normalizeAnswerRepresentation (.str " 1 ") = some i)
      ∧ (JsVal.num 2).isRepresentable = true
      ∧ (checkCorrectAnswer (oneRowDb (.num 2)) (.num 1) (.arr 0 (arrayText [.str "C"])) = true
        ↔ ∃ i, normalizeAnswerRepresentation
              (formatQuestion { id := .num 1, correct_answer := .num 2 }).correctAnswer = some i
            ∧ normalizeAnswerRepresentation (.arr 0 (arrayText [.str "C"])) = some i) :=
  ⟨rfl, (checkCorrectAnswer_iff_same_index (oneRowDb (.str "b")) (.num 1) (.str " 1 ")
      (formatQuestion { id := .num 1, correct_answer := .str "b" }) rfl rfl).1,
   by decide!,
   (checkCorrectAnswer_iff_same_index (oneRowDb (.num 2)) (.num 1)
      (.arr 0 (arrayText [.str "C"]))
      (formatQuestion { id := .num 1, correct_answer := .num 2 }) rfl (by decide!)).1⟩

/-- C5: `checkCorrectAnswer` always answers with a boolean, and the answer is `false` whenever
the question is not found (missing, or the store fails) or the stored or the submitted answer
has no canonical index; so for `null`, `undefined`, the empty string, a letter outside A-D and
a word of several letters. -/
theorem checkCorrectAnswer_false_of_unusable (db : Db) (questionId answerIndex : JsVal)
    (h : (∀ q, getQuestionById db questionId ≠ .ok (some q))
      ∨ ∃ q, getQuestionById db questionId = .ok (some q)
          ∧ (normalizeAnswerRepresentation q.correctAnswer = none
            ∨ normalizeAnswerRepresentation answerIndex = none)) :
    checkCorrectAnswer db questionId answerIndex = false
      ∧ normalizeAnswerRepresentation .null = none
      ∧ normalizeAnswerRepresentation .undefined = none
      ∧ normalizeAnswerRepresentation (.str "") = none
      ∧ normalizeAnswerRepresentation (.str "E") = none
      ∧ normalizeAnswerRepresentation (.str "AB") = none := by
  refine ⟨?_, rfl, rfl, by decide, by decide, by decide⟩
  rcases h with h | ⟨q, hq, h⟩
  · unfold checkCorrectAnswer
    split_ifs
    · rfl
    · cases hg : getQuestionById db questionId with
      | error e => rfl
      | ok r =>
        cases r with
        | none => rfl
        | some q => exact absurd hg (h q)
  · rw [checkCorrectAnswer_of_found db questionId answerIndex q hq]
    exact gradeStored_false_of_none _ _ h

theorem checkCorrectAnswer_false_of_unusable_witness :
    checkCorrectAnswer failingDb (.num 1) (.str "A") = false
      ∧ checkCorrectAnswer (oneRowDb (.str "A")) (.num 7) (.str "A") = false
      ∧ checkCorrectAnswer (oneRowDb (.str "A")) (.num 1) (.str "AB") = false :=
  ⟨(checkCorrectAnswer_false_of_unusable failingDb (.num 1) (.str "A")
      (Or.inl (fun q h => by
        have he : getQuestionById failingDb (.num 1) = .error "connection lost" := rfl
        rw [he] at h
        cases h))).1,
   (checkCorrectAnswer_false_of_unusable (oneRowDb (.str "A")) (.num 7) (.str "A")
      (Or.inl (fun q h => by
        have he : getQuestionById (oneRowDb (.str "A")) (.num 7) = .ok none := rfl
        rw [he] at h
        cases h))).1,
   (checkCorrectAnswer_false_of_unusable (oneRowDb (.str "A")) (.num 1) (.str "AB")
      (Or.inr ⟨formatQuestion { id := .num 1, correct_answer := .str "A" }, rfl,
        Or.inr (by decide)⟩)).1⟩

/-! ## Properties of the ranking -/

theorem rankingCompare_le_iff (lc : String → String → Int) (a b : Player) :
    rankingCompare lc a b ≤ 0
      ↔ a.score > b.score ∨ (a.score = b.score ∧ lc a.name b.name ≤ 0) := by
  unfold rankingCompare
  by_cases h : b.score - a.score ≠ 0
  · rw [if_pos h]
    constructor
    · intro hle
      left
      have : b.score ≠ a.score := fun e => h (by rw [e]; ring)
      rcases lt_or_gt_of_ne this with h1 | h1
      · exact h1
      · linarith
    · rintro (h1 | ⟨h1, -⟩)
      · linarith
      · exact absurd (by rw [h1]; ring) h
  · rw [if_neg h]
    have he : a.score = b.score := by
      have : b.score - a.score = 0 := by simpa using h
      linarith
    constructor
    · intro hle
      exact Or.inr ⟨he, by exact_mod_cast hle⟩
    · rintro (h1 | ⟨-, h2⟩)
      · rw [he] at h1
        exact absurd h1 (lt_irrefl _)
      · exact_mod_cast h2

theorem jsSort_rankingCompare_sorted (lc : String → String → Int)
    (hTotal : ∀ a b, lc a b ≤ 0 ∨ lc b a ≤ 0)
    (hTrans : ∀ a b c, lc a b ≤ 0 → lc b c ≤ 0 → lc a c ≤ 0) (l : List Player) :
    List.Sorted (fun a b => rankingCompare lc a b ≤ 0) (jsSort (rankingCompare lc) l) := by
  haveI : IsTotal Player (fun a b => rankingCompare lc a b ≤ 0) := ⟨by
    intro a b
    simp only [rankingCompare_le_iff]
    rcases lt_trichotomy a.score b.score with h | h | h
    · exact Or.inr (Or.inl h)
    · rcases hTotal a.name b.name with h1 | h1
      · exact Or.inl (Or.inr ⟨h, h1⟩)
      · exact Or.inr (Or.inr ⟨h.symm, h1⟩)
    · exact Or.inl (Or.inl h)⟩
  haveI : IsTrans Player (fun a b => rankingCompare lc a b ≤ 0) := ⟨by
    intro a b c
    simp only [rankingCompare_le_iff]
    rintro (h1 | ⟨h1, h1'⟩) (h2 | ⟨h2, h2'⟩)
    · exact Or.inl (lt_trans h2 h1)
    · exact Or.inl (by rw [← h2]; exact h1)
    · exact Or.inl (by rw [h1]; exact h2)
    · exact Or.inr ⟨h1.trans h2, hTrans _ _ _ h1' h2'⟩⟩
  exact List.sorted_insertionSort _ l

theorem chain'_enum_map {α β : Type} (S : α → α → Prop) (R : β → β → Prop) (f : ℕ × α → β)
    (hf : ∀ a b : ℕ × α, S a.2 b.2 → R (f a) (f b)) (l : List α) (h : List.Chain' S l) :
    List.Chain' R (l.enum.map f) := by
  rw [List.chain'_map]
  have h2 : List.Chain' (fun a b : ℕ × α => S a.2 b.2) l.enum := by
    rw [← List.chain'_map (f := Prod.snd), List.enum_map_snd]
    exact h
  exact h2.imp hf

theorem asciiLocaleCompare_le_iff (a b : String) :
    asciiLocaleCompare a b ≤ 0 ↔ collationKey a ≤ collationKey b := by
  unfold asciiLocaleCompare
  split_ifs with h1 h2
  · simp [le_of_lt h1]
  · simp [not_le_of_lt h2]
  · have : collationKey a = collationKey b := le_antisymm (not_lt.mp h2) (not_lt.mp h1)
    simp [this]

theorem asciiLocaleCompare_total (a b : String) :
    asciiLocaleCompare a b ≤ 0 ∨ asciiLocaleCompare b a ≤ 0 := by
  simp only [asciiLocaleCompare_le_iff]
  exact le_total _ _

theorem asciiLocaleCompare_trans (a b c : String) (h1 : asciiLocaleCompare a b ≤ 0)
    (h2 : asciiLocaleCompare b c ≤ 0) : asciiLocaleCompare a c ≤ 0 := by
  simp only [asciiLocaleCompare_le_iff] at *
  exact le_trans h1 h2

/-- C8 as worded does not hold: two players of equal score named `B` and `a` are ranked
`a` first, although `a <= B` is false in case-sensitive lexical comparison. -/
theorem getRanking_not_lexical :
    (getRanking asciiLocaleCompare mixedCaseLedger (.str "r")).map (fun e => (e.name, e.score))
        = [("a", 80), ("B", 80)]
      ∧ ¬ List.Chain' (fun p q : RankEntry =>
            p.score > q.score ∨ (p.score = q.score ∧ lexLe p.name.toList q.name.toList = true))
          (getRanking asciiLocaleCompare mixedCaseLedger (.str "r")) := by
  constructor
  · decide!
  · have h : getRanking asciiLocaleCompare mixedCaseLedger (.str "r")
        = [ { rank := 1, name := "a", score := 80, socketId := "s2" },
            { rank := 2, name := "B", score := 80, socketId := "s1" } ] := by decide!
    rw [h]
    simp [lexLe]

/-- C8 (amended): for every ledger and room id, `getRanking` is ordered by score descending
and, among equal scores, by name ascending in the collation of `localeCompare`: for every
adjacent pair either `p.score > q.score`, or the scores are equal and
`p.name.localeCompare(q.name) <= 0`.  The example of the specification is ranked
Anh(80), Zed(80), Bao(50), Chi(10). -/
theorem getRanking_sorted (localeCompare : String → String → Int)
    (hTotal : ∀ a b, localeCompare a b ≤ 0 ∨ localeCompare b a ≤ 0)
    (hTrans : ∀ a b c, localeCompare a b ≤ 0 → localeCompare b c ≤ 0 → localeCompare a c ≤ 0)
    (ledger : Ledger) (roomId : JsVal) :
    List.Chain' (fun p q : RankEntry =>
        p.score > q.score ∨ (p.score = q.score ∧ localeCompare p.name q.name ≤ 0))
      (getRanking localeCompare ledger roomId)
    ∧ (getRanking asciiLocaleCompare exampleLedger (.str "r")).map (fun e => (e.name, e.score))
        = [("Anh", 80), ("Zed", 80), ("Bao", 50), ("Chi", 10)] := by
  refine ⟨?_, by decide!⟩
  unfold getRanking
  apply chain'_enum_map (fun a b => rankingCompare localeCompare a b ≤ 0)
  · intro a b h
    exact (rankingCompare_le_iff localeCompare a.2 b.2).mp h
  · exact (jsSort_rankingCompare_sorted localeCompare hTotal hTrans _).chain'

theorem getRanking_sorted_witness :
    List.Chain' (fun p q : RankEntry =>
        p.score > q.score ∨ (p.score = q.score ∧ asciiLocaleCompare p.name q.name ≤ 0))
      (getRanking asciiLocaleCompare mixedCaseLedger (.str "r")) :=
  (getRanking_sorted asciiLocaleCompare asciiLocaleCompare_total asciiLocaleCompare_trans
    mixedCaseLedger (.str "r")).1

/-- C9: `getRanking(roomId)` lists exactly the players of `getPlayersInRoom(roomId)`, each with
its own name, score and socket id (a permutation, so every socket id occurs once), the players
listed are the players of the ledger whose room is `roomId`, and the entry at offset `i` has
rank `i + 1`: the ranks are `1..n`. -/
theorem getRanking_perm_ranks (localeCompare : String → String → Int) (ledger : Ledger)
    (roomId : JsVal) (hKeys : (ledger.map (fun p => p.socketId)).Nodup) :
    List.Perm ((getRanking localeCompare ledger roomId).map fun e => (e.name, e.score, e.socketId))
        ((getPlayersInRoom ledger roomId).map fun p => (p.name, p.score, p.socketId))
      ∧ getPlayersInRoom ledger roomId = ledger.filter (fun p => decide (p.roomId = roomId))
      ∧ (getRanking localeCompare ledger roomId).map (fun e => e.rank)
          = List.range' 1 (getPlayersInRoom ledger roomId).length
      ∧ ((getRanking localeCompare ledger roomId).map (fun e => e.socketId)).Nodup := by
  have hperm : List.Perm
      ((getRanking localeCompare ledger roomId).map fun e => (e.name, e.score, e.socketId))
      ((getPlayersInRoom ledger roomId).map fun p => (p.name, p.score, p.socketId)) := by
    unfold getRanking jsSort
    rw [List.map_map]
    have h1 : ((fun e : RankEntry => (e.name, e.score, e.socketId)) ∘ fun ip : ℕ × Player =>
          ({ rank := ip.1 + 1, name := ip.2.name, score := ip.2.score,
             socketId := ip.2.socketId } : RankEntry))
        = (fun p : Player => (p.name, p.score, p.socketId)) ∘ Prod.snd := rfl
    rw [h1, ← List.map_map, List.enum_map_snd]
    exact (List.perm_insertionSort _ _).map _
  refine ⟨hperm, rfl, ?_, ?_⟩
  · unfold getRanking jsSort
    rw [List.map_map]
    have h1 : ((fun e : RankEntry => e.rank) ∘ fun ip : ℕ × Player =>
          ({ rank := ip.1 + 1, name := ip.2.name, score := ip.2.score,
             socketId := ip.2.socketId } : RankEntry))
        = (fun i : ℕ => i + 1) ∘ Prod.fst := rfl
    rw [h1, ← List.map_map, List.enum_map_fst, List.length_insertionSort,
      List.range'_eq_map_range]
    apply List.map_congr_left
    intro i _
    omega
  · have h2 : ((getRanking localeCompare ledger roomId).map fun e => e.socketId)
        = ((getRanking localeCompare ledger roomId).map
            fun e => (e.name, e.score, e.socketId)).map (fun t => t.2.2) := by
      rw [List.map_map]
      rfl
    rw [h2]
    refine ((hperm.map (fun t => t.2.2)).nodup_iff).mpr ?_
    rw [List.map_map]
    have h3 : ((fun t : String × ℚ × String => t.2.2) ∘ fun p : Player =>
        (p.name, p.score, p.socketId)) = fun p : Player => p.socketId := rfl
    rw [h3]
    exact (List.filter_sublist _).map _ |>.nodup hKeys

theorem getRanking_perm_ranks_witness :
    (getRanking asciiLocaleCompare exampleLedger (.str "r")).map (fun e => e.rank)
        = List.range' 1 (getPlayersInRoom exampleLedger (.str "r")).length
      ∧ (getRanking asciiLocaleCompare exampleLedger (.str "r")).map (fun e => e.socketId)
        = ["s2", "s3", "s1", "s4"] :=
  ⟨(getRanking_perm_ranks asciiLocaleCompare exampleLedger (.str "r") (by decide)).2.2.1,
   by decide!⟩

/-! ## Properties of the session flow -/

/-- C6: the rule of the live room and `checkCorrectAnswer` disagree: with `B` stored, the
submitted letter `b` is wrong in the room and correct in the catalogue; with `A` stored, a
`null` or empty answer is correct in the room and wrong in the catalogue. -/
theorem liveCorrect_differs_from_checkCorrectAnswer :
    liveCorrect questionB (.str "b") = false
      ∧ checkCorrectAnswer (oneRowDb (.str "B")) (.num 1) (.str "b") = true
      ∧ liveCorrect questionA .null = true
      ∧ checkCorrectAnswer (oneRowDb (.str "A")) (.num 1) .null = false
      ∧ liveCorrect questionA (.str "") = true
      ∧ checkCorrectAnswer (oneRowDb (.str "A")) (.num 1) (.str "") = false := by
  refine ⟨?_, ?_, ?_, ?_, ?_, ?_⟩ <;> decide!

/-- C7: in the handler of `submit_answer`, a `null` answer to a question whose stored answer
is `A` is graded correct, gains 1500 points and raises the score of the player by 1500; the
empty string is graded correct as well, an absent answer is not. -/
theorem submitAnswer_null_graded_correct :
    (run asciiLocaleCompare twoPlayerServer
        [.chooseSet (.str "r") [questionA], .submit (submissionWith .null)]).out.drop 1
      = [.revealAnswer (.str "r") (.num (.fin 0)), .answerResult "s1" true (.fin 1500),
         .rankingData (.str "r")
           [{ rank := 1, name := "Anh", score := 1500, socketId := "s1" },
            { rank := 2, name := "Bao", score := 0, socketId := "s2" }]]
      ∧ (run asciiLocaleCompare twoPlayerServer
          [.chooseSet (.str "r") [questionA], .submit (submissionWith .null)]).players.map
            (fun p => (p.socketId, p.score)) = [("s1", 1500), ("s2", 0)]
      ∧ liveCorrect questionA (.str "") = true
      ∧ liveCorrect { questionA with correctAnswer := .num 0 } .null = true
      ∧ liveCorrect questionA .undefined = false := by
  refine ⟨?_, ?_, ?_, ?_, ?_⟩ <;> decide!

/-- C10: the cursor leaves its bounds: after a one-question list is loaded for room `r` and
two players answer correctly before the pause ends, `currentIndex` is 2 while the list has
one question. -/
theorem cursor_exceeds_length :
    ((run asciiLocaleCompare twoPlayerServer doubleSubmitTrace).room (.str "r")).map
        (fun room => (room.currentIndex, room.questions.length)) = some (2, 1)
      ∧ cursorInBounds (run asciiLocaleCompare twoPlayerServer [.chooseSet (.str "r") [questionA],
          .submit (correctSubmission "s1")]) = true
      ∧ cursorInBounds (run asciiLocaleCompare twoPlayerServer doubleSubmitTrace) = false := by
  refine ⟨?_, ?_, ?_⟩ <;> decide!

/-! ## Properties of the ledger -/

theorem find?_socketId_eq_none_iff (ledger : Ledger) (socketId : String) :
    getPlayerFromMemory ledger socketId = none ↔ ∀ p ∈ ledger, p.socketId ≠ socketId := by
  simp [getPlayerFromMemory, List.find?_eq_none]

theorem filter_ne_eq_self (ledger : Ledger) (socketId : String)
    (h : getPlayerFromMemory ledger socketId = none) :
    ledger.filter (fun p => p.socketId != socketId) = ledger := by
  rw [List.filter_eq_self]
  intro p hp
  have := (find?_socketId_eq_none_iff ledger socketId).mp h p hp
  simpa using this

/-- C19: `removePlayer(socketId)` on a socket id that is not in the ledger returns `false`
and leaves the ledger as it is; on a socket id that is present it returns `true`, after which
`getPlayerFromMemory(socketId)` is `null`, no room lists the player, every other player is
kept unchanged and in place, and a second `removePlayer` returns `false` and changes nothing;
a failure of the store makes no difference. -/
theorem removePlayer_spec (ledger : Ledger) (socketId : String) (persistOk : Bool) :
    (getPlayerFromMemory ledger socketId = none →
        removePlayer ledger socketId persistOk = (ledger, false))
      ∧ (getPlayerFromMemory ledger socketId ≠ none →
        (removePlayer ledger socketId persistOk).2 = true
          ∧ getPlayerFromMemory (removePlayer ledger socketId persistOk).1 socketId = none
          ∧ (∀ roomId, ∀ p ∈ getPlayersInRoom (removePlayer ledger socketId persistOk).1 roomId,
              p.socketId ≠ socketId)
          ∧ (removePlayer ledger socketId persistOk).1
              = ledger.filter (fun p => decide (p.socketId ≠ socketId))
          ∧ removePlayer (removePlayer ledger socketId persistOk).1 socketId persistOk
              = ((removePlayer ledger socketId persistOk).1, false))
      ∧ removePlayer ledger socketId persistOk = removePlayer ledger socketId true := by
  have hrem : ∀ b, getPlayerFromMemory ledger socketId ≠ none →
      removePlayer ledger socketId b = (ledger.filter (fun p => p.socketId != socketId), true) := by
    intro b h
    unfold removePlayer
    cases hg : getPlayerFromMemory ledger socketId with
    | none => exact absurd hg h
    | some p => cases b <;> rfl
  have hgone : getPlayerFromMemory (ledger.filter (fun p => p.socketId != socketId)) socketId
      = none := by
    rw [find?_socketId_eq_none_iff]
    intro p hp
    have := (List.mem_filter.mp hp).2
    simpa using this
  refine ⟨?_, ?_, ?_⟩
  · intro h
    simp [removePlayer, h]
  · intro h
    rw [hrem persistOk h]
    refine ⟨rfl, hgone, ?_, ?_, ?_⟩
    · intro roomId p hp
      have hp' : p ∈ ledger.filter (fun p => p.socketId != socketId) :=
        (List.mem_filter.mp hp).1
      have := (List.mem_filter.mp hp').2
      simpa using this
    · apply List.filter_congr
      intro p _
      by_cases hp : p.socketId = socketId <;> simp [hp]
    · simp [removePlayer, hgone]
  · by_cases h : getPlayerFromMemory ledger socketId = none
    · simp [removePlayer, h]
    · rw [hrem persistOk h, hrem true h]

theorem removePlayer_spec_witness :
    removePlayer exampleLedger "nobody" true = (exampleLedger, false)
      ∧ (removePlayer exampleLedger "s2" false).2 = true
      ∧ getPlayerFromMemory (removePlayer exampleLedger "s2" false).1 "s2" = none :=
  ⟨(removePlayer_spec exampleLedger "nobody" true).1 (by decide),
   ((removePlayer_spec exampleLedger "s2" false).2.1 (by decide)).1,
   ((removePlayer_spec exampleLedger "s2" false).2.1 (by decide)).2.1⟩

theorem ledgerSet_absent (ledger : Ledger) (player : Player)
    (h : getPlayerFromMemory ledger player.socketId = none) :
    ledgerSet ledger player = ledger ++ [player] := by
  have hall := (find?_socketId_eq_none_iff ledger player.socketId).mp h
  have hany : ledger.any (fun p => decide (p.socketId = player.socketId)) = false := by
    rw [List.any_eq_false]
    intro p hp
    simpa using hall p hp
  simp [ledgerSet, hany]

theorem ledgerSet_present (ledger : Ledger) (player : Player)
    (h : getPlayerFromMemory ledger player.socketId ≠ none) :
    ledgerSet ledger player
      = ledger.map (fun p => if p.socketId = player.socketId then player else p) := by
  have hany : ledger.any (fun p => decide (p.socketId = player.socketId)) = true := by
    by_contra hc
    have hc' : ledger.any (fun p => decide (p.socketId = player.socketId)) = false := by
      simpa using hc
    rw [List.any_eq_false] at hc'
    apply h
    rw [find?_socketId_eq_none_iff]
    intro p hp
    simpa using hc' p hp
  simp [ledgerSet, hany]

theorem map_replace_filter_eq (player : Player) :
    ∀ (l : Ledger), (l.map (fun p => p.socketId)).Nodup →
      (∃ p ∈ l, p.socketId = player.socketId) →
      (l.map (fun p => if p.socketId = player.socketId then player else p)).filter
        (fun p => decide (p.socketId = player.socketId)) = [player]
  | [], _, h => by simp at h
  | a :: t, hnd, h => by
    have hnd' : a.socketId ∉ t.map (fun p => p.socketId) ∧ (t.map (fun p => p.socketId)).Nodup := by
      simpa using hnd
    by_cases ha : a.socketId = player.socketId
    · have hnone : ∀ p ∈ t, p.socketId ≠ player.socketId := by
        intro p hp hpe
        apply hnd'.1
        rw [ha, ← hpe]
        exact List.mem_map_of_mem _ hp
      have ht : (t.map (fun p => if p.socketId = player.socketId then player else p)).filter
          (fun p => decide (p.socketId = player.socketId)) = [] := by
        rw [List.filter_eq_nil_iff]
        intro p hp
        obtain ⟨x, hx, rfl⟩ := List.mem_map.mp hp
        simp [hnone x hx]
      simp [ha, ht]
    · have h' : ∃ p ∈ t, p.socketId = player.socketId := by
        obtain ⟨p, hp, hpe⟩ := h
        rcases List.mem_cons.mp hp with rfl | hp
        · exact absurd hpe ha
        · exact ⟨p, hp, hpe⟩
      have ih := map_replace_filter_eq player t hnd'.2 h'
      simp [ha, ih]

theorem map_replace_filter_ne (player : Player) (l : Ledger) :
    (l.map (fun p => if p.socketId = player.socketId then player else p)).filter
        (fun p => decide (p.socketId ≠ player.socketId))
      = l.filter (fun p => decide (p.socketId ≠ player.socketId)) := by
  induction l with
  | nil => rfl
  | cons a t ih =>
    by_cases ha : a.socketId = player.socketId
    · simp only [List.map_cons, ha, if_true, List.filter_cons, ne_eq, not_true_eq_false,
        decide_False, Bool.false_eq_true, if_false]
      exact ih
    · simp only [List.map_cons, ha, if_false, List.filter_cons, ne_eq, not_false_eq_true,
        decide_True, if_true]
      rw [ih]

theorem map_replace_keys (player : Player) (l : Ledger) :
    (l.map (fun p => if p.socketId = player.socketId then player else p)).map
        (fun p => p.socketId) = l.map (fun p => p.socketId) := by
  rw [List.map_map]
  apply List.map_congr_left
  intro p _
  by_cases hp : p.socketId = player.socketId <;> simp [hp]

theorem ledgerSet_spec (ledger : Ledger) (player : Player)
    (hKeys : (ledger.map (fun p => p.socketId)).Nodup) :
    (ledgerSet ledger player).filter (fun p => decide (p.socketId = player.socketId)) = [player]
      ∧ (ledgerSet ledger player).filter (fun p => decide (p.socketId ≠ player.socketId))
          = ledger.filter (fun p => decide (p.socketId ≠ player.socketId))
      ∧ ((ledgerSet ledger player).map (fun p => p.socketId)).Nodup
      ∧ (ledgerSet ledger player).length
          = if getPlayerFromMemory ledger player.socketId = none then ledger.length + 1
            else ledger.length := by
  by_cases h : getPlayerFromMemory ledger player.socketId = none
  · have hall := (find?_socketId_eq_none_iff ledger player.socketId).mp h
    rw [ledgerSet_absent ledger player h]
    refine ⟨?_, ?_, ?_, by simp [h]⟩
    · rw [List.filter_append]
      have : ledger.filter (fun p => decide (p.socketId = player.socketId)) = [] := by
        rw [List.filter_eq_nil_iff]
        intro p hp
        simpa using hall p hp
      simp [this]
    · rw [List.filter_append]
      simp
    · rw [List.map_append, List.nodup_append]
      refine ⟨hKeys, by simp, ?_⟩
      intro a ha hb
      obtain ⟨p, hp, rfl⟩ := List.mem_map.mp ha
      have : p.socketId = player.socketId := by simpa using hb
      exact hall p hp this
  · have hex : ∃ p ∈ ledger, p.socketId = player.socketId := by
      by_contra hc
      apply h
      rw [find?_socketId_eq_none_iff]
      intro p hp hpe
      exact hc ⟨p, hp, hpe⟩
    rw [ledgerSet_present ledger player h]
    refine ⟨map_replace_filter_eq player ledger hKeys hex, map_replace_filter_ne player ledger,
      ?_, by simp [h]⟩
    rw [map_replace_keys]
    exact hKeys

/-- C20: `addPlayer(socketId, { name, roomId })` with a non-empty socket id and name succeeds
and leaves exactly one player for that socket id: the record built from the call, with the
trimmed name, the given room and score 0, which `getPlayerFromMemory` returns.  A socket id
already present keeps the player count, a new one raises it by one; the other players are
unchanged, and no room other than `roomId` lists the socket id. -/
theorem addPlayer_spec (ledger : Ledger) (socketId name : String) (roomId userId : JsVal)
    (now : Nat) (persistOk : Bool) (hs : socketId ≠ "") (hn : name ≠ "")
    (hKeys : (ledger.map (fun p => p.socketId)).Nodup) :
    ∃ ledger' player, addPlayer ledger socketId name roomId userId now persistOk
        = .ok (ledger', player)
      ∧ player = { socketId := socketId, name := String.mk (jsTrim name.toList),
                   roomId := roomId, userId := userId, score := 0, joinedAt := now }
      ∧ getPlayerFromMemory ledger' socketId = some player
      ∧ ledger'.filter (fun p => decide (p.socketId = socketId)) = [player]
      ∧ ledger'.length = (if getPlayerFromMemory ledger socketId = none then ledger.length + 1
          else ledger.length)
      ∧ ledger'.filter (fun p => decide (p.socketId ≠ socketId))
          = ledger.filter (fun p => decide (p.socketId ≠ socketId))
      ∧ (∀ room, room ≠ roomId → ∀ p ∈ getPlayersInRoom ledger' room, p.socketId ≠ socketId)
      ∧ (ledger'.map (fun p => p.socketId)).Nodup := by
  have hs' : socketId.data ≠ [] := by
    intro h
    apply hs
    cases socketId
    simp_all
  have hn' : name.data ≠ [] := by
    intro h
    apply hn
    cases name
    simp_all
  obtain ⟨h1, h2, h3, h4⟩ := ledgerSet_spec ledger
    { socketId := socketId, name := String.mk (jsTrim name.toList), roomId := roomId,
      userId := userId, score := 0, joinedAt := now } hKeys
  refine ⟨_, _, ?_, rfl, ?_, h1, h4, h2, ?_, h3⟩
  · cases persistOk <;> simp [addPlayer, hs', hn']
  · unfold getPlayerFromMemory
    rw [← List.filter_head?, h1]
    rfl
  · intro room hroom p hp hpe
    have hmem := (List.mem_filter.mp hp).1
    have hr : p.roomId = room := by simpa using (List.mem_filter.mp hp).2
    have hin : p ∈ (ledgerSet ledger
        { socketId := socketId, name := String.mk (jsTrim name.toList), roomId := roomId,
          userId := userId, score := 0, joinedAt := now }).filter
          (fun p => decide (p.socketId = socketId)) :=
      List.mem_filter.mpr ⟨hmem, by simpa using hpe⟩
    rw [h1] at hin
    have hp' := List.mem_singleton.mp hin
    rw [hp'] at hr
    exact hroom hr.symm

theorem addPlayer_spec_witness :
    ∃ ledger' player, addPlayer exampleLedger "s2" " Anh Thu " (.str "other") .null 7 false
        = .ok (ledger', player)
      ∧ player.name = "Anh Thu"
      ∧ ledger'.length = 5
      ∧ (getPlayersInRoom ledger' (.str "other")).map (fun p => p.socketId) = ["s2", "s5"] := by
  obtain ⟨ledger', player, h1, h2, -⟩ :=
    addPlayer_spec exampleLedger "s2" " Anh Thu " (.str "other") .null 7 false
      (by decide) (by decide) (by decide)
  refine ⟨ledger', player, h1, ?_⟩
  have h3 : addPlayer exampleLedger "s2" " Anh Thu " (.str "other") .null 7 false
      = .ok (ledgerSet exampleLedger
          { socketId := "s2", name := String.mk (jsTrim " Anh Thu ".toList),
            roomId := .str "other", userId := .null, score := 0, joinedAt := 7 },
        { socketId := "s2", name := String.mk (jsTrim " Anh Thu ".toList),
          roomId := .str "other", userId := .null, score := 0, joinedAt := 7 }) := rfl
  rw [h3] at h1
  injection h1 with h1
  injection h1 with hl hp
  subst hl hp
  refine ⟨by decide, by decide, by decide!⟩

/-! ## Properties of the two session flows -/

/-- C12: in `socketHandle.js` a correct submission for a question the room has moved past
still advances the room: with the room on the second question (`currentIndex = 1`), a correct
answer to the first question (position 0) reveals the answer, cancels the timer, raises
`currentIndex` to 2 and schedules `sendCurrentQuestion`. -/
theorem submitAnswer_stale_question_advances :
    currentIndexAt secondQuestionServer 0 = some 1
      ∧ pendingSends secondQuestionServer (.str "r") = 0
      ∧ secondQuestionServer.pending.map (fun t => t.handle) = [2]
      ∧ currentIndexAt (submitAnswer asciiLocaleCompare secondQuestionServer
          (correctSubmission "s1")) 0 = some 2
      ∧ pendingSends (submitAnswer asciiLocaleCompare secondQuestionServer
          (correctSubmission "s1")) (.str "r") = 1
      ∧ (submitAnswer asciiLocaleCompare secondQuestionServer
          (correctSubmission "s1")).pending.map (fun t => t.handle) = [3]
      ∧ (submitAnswer asciiLocaleCompare secondQuestionServer (correctSubmission "s1")).out.drop
          secondQuestionServer.out.length
        = [.revealAnswer (.str "r") (.num (.fin 0)), .answerResult "s1" true (.fin 1500),
           .rankingData (.str "r")
             [{ rank := 1, name := "Anh", score := 1500, socketId := "s1" },
              { rank := 2, name := "Bao", score := 0, socketId := "s2" }]] := by
  refine ⟨?_, ?_, ?_, ?_, ?_, ?_, ?_⟩ <;> decide!

/-- C16: the indices of the `new_question` events are not consecutive: in `socketHandle.js`,
after two correct answers to the first of three questions within the pause, the indices sent
are 1, 3, 3; in `server.js`, after a timeout and an answer with an unknown `questionId` within
the pause, they are 1, 3, 3 as well. -/
theorem newQuestion_indices_skip_and_repeat :
    newQuestionIndices (run asciiLocaleCompare twoPlayerServer skipTrace) (.str "r") = [1, 3, 3]
      ∧ newQuestionIndices jsSkipServer (.str "r") = [1, 3, 3] := by
  constructor <;> decide!

/-- C18: a failure of `RoomPlayer.update` surfaces: `addPlayerScore` then rejects instead of
returning the new score, after the score in memory has been raised, and the handler of
`submit_answer` reports a failure, reveals nothing and does not advance the room, where with
a successful update it reports `{correct: true, gained: 1500}` and advances. -/
theorem addPlayerScore_failure_surfaces :
    returnOf (addPlayerScore twoPlayerServer.players "s1" (.fin 1500) true).2 = some (some 1500)
      ∧ rejectionOf (addPlayerScore twoPlayerServer.players "s1" (.fin 1500) false).2
          = some "RoomPlayer.update failed"
      ∧ (addPlayerScore twoPlayerServer.players "s1" (.fin 1500) false).1.map (fun p => p.score)
          = [1500, 0]
      ∧ (submitAnswer asciiLocaleCompare oneQuestionServer unpersistedSubmission).out.drop 1
          = [.answerFailed "s1" "RoomPlayer.update failed"]
      ∧ currentIndexAt (submitAnswer asciiLocaleCompare oneQuestionServer
          unpersistedSubmission) 0 = some 0
      ∧ pendingSends (submitAnswer asciiLocaleCompare oneQuestionServer
          unpersistedSubmission) (.str "r") = 0
      ∧ (submitAnswer asciiLocaleCompare oneQuestionServer (correctSubmission "s1")).out.drop 1
          = [.revealAnswer (.str "r") (.num (.fin 0)), .answerResult "s1" true (.fin 1500),
             .rankingData (.str "r")
               [{ rank := 1, name := "Anh", score := 1500, socketId := "s1" },
                { rank := 2, name := "Bao", score := 0, socketId := "s2" }]]
      ∧ currentIndexAt (submitAnswer asciiLocaleCompare oneQuestionServer
          (correctSubmission "s1")) 0 = some 1 := by
  refine ⟨?_, ?_, ?_, ?_, ?_, ?_, ?_, ?_⟩ <;> decide!

theorem roomRef_withoutAnswers (s : Server) (roomId : JsVal) :
    s.withoutAnswers.roomRef roomId = s.roomRef roomId := rfl

theorem heap_withoutAnswers (s : Server) (r : Nat) :
    s.withoutAnswers.heap[r]?
      = (s.heap[r]?).map fun room =>
          { room with questions := room.questions.map Question.withoutAnswer } := by
  simp [Server.withoutAnswers, List.getElem?_map]

theorem sendCurrentQuestion_newQuestions_withoutAnswers (lc : String → String → Int)
    (s : Server) (roomId : JsVal) :
    newQuestionsSent (sendCurrentQuestion lc s.withoutAnswers roomId)
      = newQuestionsSent (sendCurrentQuestion lc s roomId) := by
  unfold sendCurrentQuestion
  rw [roomRef_withoutAnswers]
  cases hr : s.roomRef roomId with
  | none => rfl
  | some r =>
    simp only [heap_withoutAnswers]
    cases hh : s.heap[r]? with
    | none => rfl
    | some room =>
      simp only [Option.map_some', List.length_map, List.getElem?_map]
      by_cases hc : room.currentIndex ≥ room.questions.length
      · simp only [hc, if_true]
        simp [newQuestionsSent, Server.emit, Server.withoutAnswers]
      · simp only [hc, if_false]
        cases hq : room.questions[room.currentIndex]? with
        | none => simp [newQuestionsSent, Server.emit, Server.withoutAnswers]
        | some q =>
          have hp : newQuestionPayload room.currentIndex room.questions.length q.withoutAnswer
              = newQuestionPayload room.currentIndex room.questions.length q := rfl
          simp only [Option.map_some', hp]
          cases ht : room.timer <;>
            simp [newQuestionsSent, Server.emit, Server.withoutAnswers, Server.setTimeout,
              Server.modifyRoom, Server.clearTimeout]

/-- C14: the payload of `new_question` has the fields `index`, `total`, `id`, `text`, `options`
and `timeLimit` only and is the same with and without the correct answer of the question; two
servers that differ only in the correct answers of their questions send the same `new_question`
events from `sendCurrentQuestion`. -/
theorem newQuestion_independent_of_answers (localeCompare : String → String → Int)
    (s₁ s₂ : Server) (roomId : JsVal) (h : s₁.withoutAnswers = s₂.withoutAnswers) :
    newQuestionsSent (sendCurrentQuestion localeCompare s₁ roomId)
        = newQuestionsSent (sendCurrentQuestion localeCompare s₂ roomId)
      ∧ ∀ (currentIndex total : Nat) (q : Question),
          newQuestionPayload currentIndex total q.withoutAnswer
            = newQuestionPayload currentIndex total q := by
  refine ⟨?_, fun _ _ _ => rfl⟩
  rw [← sendCurrentQuestion_newQuestions_withoutAnswers localeCompare s₁,
    ← sendCurrentQuestion_newQuestions_withoutAnswers localeCompare s₂, h]

theorem newQuestion_independent_of_answers_witness :
    newQuestionsSent (sendCurrentQuestion asciiLocaleCompare (roomWithAnswer (.str "A")) (.str "r"))
      = newQuestionsSent
          (sendCurrentQuestion asciiLocaleCompare (roomWithAnswer (.num 3)) (.str "r")) :=
  (newQuestion_independent_of_answers asciiLocaleCompare (roomWithAnswer (.str "A"))
    (roomWithAnswer (.num 3)) (.str "r") (by decide!)).1

theorem roomRef_filter_ne (s : Server) (roomId : JsVal) (out : List Emit) :
    Server.roomRef
        { s with
          out := out
          ROOMS := s.ROOMS.filter (fun e => e.1 != jsToString roomId) } roomId
      = none := by
  simp only [Server.roomRef, Option.map_eq_none', List.find?_eq_none]
  intro e he
  have := (List.mem_filter.mp he).2
  simpa using this

/-- C15: for a room that exists, `sendCurrentQuestion` with the cursor at or past the end of
the list (an empty list included) sends `game_over` with `getRanking(roomId)`, sends no
`new_question`, sets no timer and removes the room from `ROOMS`; with the cursor inside the
list it sends one `new_question` whose `index` is `currentIndex + 1` and whose `total` is the
length of the list, and sets one timer, the timeout of that question, which it records on the
room in place of the timer recorded before. -/
theorem sendCurrentQuestion_spec (localeCompare : String → String → Int) (s : Server)
    (roomId : JsVal) (r : Nat) (room : Room)
    (hRef : s.roomRef roomId = some r) (hRoom : s.heap[r]? = some room) :
    (room.questions.length ≤ room.currentIndex →
        sendCurrentQuestion localeCompare s roomId
            = { s with
                out := s.out ++ [.gameOver roomId (getRanking localeCompare s.players roomId)]
                ROOMS := s.ROOMS.filter (fun e => e.1 != jsToString roomId) }
          ∧ newQuestionsSent (sendCurrentQuestion localeCompare s roomId) = newQuestionsSent s
          ∧ (sendCurrentQuestion localeCompare s roomId).pending = s.pending
          ∧ (sendCurrentQuestion localeCompare s roomId).roomRef roomId = none)
      ∧ (room.currentIndex < room.questions.length →
        ∃ q, room.questions[room.currentIndex]? = some q
          ∧ (sendCurrentQuestion localeCompare s roomId).out
              = s.out ++ [.newQuestion roomId
                  (newQuestionPayload room.currentIndex room.questions.length q)]
          ∧ (newQuestionPayload room.currentIndex room.questions.length q).index
              = room.currentIndex + 1
          ∧ (newQuestionPayload room.currentIndex room.questions.length q).total
              = room.questions.length
          ∧ (sendCurrentQuestion localeCompare s roomId).heap[r]?
              = some { room with timer := some s.nextHandle }
          ∧ (sendCurrentQuestion localeCompare s roomId).pending
              = (match room.timer with
                  | some h => s.pending.filter (fun t => t.handle != h)
                  | none => s.pending)
                ++ [{ handle := s.nextHandle
                      delayMs := (if (questionTimeLimit q).truthy then questionTimeLimit q
                        else .fin 15).mul (.fin 1000)
                      callback := .questionTimeout roomId r q }]
          ∧ (sendCurrentQuestion localeCompare s roomId).ROOMS = s.ROOMS) := by
  constructor
  · intro hle
    have hsend : sendCurrentQuestion localeCompare s roomId
        = { s with
            out := s.out ++ [.gameOver roomId (getRanking localeCompare s.players roomId)]
            ROOMS := s.ROOMS.filter (fun e => e.1 != jsToString roomId) } := by
      unfold sendCurrentQuestion
      simp only [hRef, hRoom]
      rw [if_pos hle]
      rfl
    rw [hsend]
    refine ⟨rfl, ?_, rfl, roomRef_filter_ne s roomId _⟩
    simp [newQuestionsSent]
  · intro hlt
    have hq : room.questions[room.currentIndex]? = some (room.questions[room.currentIndex]) :=
      List.getElem?_eq_getElem hlt
    refine ⟨room.questions[room.currentIndex], hq, ?_⟩
    have hnot : ¬ room.currentIndex ≥ room.questions.length := by omega
    unfold sendCurrentQuestion
    simp only [hRef, hRoom]
    rw [if_neg hnot]
    simp only [hq]
    cases ht : room.timer with
    | none =>
      refine ⟨rfl, rfl, rfl, ?_, rfl, rfl⟩
      simp [Server.setTimeout, Server.modifyRoom, Server.emit, hRoom, ht]
    | some h =>
      refine ⟨rfl, rfl, rfl, ?_, rfl, rfl⟩
      simp [Server.setTimeout, Server.modifyRoom, Server.emit, Server.clearTimeout, hRoom]

theorem sendCurrentQuestion_spec_witness :
    (sendCurrentQuestion asciiLocaleCompare secondQuestionServer (.str "r")).out
        = secondQuestionServer.out ++ [.newQuestion (.str "r") (newQuestionPayload 1 2 questionB)]
      ∧ (sendCurrentQuestion asciiLocaleCompare secondQuestionServer (.str "r")).pending.map
          (fun t => t.handle) = [3] := by
  obtain ⟨q, hq, hout, -, -, -, hpending, -⟩ :=
    (sendCurrentQuestion_spec asciiLocaleCompare secondQuestionServer (.str "r") 0
      { questions := [questionA, questionB], currentIndex := 1, started := true,
        timer := some 2 } (by decide!) (by decide!)).2 (by decide)
  have hq' : q = questionB := by
    have : (some questionB : Option Question) = some q := hq
    exact (Option.some.inj this).symm
  subst hq'
  refine ⟨hout, ?_⟩
  rw [hpending]
  decide!

/-! ## The race of a timeout and a submission in `server.js` -/

theorem beginSubmit_a (s : Server) (a : Submission) (t : SubmitTask)
    (h : beginSubmit s a = some t) : t.a = a := by
  unfold beginSubmit at h
  split_ifs at h
  cases hr : s.roomRef a.roomId with
  | none =>
    simp only [hr] at h
    cases h
    rfl
  | some r =>
    simp only [hr] at h
    cases hh : s.heap[r]? with
    | none =>
      simp only [hh] at h
      cases h
      rfl
    | some room =>
      simp only [hh] at h
      cases h
      rfl

theorem beginSubmit_found (s : Server) (a : Submission) (r j : Nat) (room : Room)
    (hTruthy : a.roomId.truthy = true) (hRef : s.roomRef a.roomId = some r)
    (hRoom : s.heap[r]? = some room)
    (hQuestion : room.questions.findIdx? (fun x => jsToString x.id = jsToString a.questionId)
      = some j) :
    beginSubmit s a = some (taskAt a r j room.questions) := by
  unfold beginSubmit taskAt
  simp [hTruthy, hRef, hRoom, hQuestion]

theorem scoreSubmit_core (s : Server) (t : SubmitTask) :
    (scoreSubmit s t).1.heap = s.heap ∧ (scoreSubmit s t).1.ROOMS = s.ROOMS
      ∧ (scoreSubmit s t).1.pending = s.pending
      ∧ (scoreSubmit s t).1.nextHandle = s.nextHandle
      ∧ (scoreSubmit s t).1.out = s.out := by
  unfold scoreSubmit
  cases t.q with
  | none => exact ⟨rfl, rfl, rfl, rfl, rfl⟩
  | some q =>
    by_cases hc : jsCorrect t.a = true
    · simp only [hc, if_true]
      rcases hadd : addPlayerScore s.players t.a.socketId (jsGained q t.a.timeUsed)
          t.a.persistOk with ⟨players, e | v⟩ <;> exact ⟨rfl, rfl, rfl, rfl, rfl⟩
    · simp only [hc]
      exact ⟨rfl, rfl, rfl, rfl, rfl⟩

theorem scoreSubmit_incorrect (s : Server) (t : SubmitTask) (hc : jsCorrect t.a = false) :
    scoreSubmit s t = (s, none) := by
  unfold scoreSubmit
  cases t.q with
  | none => rfl
  | some q => simp [hc]

theorem finishSubmit_core_unchanged (lc : String → String → Int) (s : Server) (t : SubmitTask)
    (rejected : Option String)
    (h : t.q = none ∨ rejected ≠ none ∨ t.room = none
      ∨ ∃ r room, t.room = some r ∧ s.heap[r]? = some room
          ∧ t.questionIndexInRoom ≠ some room.currentIndex) :
    (finishSubmit lc s t rejected).heap = s.heap ∧ (finishSubmit lc s t rejected).ROOMS = s.ROOMS
      ∧ (finishSubmit lc s t rejected).pending = s.pending
      ∧ (finishSubmit lc s t rejected).nextHandle = s.nextHandle
      ∧ (finishSubmit lc s t rejected).players = s.players := by
  unfold finishSubmit
  cases hq : t.q with
  | none => exact ⟨rfl, rfl, rfl, rfl, rfl⟩
  | some q =>
    cases hrej : rejected with
    | some e => exact ⟨rfl, rfl, rfl, rfl, rfl⟩
    | none =>
      cases hroom : t.room with
      | none => exact ⟨rfl, rfl, rfl, rfl, rfl⟩
      | some r =>
        rcases h with h | h | h | ⟨r', room, h1, h2, h3⟩
        · rw [hq] at h
          cases h
        · exact absurd hrej h
        · rw [hroom] at h
          cases h
        · rw [hroom] at h1
          cases h1
          simp [Server.emit, h2, h3]

theorem finishSubmit_core_advance (lc : String → String → Int) (s : Server) (t : SubmitTask)
    (q : Question) (r : Nat) (room : Room) (hq : t.q = some q) (hr : t.room = some r)
    (hroom : s.heap[r]? = some room) (hidx : t.questionIndexInRoom = some room.currentIndex) :
    (finishSubmit lc s t none).heap[r]?
        = some { room with timer := none, currentIndex := room.currentIndex + 1 }
      ∧ (finishSubmit lc s t none).ROOMS = s.ROOMS
      ∧ (finishSubmit lc s t none).pending
          = (match room.timer with
              | some h => s.pending.filter (fun x => x.handle != h)
              | none => s.pending)
            ++ [{ handle := s.nextHandle, delayMs := .fin 700,
                  callback := .sendQuestion t.a.roomId }]
      ∧ (finishSubmit lc s t none).nextHandle = s.nextHandle + 1
      ∧ (finishSubmit lc s t none).players = s.players := by
  unfold finishSubmit
  simp only [hq, hr, Server.emit, hroom, hidx, if_true]
  cases ht : room.timer with
  | none => simp [Server.setTimeout, Server.modifyRoom, hroom, ht]
  | some h => simp [Server.setTimeout, Server.modifyRoom, Server.clearTimeout, hroom]

theorem fireTimer_noop (lc : String → String → Int) (s : Server) (h : Nat)
    (hnone : s.pending.find? (fun t => decide (t.handle = h)) = none) :
    fireTimer lc h s = s := by
  simp [fireTimer, step, hnone]

theorem fireTimer_questionTimeout (lc : String → String → Int) (s : Server) (h r : Nat)
    (roomId : JsVal) (q : Question) (timer : Pending) (room : Room)
    (hfind : s.pending.find? (fun t => decide (t.handle = h)) = some timer)
    (hcb : timer.callback = .questionTimeout roomId r q) (hroom : s.heap[r]? = some room) :
    (fireTimer lc h s).heap[r]? = some { room with currentIndex := room.currentIndex + 1 }
      ∧ (fireTimer lc h s).ROOMS = s.ROOMS
      ∧ (fireTimer lc h s).pending
          = s.pending.filter (fun x => x.handle != h)
            ++ [{ handle := s.nextHandle, delayMs := .fin 700, callback := .sendQuestion roomId }]
      ∧ (fireTimer lc h s).nextHandle = s.nextHandle + 1
      ∧ (fireTimer lc h s).players = s.players := by
  simp [fireTimer, step, hfind, hcb, questionTimeout, Server.emit, Server.clearTimeout,
    Server.modifyRoom, Server.setTimeout, hroom]

theorem pending_handle_unique (pending : List Pending) (h : Nat) (timer : Pending)
    (hnd : (pending.map (fun t => t.handle)).Nodup)
    (hfind : pending.find? (fun t => decide (t.handle = h)) = some timer) :
    ∀ t ∈ pending, t.handle = h → t = timer := by
  intro t ht hth
  have hmem : timer ∈ pending := List.mem_of_find?_eq_some hfind
  have hh : timer.handle = h := by simpa using List.find?_some hfind
  exact List.inj_on_of_nodup_map hnd ht hmem (hth.trans hh.symm)

theorem sends_after_clear (pending : List Pending) (h n : Nat) (roomId : JsVal)
    (timer : Pending) (r : Nat) (q : Question)
    (hnd : (pending.map (fun t => t.handle)).Nodup)
    (hfind : pending.find? (fun t => decide (t.handle = h)) = some timer)
    (hcb : timer.callback = .questionTimeout roomId r q) (hn : n ≠ h) :
    ((pending.filter (fun x : Pending => x.handle != h)
        ++ [({ handle := n, delayMs := .fin 700, callback := .sendQuestion roomId } : Pending)]
        ).filter (fun t : Pending => decide (t.callback = .sendQuestion roomId))).length
        = (pending.filter
            (fun t : Pending => decide (t.callback = .sendQuestion roomId))).length + 1
      ∧ (pending.filter (fun x : Pending => x.handle != h)
          ++ [({ handle := n, delayMs := .fin 700,
                 callback := .sendQuestion roomId } : Pending)]).find?
            (fun t : Pending => decide (t.handle = h)) = none := by
  have huniq := pending_handle_unique pending h timer hnd hfind
  constructor
  · rw [List.filter_append, List.length_append, List.filter_filter]
    have hsame : pending.filter (fun a : Pending =>
          decide (a.callback = .sendQuestion roomId) && (a.handle != h))
        = pending.filter (fun t : Pending => decide (t.callback = .sendQuestion roomId)) := by
      apply List.filter_congr
      intro t ht
      by_cases hth : t.handle = h
      · have := huniq t ht hth
        subst this
        simp [hcb]
      · simp [hth]
    rw [hsame]
    simp
  · rw [List.find?_eq_none]
    intro t ht
    rcases List.mem_append.mp ht with ht | ht
    · have := (List.mem_filter.mp ht).2
      simpa using this
    · have : t = ({ handle := n, delayMs := .fin 700,
                    callback := .sendQuestion roomId } : Pending) :=
        List.mem_singleton.mp ht
      subst this
      simpa using hn

theorem roomRef_of_ROOMS (x s : Server) (roomId : JsVal) (h : x.ROOMS = s.ROOMS) :
    x.roomRef roomId = s.roomRef roomId := by
  simp [Server.roomRef, h]

theorem currentIndexAt_of_heap (x : Server) (r : Nat) (room : Room) (h : x.heap[r]? = some room) :
    currentIndexAt x r = some room.currentIndex := by
  simp [currentIndexAt, h]

/-- C11: in the flow of `server.js`, take a room on question `i` whose recorded timer `h` is
pending and is the timeout of that question, and a submission whose `questionId` is found at
position `i`.  Whether the timer fires before the handler starts, while the handler waits at
either `await`, or after the handler has ended, `currentIndex` ends at `i + 1`, one more
`sendCurrentQuestion` is scheduled than before, and the timer `h` is no longer pending. -/
theorem race_advances_once (localeCompare : String → String → Int) (s : Server)
    (a : Submission) (roomId : JsVal) (r i h : Nat) (room : Room) (timer : Pending)
    (q : Question)
    (hTruthy : roomId.truthy = true) (hA : a.roomId = roomId)
    (hRef : s.roomRef roomId = some r) (hRoom : s.heap[r]? = some room)
    (hIdx : room.currentIndex = i) (hTimer : room.timer = some h)
    (hPending : s.pending.find? (fun t => decide (t.handle = h)) = some timer)
    (hCallback : timer.callback = .questionTimeout roomId r q)
    (hHandles : (s.pending.map (fun t => t.handle)).Nodup)
    (hFresh : ∀ t ∈ s.pending, t.handle < s.nextHandle)
    (hQuestion : room.questions.findIdx? (fun x => jsToString x.id = jsToString a.questionId)
      = some i)
    (firePos : Nat) :
    currentIndexAt (raceOutcome localeCompare s a h firePos) r = some (i + 1)
      ∧ pendingSends (raceOutcome localeCompare s a h firePos) roomId
          = pendingSends s roomId + 1
      ∧ (raceOutcome localeCompare s a h firePos).pending.find?
          (fun t => decide (t.handle = h)) = none := by
  subst hA
  have hn : s.nextHandle ≠ h := by
    have hmem : timer ∈ s.pending := List.mem_of_find?_eq_some hPending
    have hh : timer.handle = h := by simpa using List.find?_some hPending
    have := hFresh timer hmem
    omega
  obtain ⟨hcount, hgone⟩ := sends_after_clear s.pending h s.nextHandle a.roomId timer r q
    hHandles hPending hCallback hn
  -- a state whose room is on `i + 1` and whose timers are those left by one advance
  have done : ∀ x : Server,
      (∃ room', x.heap[r]? = some room' ∧ room'.currentIndex = i + 1) →
      x.pending = s.pending.filter (fun x : Pending => x.handle != h)
        ++ [({ handle := s.nextHandle, delayMs := .fin 700,
               callback := .sendQuestion a.roomId } : Pending)] →
      currentIndexAt x r = some (i + 1)
        ∧ pendingSends x a.roomId = pendingSends s a.roomId + 1
        ∧ x.pending.find? (fun t => decide (t.handle = h)) = none := by
    intro x ⟨room', hx, hcur⟩ hp
    refine ⟨?_, ?_, ?_⟩
    · rw [currentIndexAt_of_heap x r room' hx, hcur]
    · unfold pendingSends
      rw [hp]
      exact hcount
    · rw [hp]
      exact hgone
  -- the timer fires in a state that has the timers and the room of `s`
  have fired : ∀ y : Server, y.pending = s.pending → y.heap[r]? = some room →
      y.nextHandle = s.nextHandle →
      (∃ room', (fireTimer localeCompare h y).heap[r]? = some room'
          ∧ room'.currentIndex = i + 1 ∧ room'.questions = room.questions)
        ∧ (fireTimer localeCompare h y).pending
            = s.pending.filter (fun x : Pending => x.handle != h)
              ++ [({ handle := s.nextHandle, delayMs := .fin 700,
                     callback := .sendQuestion a.roomId } : Pending)]
        ∧ (fireTimer localeCompare h y).ROOMS = y.ROOMS := by
    intro y hyp hyr hyn
    obtain ⟨f1, f2, f3, -, -⟩ := fireTimer_questionTimeout localeCompare y h r a.roomId q timer
      room (by rw [hyp]; exact hPending) hCallback hyr
    refine ⟨⟨_, f1, by simp [hIdx], rfl⟩, ?_, f2⟩
    rw [f3, hyp, hyn]
  -- the handler ends in a state whose room has moved on: it leaves room and timers alone
  have late : ∀ (y : Server) (t : SubmitTask) (rej : Option String) (room' : Room),
      t.room = some r → t.questionIndexInRoom = some i → y.heap[r]? = some room' →
      room'.currentIndex = i + 1 →
      (finishSubmit localeCompare y t rej).heap = y.heap
        ∧ (finishSubmit localeCompare y t rej).pending = y.pending := by
    intro y t rej room' h1 h2 h3 h4
    obtain ⟨g1, -, g3, -, -⟩ := finishSubmit_core_unchanged localeCompare y t rej
      (Or.inr (Or.inr (Or.inr ⟨r, room', h1, h3, by rw [h2, h4]; simp⟩)))
    exact ⟨g1, g3⟩
  have hbegin : beginSubmit s a = some (taskAt a r i room.questions) :=
    beginSubmit_found s a r i room hTruthy hRef hRoom hQuestion
  match firePos with
  | 0 =>
    obtain ⟨⟨roomF, hF1, hF2, hF3⟩, hFp, hFr⟩ := fired s rfl hRoom rfl
    have hbeginF : beginSubmit (fireTimer localeCompare h s) a
        = some (taskAt a r i roomF.questions) :=
      beginSubmit_found _ a r i roomF hTruthy
        (by rw [roomRef_of_ROOMS _ s a.roomId hFr]; exact hRef) hF1 (by rw [hF3]; exact hQuestion)
    simp only [raceOutcome, if_true, hbeginF]
    simp only [show ¬ ((0 : Nat) = 1) by decide, show ¬ ((0 : Nat) = 2) by decide,
      show ¬ (3 ≤ (0 : Nat)) by decide, if_false]
    obtain ⟨c1, -, c3, -, -⟩ := scoreSubmit_core (fireTimer localeCompare h s)
      (taskAt a r i roomF.questions)
    obtain ⟨l1, l2⟩ := late (scoreSubmit (fireTimer localeCompare h s)
        (taskAt a r i roomF.questions)).1
      (taskAt a r i roomF.questions)
      (scoreSubmit (fireTimer localeCompare h s)
        (taskAt a r i roomF.questions)).2
      roomF rfl rfl (by rw [c1]; exact hF1) hF2
    exact done _ ⟨roomF, by rw [l1, c1]; exact hF1, hF2⟩ (by rw [l2, c3]; exact hFp)
  | 1 =>
    obtain ⟨⟨roomF, hF1, hF2, -⟩, hFp, -⟩ := fired s rfl hRoom rfl
    simp only [raceOutcome, show ¬ ((1 : Nat) = 0) by decide, if_false, hbegin, if_true,
      show ¬ ((1 : Nat) = 2) by decide, show ¬ (3 ≤ (1 : Nat)) by decide]
    obtain ⟨c1, -, c3, -, -⟩ := scoreSubmit_core (fireTimer localeCompare h s)
      (taskAt a r i room.questions)
    obtain ⟨l1, l2⟩ := late (scoreSubmit (fireTimer localeCompare h s)
        (taskAt a r i room.questions)).1
      (taskAt a r i room.questions)
      (scoreSubmit (fireTimer localeCompare h s)
        (taskAt a r i room.questions)).2
      roomF rfl rfl (by rw [c1]; exact hF1) hF2
    exact done _ ⟨roomF, by rw [l1, c1]; exact hF1, hF2⟩ (by rw [l2, c3]; exact hFp)
  | 2 =>
    simp only [raceOutcome, show ¬ ((2 : Nat) = 0) by decide, if_false, hbegin, if_true,
      show ¬ ((2 : Nat) = 1) by decide, show ¬ (3 ≤ (2 : Nat)) by decide]
    obtain ⟨c1, -, c3, c4, -⟩ := scoreSubmit_core s
      (taskAt a r i room.questions)
    obtain ⟨⟨roomF, hF1, hF2, -⟩, hFp, -⟩ := fired (scoreSubmit s
      (taskAt a r i room.questions)).1
      c3 (by rw [c1]; exact hRoom) c4
    obtain ⟨l1, l2⟩ := late (fireTimer localeCompare h (scoreSubmit s
        (taskAt a r i room.questions)).1)
      (taskAt a r i room.questions)
      (scoreSubmit s
        (taskAt a r i room.questions)).2
      roomF rfl rfl hF1 hF2
    exact done _ ⟨roomF, by rw [l1]; exact hF1, hF2⟩ (by rw [l2]; exact hFp)
  | k + 3 =>
    simp only [raceOutcome, show ¬ (k + 3 = 0) by omega, if_false, hbegin,
      show ¬ (k + 3 = 1) by omega, show ¬ (k + 3 = 2) by omega,
      show 3 ≤ k + 3 by omega, if_true]
    obtain ⟨c1, -, c3, c4, -⟩ := scoreSubmit_core s
      (taskAt a r i room.questions)
    generalize hsc : scoreSubmit s
      (taskAt a r i room.questions) = sc
      at c1 c3 c4 ⊢
    by_cases hadv : room.questions[i]? ≠ none ∧ sc.2 = none
    · -- the handler advances and cancels the timer, which then cannot fire
      obtain ⟨hq, hrej⟩ := hadv
      obtain ⟨q', hq'⟩ := Option.ne_none_iff_exists'.mp hq
      obtain ⟨a1, -, a3, -, -⟩ := finishSubmit_core_advance localeCompare sc.1
        (taskAt a r i room.questions)
        q' r room hq' rfl (by rw [c1]; exact hRoom) (by rw [hIdx]; rfl)
      rw [hrej]
      have hp : (finishSubmit localeCompare sc.1
          (taskAt a r i room.questions)
          none).pending
          = s.pending.filter (fun x : Pending => x.handle != h)
            ++ [({ handle := s.nextHandle, delayMs := .fin 700,
                   callback := .sendQuestion a.roomId } : Pending)] := by
        rw [a3, hTimer]
        simp only [c3, c4, taskAt]
      rw [fireTimer_noop localeCompare _ h (by rw [hp]; exact hgone)]
      exact done _ ⟨_, a1, by simp [hIdx]⟩ hp
    · -- the handler leaves the room alone and the timer advances it
      have hun : room.questions[i]? = none ∨ sc.2 ≠ none := by
        by_contra hc
        push_neg at hc
        exact hadv ⟨hc.1, hc.2⟩
      obtain ⟨u1, -, u3, u4, -⟩ := finishSubmit_core_unchanged localeCompare sc.1
        (taskAt a r i room.questions) sc.2
        (by
          rcases hun with hun | hun
          · exact Or.inl hun
          · exact Or.inr (Or.inl hun))
      obtain ⟨⟨roomF, hF1, hF2, -⟩, hFp, -⟩ := fired (finishSubmit localeCompare sc.1
        (taskAt a r i room.questions) sc.2)
        (by rw [u3, c3]) (by rw [u1, c1]; exact hRoom) (by rw [u4, c4])
      exact done _ ⟨roomF, hF1, hF2⟩ hFp

theorem race_advances_once_witness :
    currentIndexAt (raceOutcome asciiLocaleCompare jsTwoQuestionServer (jsSubmission (.str "A"))
        0 1) 0 = some (0 + 1)
      ∧ pendingSends (raceOutcome asciiLocaleCompare jsTwoQuestionServer
          (jsSubmission (.str "A")) 0 1) (.str "r")
        = pendingSends jsTwoQuestionServer (.str "r") + 1
      ∧ (raceOutcome asciiLocaleCompare jsTwoQuestionServer (jsSubmission (.str "A"))
          0 1).pending.find? (fun t => decide (t.handle = 0)) = none :=
  race_advances_once asciiLocaleCompare jsTwoQuestionServer (jsSubmission (.str "A")) (.str "r")
    0 0 0 jsRoom jsTimer (roomQuestion questionA) (by decide) rfl (by decide!) (by decide!)
    rfl rfl (by decide!) rfl (by decide!) (by decide!) (by decide!) 1

/-- C13 as worded does not hold: in `server.js` a submission graded incorrect, for the
question the room is on, cancels the timer, raises `currentIndex` and schedules
`sendCurrentQuestion`. -/
theorem incorrect_submission_advances_in_serverJs :
    jsCorrect (jsSubmission (.str "B")) = false
      ∧ currentIndexAt jsTwoQuestionServer 0 = some 0
      ∧ jsTwoQuestionServer.pending.map (fun t => (t.handle, t.callback))
          = [(0, .questionTimeout (.str "r") 0 (roomQuestion questionA))]
      ∧ currentIndexAt (submitAnswerJs asciiLocaleCompare jsTwoQuestionServer
          (jsSubmission (.str "B"))) 0 = some 1
      ∧ (submitAnswerJs asciiLocaleCompare jsTwoQuestionServer
          (jsSubmission (.str "B"))).pending.map (fun t => (t.handle, t.callback))
          = [(1, .sendQuestion (.str "r"))] := by
  refine ⟨?_, ?_, ?_, ?_, ?_⟩ <;> decide!

theorem submitAnswerJs_incorrect (lc : String → String → Int) (s : Server) (a : Submission)
    (t : SubmitTask) (hb : beginSubmit s a = some t) (hc : jsCorrect a = false) :
    submitAnswerJs lc s a = finishSubmit lc s t none := by
  have ha := beginSubmit_a s a t hb
  unfold submitAnswerJs
  simp only [hb]
  rw [scoreSubmit_incorrect s t (by rw [ha]; exact hc)]

/-- C13 (amended): in `socketHandle.js` a submission graded incorrect never advances the room:
room objects, timers and `ROOMS` are left as they were.  In `server.js` the advance does not
look at the grade: a submission graded incorrect whose question index is the live
`currentIndex` cancels the recorded timer, raises `currentIndex` by one and schedules
`sendCurrentQuestion`; one whose index differs leaves room objects and timers as they were. -/
theorem incorrect_submission_effect (localeCompare : String → String → Int) (s : Server)
    (a : Submission) :
    (∀ q, findQuestion s a = .ok (some q) → liveCorrect q a.answerIndex = false →
        (submitAnswer localeCompare s a).heap = s.heap
          ∧ (submitAnswer localeCompare s a).pending = s.pending
          ∧ (submitAnswer localeCompare s a).ROOMS = s.ROOMS
          ∧ (submitAnswer localeCompare s a).nextHandle = s.nextHandle)
      ∧ (∀ t q r room, beginSubmit s a = some t → t.q = some q → t.room = some r →
          s.heap[r]? = some room → jsCorrect a = false →
          (t.questionIndexInRoom = some room.currentIndex →
              (submitAnswerJs localeCompare s a).heap[r]?
                  = some { room with timer := none, currentIndex := room.currentIndex + 1 }
                ∧ (submitAnswerJs localeCompare s a).pending
                  = (match room.timer with
                      | some h => s.pending.filter (fun x => x.handle != h)
                      | none => s.pending)
                    ++ [{ handle := s.nextHandle, delayMs := .fin 700,
                          callback := .sendQuestion a.roomId }])
            ∧ (t.questionIndexInRoom ≠ some room.currentIndex →
              (submitAnswerJs localeCompare s a).heap = s.heap
                ∧ (submitAnswerJs localeCompare s a).pending = s.pending)) := by
  constructor
  · intro q hq hwrong
    unfold submitAnswer
    simp [hq, hwrong, Server.emit]
  · intro t q r room hb hq hr hroom hc
    have ha := beginSubmit_a s a t hb
    rw [submitAnswerJs_incorrect localeCompare s a t hb hc]
    constructor
    · intro hidx
      obtain ⟨a1, -, a3, -, -⟩ := finishSubmit_core_advance localeCompare s t q r room hq hr
        hroom hidx
      rw [ha] at a3
      exact ⟨a1, a3⟩
    · intro hidx
      obtain ⟨u1, -, u3, -, -⟩ := finishSubmit_core_unchanged localeCompare s t none
        (Or.inr (Or.inr (Or.inr ⟨r, room, hr, hroom, hidx⟩)))
      exact ⟨u1, u3⟩

theorem incorrect_submission_effect_witness :
    (submitAnswer asciiLocaleCompare oneQuestionServer (submissionWith (.str "B"))).pending
        = oneQuestionServer.pending
      ∧ (submitAnswerJs asciiLocaleCompare jsTwoQuestionServer (jsSubmission (.str "B"))).heap[0]?
        = some { jsRoom with timer := none, currentIndex := jsRoom.currentIndex + 1 } :=
  ⟨((incorrect_submission_effect asciiLocaleCompare oneQuestionServer
      (submissionWith (.str "B"))).1 questionA (by rfl) (by decide!)).2.1,
   (((incorrect_submission_effect asciiLocaleCompare jsTwoQuestionServer
      (jsSubmission (.str "B"))).2 (taskAt (jsSubmission (.str "B")) 0 0 jsRoom.questions)
      (roomQuestion questionA) 0 jsRoom (by rfl) (by rfl) rfl (by decide!) (by decide!)).1
      (by rfl)).1⟩

/-! ## Scores and submissions -/

/-- C17 as worded does not hold: a correct answer from a socket that is no player of the ledger
is reported with `gained = 1500` although no score changes. -/
theorem correct_submission_without_player :
    getPlayerFromMemory oneQuestionServer.players "s9" = none
      ∧ (submitAnswer asciiLocaleCompare oneQuestionServer (correctSubmission "s9")).out.drop 1
        = [.revealAnswer (.str "r") (.num (.fin 0)), .answerResult "s9" true (.fin 1500),
           .rankingData (.str "r")
             [{ rank := 1, name := "Anh", score := 0, socketId := "s1" },
              { rank := 2, name := "Bao", score := 0, socketId := "s2" }]]
      ∧ (submitAnswer asciiLocaleCompare oneQuestionServer (correctSubmission "s9")).players
        = oneQuestionServer.players := by
  refine ⟨?_, ?_, ?_⟩ <;> decide!

theorem finishSubmit_out (lc : String → String → Int) (s : Server) (t : SubmitTask)
    (q : Question) (hq : t.q = some q) :
    (finishSubmit lc s t none).out
      = s.out ++ [.answerResult t.a.socketId (jsCorrect t.a)
            (if jsCorrect t.a then jsGained q t.a.timeUsed else .fin 0),
          .revealAnswerBy t.a.roomId (correctIndexOf q) t.a.socketId,
          .rankingData t.a.roomId (getRanking lc s.players t.a.roomId)] := by
  unfold finishSubmit
  simp only [hq, Server.emit]
  cases t.room with
  | none => simp
  | some r =>
    simp only []
    cases hh : s.heap[r]? with
    | none => simp
    | some room =>
      simp only []
      by_cases hidx : t.questionIndexInRoom = some room.currentIndex
      · simp only [hidx, if_true]
        cases room.timer <;>
          simp [Server.setTimeout, Server.modifyRoom, Server.clearTimeout]
      · simp only [hidx, if_false]
        simp

theorem finishSubmit_players (lc : String → String → Int) (s : Server) (t : SubmitTask)
    (rejected : Option String) : (finishSubmit lc s t rejected).players = s.players := by
  unfold finishSubmit
  cases t.q with
  | none => rfl
  | some q =>
    cases rejected with
    | some e => rfl
    | none =>
      simp only [Server.emit]
      cases t.room with
      | none => rfl
      | some r =>
        simp only []
        cases hh : s.heap[r]? with
        | none => rfl
        | some room =>
          simp only []
          by_cases hidx : t.questionIndexInRoom = some room.currentIndex
          · simp only [hidx, if_true]
            cases room.timer <;> rfl
          · simp only [hidx, if_false]

theorem addPlayerScore_fin (ledger : Ledger) (socketId : String) (p : Player) (g : ℚ)
    (hp : getPlayerFromMemory ledger socketId = some p) :
    addPlayerScore ledger socketId (.fin g) true
      = (ledger.map (fun x => if x.socketId = socketId then { x with score := x.score + g }
          else x), .ok (some (p.score + g))) := by
  unfold addPlayerScore
  simp only [hp]
  by_cases hg : g = 0
  · subst hg
    simp [JsNum.truthy]
  · simp [JsNum.truthy, hg]

/-- C17 (amended): in both handlers a submission graded incorrect reports `gained = 0` and
leaves the ledger as it was.  In `socketHandle.js` a submission graded correct that comes from
a player of the ledger, gains a finite number of points and has its score update persisted
reports `gained = calculateScore(points, timeLimit, timeUsed)` and adds that amount to the
score of the submitter and of nobody else. -/
theorem submission_score_effect (localeCompare : String → String → Int) (s : Server)
    (a : Submission) :
    (∀ q, findQuestion s a = .ok (some q) → liveCorrect q a.answerIndex = false →
        (submitAnswer localeCompare s a).players = s.players
          ∧ (submitAnswer localeCompare s a).out
            = s.out ++ [.wrongAnswer a.socketId a.questionId a.answerIndex,
                .answerResult a.socketId false (.fin 0),
                .rankingData a.roomId (getRanking localeCompare s.players a.roomId)])
      ∧ (∀ t q, beginSubmit s a = some t → t.q = some q → jsCorrect a = false →
          (submitAnswerJs localeCompare s a).players = s.players
            ∧ (submitAnswerJs localeCompare s a).out
              = s.out ++ [.answerResult a.socketId false (.fin 0),
                  .revealAnswerBy a.roomId (correctIndexOf q) a.socketId,
                  .rankingData a.roomId (getRanking localeCompare s.players a.roomId)])
      ∧ (∀ q p g, findQuestion s a = .ok (some q) → liveCorrect q a.answerIndex = true →
          getPlayerFromMemory s.players a.socketId = some p →
          liveGained q a.timeUsed = .fin g → a.persistOk = true →
          (submitAnswer localeCompare s a).players
              = s.players.map (fun x =>
                  if x.socketId = a.socketId then { x with score := x.score + g } else x)
            ∧ Emit.answerResult a.socketId true (.fin g) ∈ (submitAnswer localeCompare s a).out
            ∧ ∀ b u, q.points = some (.fin b) → b ≠ 0 → a.timeUsed = some (.fin u) →
                JsNum.fin g = calculateScore (.fin b) (questionTimeLimit q) (.fin u)) := by
  refine ⟨?_, ?_, ?_⟩
  · intro q hq hwrong
    unfold submitAnswer
    simp [hq, hwrong, Server.emit]
  · intro t q hb hq hc
    have ha := beginSubmit_a s a t hb
    rw [submitAnswerJs_incorrect localeCompare s a t hb hc]
    refine ⟨finishSubmit_players localeCompare s t none, ?_⟩
    rw [finishSubmit_out localeCompare s t q hq, ha]
    simp [hc]
  · intro q p g hq hcorrect hp hg hpersist
    have hadd := addPlayerScore_fin s.players a.socketId p g hp
    have hsub : submitAnswer localeCompare s a
        = (fun s2 : Server => (s2.emit (.answerResult a.socketId true (.fin g))).emit
            (.rankingData a.roomId (getRanking localeCompare s2.players a.roomId)))
          ((fun s1 : Server =>
              match s1.roomRef a.roomId with
              | none => s1
              | some r =>
                ((match (s1.heap[r]?).bind (fun x => x.timer) with
                  | some h => (s1.clearTimeout h).modifyRoom r (fun x => { x with timer := none })
                  | none => s1).modifyRoom r
                    (fun x => { x with currentIndex := x.currentIndex + 1 })).setTimeout
                  (.sendQuestion a.roomId) (.fin 500))
            (({ s with players := s.players.map (fun x =>
                  if x.socketId = a.socketId then { x with score := x.score + g } else x) }
                : Server).emit (.revealAnswer a.roomId (correctIndexOf q)))) := by
      unfold submitAnswer
      simp only [hq, hcorrect, if_true, hg, hpersist, hadd]
    refine ⟨?_, ?_, ?_⟩
    · rw [hsub]
      simp only [Server.emit]
      cases hr : Server.roomRef
          { s with
            players := s.players.map (fun x =>
              if x.socketId = a.socketId then { x with score := x.score + g } else x)
            out := s.out ++ [.revealAnswer a.roomId (correctIndexOf q)] } a.roomId with
      | none => rfl
      | some r =>
        simp only []
        split <;> rfl
    · rw [hsub]
      simp [Server.emit]
    · intro b u hb hb0 hu
      rw [← hg]
      unfold liveGained
      rw [hb, hu]
      by_cases hu0 : u = 0
      · subst hu0
        simp [JsNum.truthy, hb0]
      · simp [JsNum.truthy, hb0, hu0]

theorem submission_score_effect_witness :
    (submitAnswer asciiLocaleCompare oneQuestionServer (submissionWith (.str "B"))).players
        = oneQuestionServer.players
      ∧ (submitAnswerJs asciiLocaleCompare jsTwoQuestionServer (jsSubmission (.str "B"))).players
        = jsTwoQuestionServer.players
      ∧ (submitAnswer asciiLocaleCompare oneQuestionServer (correctSubmission "s2")).players
        = oneQuestionServer.players.map (fun x =>
            if x.socketId = (correctSubmission "s2").socketId then
              { x with score := x.score + 1500 } else x) :=
  ⟨((submission_score_effect asciiLocaleCompare oneQuestionServer
      (submissionWith (.str "B"))).1 questionA (by rfl) (by decide!)).1,
   ((submission_score_effect asciiLocaleCompare jsTwoQuestionServer
      (jsSubmission (.str "B"))).2.1 (taskAt (jsSubmission (.str "B")) 0 0 jsRoom.questions)
      (roomQuestion questionA) (by rfl) (by rfl) (by decide!)).1,
   ((submission_score_effect asciiLocaleCompare oneQuestionServer
      (correctSubmission "s2")).2.2 questionA
      { socketId := "s2", name := "Bao", roomId := .str "r" } 1500 (by rfl) (by decide!)
      (by decide!) (by decide!) rfl).1⟩

/-! ## Properties of the ledger under sequences of calls -/

theorem getPlayerFromMemory_map (ledger : Ledger) (socketId : String) (f : Player → Player)
    (hf : ∀ x, (f x).socketId = x.socketId) :
    getPlayerFromMemory (ledger.map f) socketId = (getPlayerFromMemory ledger socketId).map f := by
  induction ledger with
  | nil => simp [getPlayerFromMemory]
  | cons a l ih =>
    simp only [getPlayerFromMemory] at ih ⊢
    by_cases ha : a.socketId = socketId
    · simp [List.find?_cons, hf, ha]
    · simp only [List.map_cons, List.find?_cons, hf, ha, decide_False]
      exact ih

theorem getPlayerFromMemory_socketId (ledger : Ledger) (socketId : String) (p : Player)
    (h : getPlayerFromMemory ledger socketId = some p) : p.socketId = socketId := by
  have := List.find?_some h
  simpa using this

theorem filter_ne_map (ledger : Ledger) (socketId : String) (f : Player → Player)
    (hf : ∀ x, (f x).socketId = x.socketId) (hother : ∀ x, x.socketId ≠ socketId → f x = x) :
    (ledger.map f).filter (fun x => x.socketId != socketId)
      = ledger.filter (fun x => x.socketId != socketId) := by
  induction ledger with
  | nil => rfl
  | cons a l ih =>
    by_cases ha : a.socketId = socketId
    · have h1 : ((f a).socketId != socketId) = false := by simp [hf, ha]
      have h2 : (a.socketId != socketId) = false := by simp [ha]
      simp only [List.map_cons, List.filter_cons, h1, h2, Bool.false_eq_true, if_false]
      exact ih
    · have h1 : ((f a).socketId != socketId) = true := by simp [hf, ha]
      have h2 : (a.socketId != socketId) = true := by simp [ha]
      simp only [List.map_cons, List.filter_cons, h1, h2, if_true]
      rw [ih, hother a ha]

/-- C21: when the store accepts the update, `addPlayerScore(socketId, delta)` with a finite
`delta` on a present player returns the old score plus `delta`, leaves the player stored under
`socketId` with exactly that score and every other field as before, and changes no other
player (same entries, same order); on a socket id that is not in the ledger it returns `null`
and leaves the ledger as it is. -/
theorem addPlayerScore_frame (ledger : Ledger) (socketId : String) (delta : ℚ) :
    (∀ p, getPlayerFromMemory ledger socketId = some p →
      (addPlayerScore ledger socketId (.fin delta) true).2 = .ok (some (p.score + delta))
      ∧ getPlayerFromMemory (addPlayerScore ledger socketId (.fin delta) true).1 socketId
          = some { p with score := p.score + delta }
      ∧ (addPlayerScore ledger socketId (.fin delta) true).1.map (fun x => x.socketId)
          = ledger.map (fun x => x.socketId)
      ∧ (∀ other, other ≠ socketId →
          getPlayerFromMemory (addPlayerScore ledger socketId (.fin delta) true).1 other
            = getPlayerFromMemory ledger other)
      ∧ (addPlayerScore ledger socketId (.fin delta) true).1.filter
            (fun x => x.socketId != socketId)
          = ledger.filter (fun x => x.socketId != socketId))
    ∧ (getPlayerFromMemory ledger socketId = none →
      ∀ points persistOk, addPlayerScore ledger socketId points persistOk = (ledger, .ok none)) := by
  constructor
  · intro p hp
    rw [addPlayerScore_fin ledger socketId p delta hp]
    have hf : ∀ x : Player, (if x.socketId = socketId then { x with score := x.score + delta }
        else x).socketId = x.socketId := by
      intro x
      by_cases hx : x.socketId = socketId <;> simp [hx]
    have hsid := getPlayerFromMemory_socketId ledger socketId p hp
    refine ⟨rfl, ?_, ?_, ?_, ?_⟩
    · simp only []
      rw [getPlayerFromMemory_map ledger socketId _ hf, hp]
      simp [hsid]
    · simp only [List.map_map]
      apply List.map_congr_left
      intro x _
      exact hf x
    · intro other hother
      simp only []
      rw [getPlayerFromMemory_map ledger other _ hf]
      cases hq : getPlayerFromMemory ledger other with
      | none => rfl
      | some q =>
        have hqs := getPlayerFromMemory_socketId ledger other q hq
        have : q.socketId ≠ socketId := by rw [hqs]; exact hother
        simp [this]
    · simp only []
      exact filter_ne_map ledger socketId _ hf (fun x hx => by simp [hx])
  · intro hnone points persistOk
    simp [addPlayerScore, hnone]

theorem addPlayerScore_frame_witness :
    (addPlayerScore exampleLedger "s1" (.fin 25) true).2 = .ok (some ((50 : ℚ) + 25))
      ∧ addPlayerScore exampleLedger "s0" (.fin 25) true = (exampleLedger, .ok none) :=
  ⟨((addPlayerScore_frame exampleLedger "s1" 25).1
      { socketId := "s1", name := "Bao", roomId := .str "r", score := 50 } (by decide!)).1,
   (addPlayerScore_frame exampleLedger "s0" 25).2 (by decide!) _ _⟩

/-- C22: `addPlayerScore` with `NaN` for a present player is not rejected: `NaN || 0` is `0`,
so the call passes the finiteness guard, adds `0` and returns the player's score (50 for
player `s1` of the example ledger) instead of `null`; `+Infinity` and `-Infinity` do reach the
guard and return `null` with the ledger unchanged. -/
theorem addPlayerScore_nan_coerced_to_zero :
    returnOf (addPlayerScore exampleLedger "s1" .nan true).2 = some (some 50)
      ∧ (addPlayerScore exampleLedger "s1" .nan true).1 = exampleLedger
      ∧ returnOf (addPlayerScore exampleLedger "s1" .posInf true).2 = some none
      ∧ (addPlayerScore exampleLedger "s1" .posInf true).1 = exampleLedger
      ∧ returnOf (addPlayerScore exampleLedger "s1" .negInf true).2 = some none
      ∧ (addPlayerScore exampleLedger "s1" .negInf true).1 = exampleLedger := by
  refine ⟨by decide!, by decide!, by decide!, by decide!, by decide!, by decide!⟩

theorem addPlayerScore_ledger (ledger : Ledger) (socketId : String) (points : JsNum)
    (persistOk : Bool) :
    (addPlayerScore ledger socketId points persistOk).1 = ledger
      ∨ ∃ d, (points = .fin d ∨ d = 0)
          ∧ (addPlayerScore ledger socketId points persistOk).1
              = ledger.map (fun x =>
                  if x.socketId = socketId then { x with score := x.score + d } else x) := by
  unfold addPlayerScore
  cases hp : getPlayerFromMemory ledger socketId with
  | none => left; rfl
  | some p =>
    cases points with
    | nan => right; exact ⟨0, Or.inr rfl, by cases persistOk <;> simp [JsNum.truthy]⟩
    | posInf => left; simp [JsNum.truthy]
    | negInf => left; simp [JsNum.truthy]
    | fin d =>
      right
      by_cases hd : d = 0
      · exact ⟨0, Or.inr rfl, by cases persistOk <;> simp [JsNum.truthy, hd]⟩
      · exact ⟨d, Or.inl rfl, by cases persistOk <;> simp [JsNum.truthy, hd]⟩

theorem removePlayer_ledger (ledger : Ledger) (socketId : String) (persistOk : Bool) :
    (removePlayer ledger socketId persistOk).1
      = ledger.filter (fun p => p.socketId != socketId) := by
  unfold removePlayer
  cases hp : getPlayerFromMemory ledger socketId with
  | none => simp [filter_ne_eq_self ledger socketId hp]
  | some p => cases persistOk <;> simp

theorem addPlayer_ledger (ledger : Ledger) (socketId name : String) (roomId : JsVal)
    (now : Nat) :
    applyLedgerOp ledger (.addPlayer socketId name roomId now) = ledger
      ∨ applyLedgerOp ledger (.addPlayer socketId name roomId now)
          = ledgerSet ledger
              { socketId := socketId, name := String.mk (jsTrim name.toList), roomId := roomId,
                userId := .null, score := 0, joinedAt := now } := by
  unfold applyLedgerOp addPlayer
  by_cases h : socketId.data = [] ∨ name.data = []
  · left; simp [h]
  · right; simp [h]

theorem mem_ledgerSet (ledger : Ledger) (player q : Player) (hq : q ∈ ledgerSet ledger player) :
    q ∈ ledger ∨ q = player := by
  unfold ledgerSet at hq
  split at hq
  · rw [List.mem_map] at hq
    obtain ⟨x, hx, hxq⟩ := hq
    by_cases h : x.socketId = player.socketId
    · right; simp [h] at hxq; exact hxq.symm
    · left; simp [h] at hxq; rw [← hxq]; exact hx
  · rw [List.mem_append] at hq
    rcases hq with hq | hq
    · left; exact hq
    · right; simpa using hq

theorem getPlayerFromMemory_ledgerSet_ne (ledger : Ledger) (player : Player)
    (socketId : String) (h : player.socketId ≠ socketId) :
    getPlayerFromMemory (ledgerSet ledger player) socketId
      = getPlayerFromMemory ledger socketId := by
  by_cases hp : getPlayerFromMemory ledger player.socketId = none
  · rw [ledgerSet_absent ledger player hp]
    simp only [getPlayerFromMemory, List.find?_append, List.find?_cons, h, decide_False,
      List.find?_nil, Option.or_none]
  · rw [ledgerSet_present ledger player hp]
    have hf : ∀ x : Player, (if x.socketId = player.socketId then player else x).socketId
        = x.socketId := by
      intro x
      by_cases hx : x.socketId = player.socketId <;> simp [hx]
    rw [getPlayerFromMemory_map ledger socketId _ hf]
    cases hq : getPlayerFromMemory ledger socketId with
    | none => rfl
    | some q =>
      have hqs := getPlayerFromMemory_socketId ledger socketId q hq
      have : q.socketId ≠ player.socketId := by rw [hqs]; exact fun e => h e.symm
      simp [this]

theorem getPlayerFromMemory_filter_ne (ledger : Ledger) (removed socketId : String) :
    getPlayerFromMemory (ledger.filter (fun p => p.socketId != removed)) socketId
      = if socketId = removed then none else getPlayerFromMemory ledger socketId := by
  induction ledger with
  | nil => simp [getPlayerFromMemory]
  | cons a l ih =>
    simp only [getPlayerFromMemory] at ih ⊢
    by_cases ha : a.socketId = removed
    · have h1 : (a.socketId != removed) = false := by simp [ha]
      simp only [List.filter_cons, h1, Bool.false_eq_true, if_false, ih]
      by_cases hs : socketId = removed
      · simp [hs]
      · have : a.socketId ≠ socketId := by rw [ha]; exact fun e => hs e.symm
        simp [hs, List.find?_cons, this]
    · have h1 : (a.socketId != removed) = true := by simp [ha]
      simp only [List.filter_cons, h1, if_true, List.find?_cons]
      by_cases hs : a.socketId = socketId
      · have : socketId ≠ removed := by rw [← hs]; exact ha
        simp [hs, this]
      · simp only [hs, decide_False]
        exact ih

theorem nonNegativeDeltas_cons (op : LedgerOp) (ops : List LedgerOp) :
    nonNegativeDeltas (op :: ops) = (nonNegativeDeltas [op] && nonNegativeDeltas ops) := by
  cases op with
  | addPlayer s n r t => simp [nonNegativeDeltas]
  | addPlayerScore s pts => cases pts <;> simp [nonNegativeDeltas]
  | removePlayer s => simp [nonNegativeDeltas]

theorem neverAdds_cons (socketId : String) (op : LedgerOp) (ops : List LedgerOp) :
    neverAdds socketId (op :: ops) = (neverAdds socketId [op] && neverAdds socketId ops) := by
  cases op <;> simp [neverAdds]

theorem applyLedgerOp_nonneg (ledger : Ledger) (op : LedgerOp)
    (h0 : ∀ p ∈ ledger, 0 ≤ p.score) (hop : nonNegativeDeltas [op] = true) :
    ∀ p ∈ applyLedgerOp ledger op, 0 ≤ p.score := by
  intro q hq
  cases op with
  | addPlayer s n r t =>
    rcases addPlayer_ledger ledger s n r t with h | h
    · rw [h] at hq; exact h0 q hq
    · rw [h] at hq
      rcases mem_ledgerSet ledger _ q hq with h1 | h1
      · exact h0 q h1
      · rw [h1]
  | addPlayerScore s pts =>
    simp only [applyLedgerOp] at hq
    rcases addPlayerScore_ledger ledger s pts true with h | ⟨d, hd, h⟩
    · rw [h] at hq; exact h0 q hq
    · rw [h, List.mem_map] at hq
      obtain ⟨x, hx, hxq⟩ := hq
      have hd0 : 0 ≤ d := by
        rcases hd with hd | hd
        · subst hd
          simpa [nonNegativeDeltas] using hop
        · rw [hd]
      by_cases hs : x.socketId = s
      · simp only [hs, if_true] at hxq
        rw [← hxq]
        exact add_nonneg (h0 x hx) hd0
      · simp only [hs, if_false] at hxq
        rw [← hxq]
        exact h0 x hx
  | removePlayer s =>
    simp only [applyLedgerOp, removePlayer_ledger] at hq
    exact h0 q (List.mem_of_mem_filter hq)

theorem applyLedgerOp_scoreOf (ledger : Ledger) (op : LedgerOp) (socketId : String)
    (hadd : neverAdds socketId [op] = true) (hop : nonNegativeDeltas [op] = true) :
    (scoreOf ledger socketId = none → scoreOf (applyLedgerOp ledger op) socketId = none)
      ∧ ∀ a b, scoreOf ledger socketId = some a →
          scoreOf (applyLedgerOp ledger op) socketId = some b → a ≤ b := by
  cases op with
  | addPlayer s n r t =>
    have hne : s ≠ socketId := by simpa [neverAdds] using hadd
    have hsame : getPlayerFromMemory (applyLedgerOp ledger (.addPlayer s n r t)) socketId
        = getPlayerFromMemory ledger socketId := by
      rcases addPlayer_ledger ledger s n r t with h | h
      · rw [h]
      · rw [h]
        exact getPlayerFromMemory_ledgerSet_ne ledger _ socketId hne
    simp only [scoreOf, hsame]
    refine ⟨fun h => h, ?_⟩
    intro a b ha hb
    rw [ha] at hb
    exact le_of_eq (Option.some.inj hb)
  | addPlayerScore s pts =>
    simp only [applyLedgerOp]
    rcases addPlayerScore_ledger ledger s pts true with h | ⟨d, hd, h⟩
    · rw [h]
      refine ⟨fun h => h, ?_⟩
      intro a b ha hb
      rw [ha] at hb
      exact le_of_eq (Option.some.inj hb)
    · have hd0 : 0 ≤ d := by
        rcases hd with hd | hd
        · subst hd
          simpa [nonNegativeDeltas] using hop
        · rw [hd]
      have hf : ∀ x : Player, (if x.socketId = s then { x with score := x.score + d }
          else x).socketId = x.socketId := by
        intro x
        by_cases hx : x.socketId = s <;> simp [hx]
      rw [h]
      simp only [scoreOf, getPlayerFromMemory_map ledger socketId _ hf]
      cases hq : getPlayerFromMemory ledger socketId with
      | none => simp
      | some q =>
        refine ⟨by simp, ?_⟩
        intro a b ha hb
        simp only [Option.map_some', Option.some.injEq] at ha hb
        rw [← ha, ← hb]
        by_cases hs : q.socketId = s
        · simp only [hs, if_true]
          linarith
        · simp only [hs, if_false]
          exact le_refl _
  | removePlayer s =>
    simp only [applyLedgerOp, removePlayer_ledger, scoreOf, getPlayerFromMemory_filter_ne]
    by_cases hs : socketId = s
    · simp [hs]
    · simp only [hs, if_false]
      refine ⟨fun h => h, ?_⟩
      intro a b ha hb
      rw [ha] at hb
      exact le_of_eq (Option.some.inj hb)

theorem runLedgerOps_scoreOf_none (ops : List LedgerOp) (ledger : Ledger) (socketId : String)
    (hadd : neverAdds socketId ops = true) (hops : nonNegativeDeltas ops = true)
    (h : scoreOf ledger socketId = none) : scoreOf (runLedgerOps ledger ops) socketId = none := by
  induction ops generalizing ledger with
  | nil => exact h
  | cons op ops ih =>
    rw [neverAdds_cons, Bool.and_eq_true] at hadd
    rw [nonNegativeDeltas_cons, Bool.and_eq_true] at hops
    simp only [runLedgerOps, List.foldl_cons]
    exact ih _ hadd.2 hops.2 ((applyLedgerOp_scoreOf ledger op socketId hadd.1 hops.1).1 h)

/-- C23 (counterexample): after `addPlayer`, `addPlayerScore(100)` the score of `s1` is 100;
a further `addPlayerScore(-130)` leaves it at -30, which is negative and lower than before;
and a second `addPlayer` for `s1` after the 100 points puts the score back to 0. -/
theorem score_decreases_below_zero :
    scoreOf (runLedgerOps [] (penaltyOps.take 2)) "s1" = some 100
      ∧ scoreOf (runLedgerOps [] penaltyOps) "s1" = some (-30)
      ∧ scoreOf (runLedgerOps [] rejoinAfterScoreOps) "s1" = some 0 := by
  refine ⟨by decide!, by decide!, by decide!⟩

/-- C23 (amended): in every sequence of `addPlayer`, `addPlayerScore` and `removePlayer`
calls whose finite deltas are all non-negative, starting from a ledger with non-negative
scores, every stored score stays non-negative; and over any such sequence that does not call
`addPlayer` for a socket id, the score stored for that socket id at the end is not lower than
the one stored at the start. -/
theorem score_nonneg_and_monotone (ledger : Ledger) (ops : List LedgerOp)
    (h0 : ∀ p ∈ ledger, 0 ≤ p.score) (hops : nonNegativeDeltas ops = true) :
    (∀ p ∈ runLedgerOps ledger ops, 0 ≤ p.score)
      ∧ ∀ socketId a b, neverAdds socketId ops = true → scoreOf ledger socketId = some a →
          scoreOf (runLedgerOps ledger ops) socketId = some b → a ≤ b := by
  induction ops generalizing ledger with
  | nil =>
    refine ⟨h0, ?_⟩
    intro socketId a b _ ha hb
    simp only [runLedgerOps, List.foldl_nil] at hb
    rw [ha] at hb
    exact le_of_eq (Option.some.inj hb)
  | cons op ops ih =>
    rw [nonNegativeDeltas_cons, Bool.and_eq_true] at hops
    have hstep := applyLedgerOp_nonneg ledger op h0 hops.1
    have hrest := ih (applyLedgerOp ledger op) hstep hops.2
    refine ⟨hrest.1, ?_⟩
    intro socketId a b hadd ha hb
    rw [neverAdds_cons, Bool.and_eq_true] at hadd
    have hone := applyLedgerOp_scoreOf ledger op socketId hadd.1 hops.1
    cases hmid : scoreOf (applyLedgerOp ledger op) socketId with
    | none =>
      have := runLedgerOps_scoreOf_none ops _ socketId hadd.2 hops.2 hmid
      simp only [runLedgerOps, List.foldl_cons] at hb this
      rw [this] at hb
      exact absurd hb (by simp)
    | some m =>
      exact le_trans (hone.2 a m ha hmid) (hrest.2 socketId m b hadd.2 hmid hb)

theorem score_nonneg_and_monotone_witness :
    (∀ p ∈ runLedgerOps exampleLedger
        [.addPlayerScore "s1" (.fin 25), .removePlayer "s2", .addPlayerScore "s1" .nan],
        0 ≤ p.score)
      ∧ (50 : ℚ) ≤ 75 :=
  ⟨(score_nonneg_and_monotone exampleLedger
      [.addPlayerScore "s1" (.fin 25), .removePlayer "s2", .addPlayerScore "s1" .nan]
      (by decide!) (by decide!)).1,
   (score_nonneg_and_monotone exampleLedger
      [.addPlayerScore "s1" (.fin 25), .removePlayer "s2", .addPlayerScore "s1" .nan]
      (by decide!) (by decide!)).2 "s1" 50 75 (by decide!) (by decide!) (by decide!)⟩

theorem applyLedgerOp_joinOrdered (ledger : Ledger) (op : LedgerOp)
    (h : joinsInOrder ledger [op] = true) (hs : joinOrdered ledger) :
    joinOrdered (applyLedgerOp ledger op) := by
  cases op with
  | addPlayer s n r t =>
    simp only [joinsInOrder, Bool.and_true, Bool.and_eq_true, Option.isNone_iff_eq_none,
      List.all_eq_true, decide_eq_true_eq] at h
    rcases addPlayer_ledger ledger s n r t with h1 | h1
    · rw [h1]; exact hs
    · rw [h1, ledgerSet_absent ledger _ h.1]
      unfold joinOrdered at hs ⊢
      rw [List.pairwise_append]
      refine ⟨hs, List.pairwise_singleton _ _, ?_⟩
      intro a ha b hb
      simp only [List.mem_singleton] at hb
      rw [hb]
      exact h.2 a ha
  | addPlayerScore s pts =>
    simp only [applyLedgerOp]
    rcases addPlayerScore_ledger ledger s pts true with h1 | ⟨d, _, h1⟩
    · rw [h1]; exact hs
    · rw [h1]
      unfold joinOrdered at hs ⊢
      rw [List.pairwise_map]
      refine hs.imp ?_
      intro a b hab
      by_cases ha : a.socketId = s <;> by_cases hb : b.socketId = s <;> simp [ha, hb, hab]
  | removePlayer s =>
    simp only [applyLedgerOp, removePlayer_ledger]
    exact List.Pairwise.filter _ hs

theorem joinsInOrder_cons (ledger : Ledger) (op : LedgerOp) (ops : List LedgerOp) :
    joinsInOrder ledger (op :: ops)
      = (joinsInOrder ledger [op] && joinsInOrder (applyLedgerOp ledger op) ops) := by
  cases op <;> simp [joinsInOrder]

/-- C24 (counterexample): players `s1` and `s2` join room `r` at times 1 and 2 and `s1` is
added again at time 3; `getPlayersInRoom` then lists `s1` (joinedAt 3) before `s2`
(joinedAt 2), which is not in non-decreasing `joinedAt` order. -/
theorem getPlayersInRoom_rejoin_out_of_order :
    (getPlayersInRoom (runLedgerOps [] rejoinOps) (.str "r")).map
        (fun p => (p.socketId, p.joinedAt)) = [("s1", 3), ("s2", 2)]
      ∧ ¬ joinOrdered (getPlayersInRoom (runLedgerOps [] rejoinOps) (.str "r")) := by
  refine ⟨by decide!, ?_⟩
  unfold joinOrdered
  decide!

/-- C24 (amended): for every sequence of ledger calls in which each `addPlayer` is for a
socket id that is not in the ledger at that moment and carries a time not before any
`joinedAt` already stored, starting from a ledger in join order, `getPlayersInRoom(roomId)`
lists the players of every room in non-decreasing `joinedAt` order. -/
theorem getPlayersInRoom_join_ordered (ledger : Ledger) (ops : List LedgerOp) (roomId : JsVal)
    (h : joinsInOrder ledger ops = true) (hs : joinOrdered ledger) :
    joinOrdered (getPlayersInRoom (runLedgerOps ledger ops) roomId) := by
  induction ops generalizing ledger with
  | nil => exact List.Pairwise.filter _ hs
  | cons op ops ih =>
    rw [joinsInOrder_cons, Bool.and_eq_true] at h
    simp only [runLedgerOps, List.foldl_cons]
    exact ih _ h.2 (applyLedgerOp_joinOrdered ledger op h.1 hs)

theorem getPlayersInRoom_join_ordered_witness :
    joinOrdered (getPlayersInRoom
      (runLedgerOps [] [.addPlayer "s1" "Anh" (.str "r") 1, .addPlayer "s2" "Bao" (.str "r") 2,
        .removePlayer "s1", .addPlayer "s1" "Anh" (.str "r") 3]) (.str "r")) :=
  getPlayersInRoom_join_ordered [] _ (.str "r") (by decide!) List.Pairwise.nil

/-! ## Properties of the room registry -/

theorem mapGet_eq_none_iff {ν : Type} (m : List (String × ν)) (key : String) :
    mapGet m key = none ↔ ∀ e ∈ m, e.1 ≠ key := by
  simp [mapGet, List.find?_eq_none]

theorem mapHas_eq_isSome {ν : Type} (m : List (String × ν)) (key : String) :
    mapHas m key = (mapGet m key).isSome := by
  induction m with
  | nil => rfl
  | cons a l ih =>
    simp only [mapHas, mapGet] at ih ⊢
    by_cases ha : a.1 = key
    · simp [List.find?_cons, ha]
    · simp only [List.any_cons, ha, decide_False, Bool.false_or, List.find?_cons]
      exact ih

theorem mapHas_false_iff {ν : Type} (m : List (String × ν)) (key : String) :
    mapHas m key = false ↔ mapGet m key = none := by
  rw [mapHas_eq_isSome]
  cases mapGet m key <;> simp

theorem mapGet_map_replace {ν : Type} (m : List (String × ν)) (key : String) (value : ν)
    (k : String) :
    mapGet (m.map (fun e => if e.1 = key then (key, value) else e)) k
      = if k = key then (mapGet m key).map (fun _ => value) else mapGet m k := by
  induction m with
  | nil => by_cases hk : k = key <;> simp [mapGet, hk]
  | cons a l ih =>
    simp only [mapGet] at ih ⊢
    by_cases ha : a.1 = key
    · by_cases hk : k = key
      · simp [List.find?_cons, ha, hk]
      · have hk' : key ≠ k := fun e => hk e.symm
        have hak : a.1 ≠ k := by rw [ha]; exact hk'
        simp only [List.map_cons, ha, if_true, List.find?_cons, hk', decide_False, hk, if_false,
          hak]
        simpa [hk] using ih
    · by_cases hk : k = key
      · subst hk
        simp only [List.map_cons, ha, if_false, List.find?_cons, decide_False, if_true]
        simpa using ih
      · by_cases hak : a.1 = k
        · simp [List.find?_cons, ha, hak, hk]
        · simp only [List.map_cons, ha, if_false, List.find?_cons, hak, decide_False, hk]
          simpa [hk] using ih

theorem mapGet_mapSet {ν : Type} (m : List (String × ν)) (key : String) (value : ν)
    (k : String) :
    mapGet (mapSet m key value) k = if k = key then some value else mapGet m k := by
  unfold mapSet
  by_cases h : mapHas m key = true
  · rw [if_pos h, mapGet_map_replace]
    by_cases hk : k = key
    · rw [mapHas_eq_isSome] at h
      cases hg : mapGet m key with
      | none => rw [hg] at h; simp at h
      | some v => simp [hk]
    · simp [hk]
  · rw [if_neg h]
    have hnone : mapGet m key = none := (mapHas_false_iff m key).mp (by simpa using h)
    by_cases hk : k = key
    · subst hk
      have hall := (mapGet_eq_none_iff m k).mp hnone
      have hfind : m.find? (fun e => decide (e.1 = k)) = none := by
        rw [List.find?_eq_none]
        intro e he
        simpa using hall e he
      simp [mapGet, List.find?_append, hfind]
    · have hk' : key ≠ k := fun e => hk e.symm
      simp only [mapGet, List.find?_append, List.find?_cons, hk', decide_False, List.find?_nil,
        Option.or_none, hk, if_false]

theorem mapGet_mapDelete {ν : Type} (m : List (String × ν)) (key k : String) :
    mapGet (mapDelete m key) k = if k = key then none else mapGet m k := by
  induction m with
  | nil => simp [mapGet, mapDelete]
  | cons a l ih =>
    simp only [mapGet, mapDelete] at ih ⊢
    by_cases ha : a.1 = key
    · have h1 : (a.1 != key) = false := by simp [ha]
      simp only [List.filter_cons, h1, Bool.false_eq_true, if_false, ih]
      by_cases hk : k = key
      · simp [hk]
      · have : a.1 ≠ k := by rw [ha]; exact fun e => hk e.symm
        simp [hk, List.find?_cons, this]
    · have h1 : (a.1 != key) = true := by simp [ha]
      simp only [List.filter_cons, h1, if_true, List.find?_cons]
      by_cases hs : a.1 = k
      · have : k ≠ key := by rw [← hs]; exact ha
        simp [hs, this]
      · simp only [hs, decide_False]
        exact ih

theorem mapDelete_absent {ν : Type} (m : List (String × ν)) (key : String)
    (h : mapGet m key = none) : mapDelete m key = m := by
  unfold mapDelete
  rw [List.filter_eq_self]
  intro e he
  simpa using (mapGet_eq_none_iff m key).mp h e he

/-- C26: `removeRoom(id)` on a room in memory (whose code is a non-empty string, as every
generated code is) leaves `getRoomFromMemory(id)` and `getRoomIdByCode(code)` both `null`,
every other room and every other code resolve as before, and the tables keep their other
entries in order; on an id that is not in memory the registry is unchanged; and a second
`removeRoom(id)` gives the same registry as the first, whether or not the store fails. -/
theorem removeRoom_spec (reg : Registry) (id : String) (persistOk : Bool) :
    (∀ room, getRoomFromMemory reg id = some room → room.code ≠ "" →
      getRoomFromMemory (removeRoom reg id persistOk).1 id = none
      ∧ getRoomIdByCode (removeRoom reg id persistOk).1 room.code = none
      ∧ (∀ other, other ≠ id →
          getRoomFromMemory (removeRoom reg id persistOk).1 other = getRoomFromMemory reg other)
      ∧ (∀ code, code ≠ room.code →
          getRoomIdByCode (removeRoom reg id persistOk).1 code = getRoomIdByCode reg code)
      ∧ (removeRoom reg id persistOk).1.memoryRooms
          = reg.memoryRooms.filter (fun e => e.1 != id)
      ∧ (removeRoom reg id persistOk).1.codeToRoomId
          = reg.codeToRoomId.filter (fun e => e.1 != room.code))
    ∧ (getRoomFromMemory reg id = none → (removeRoom reg id persistOk).1 = reg)
    ∧ ∀ again, (removeRoom (removeRoom reg id persistOk).1 id again).1
        = (removeRoom reg id persistOk).1 := by
  refine ⟨?_, ?_, ?_⟩
  · intro room hroom hcode
    have hroom' : mapGet reg.memoryRooms id = some room := hroom
    simp only [removeRoom, hroom', hcode, if_false, getRoomFromMemory, getRoomIdByCode,
      mapGet_mapDelete, if_true]
    refine ⟨trivial, trivial, ?_, ?_, rfl, rfl⟩
    · intro other hother
      simp [hother]
    · intro code hc
      simp [hc]
  · intro hnone
    have hnone' : mapGet reg.memoryRooms id = none := hnone
    simp only [removeRoom, hnone', mapDelete_absent reg.memoryRooms id hnone']
  · intro again
    have hgone : mapGet (removeRoom reg id persistOk).1.memoryRooms id = none := by
      simp [removeRoom, mapGet_mapDelete]
    have hdel : (removeRoom reg id persistOk).1.memoryRooms = mapDelete reg.memoryRooms id := rfl
    have hnext : (removeRoom reg id persistOk).1.nextRef = reg.nextRef := rfl
    simp only [removeRoom] at hgone ⊢
    simp only [hgone, mapDelete_absent _ id hgone]

theorem removeRoom_spec_witness :
    getRoomFromMemory (removeRoom oneRoomRegistry "room-1" true).1 "room-1" = none
      ∧ getRoomIdByCode (removeRoom oneRoomRegistry "room-1" true).1 "AAAAAA" = none
      ∧ (removeRoom oneRoomRegistry "room-2" false).1 = oneRoomRegistry :=
  ⟨((removeRoom_spec oneRoomRegistry "room-1" true).1 firstRoom (by decide!) (by decide!)).1,
   ((removeRoom_spec oneRoomRegistry "room-1" true).1 firstRoom (by decide!) (by decide!)).2.1,
   (removeRoom_spec oneRoomRegistry "room-2" false).2.1 (by decide!)⟩

theorem chars_length : chars.length = 36 := by decide

theorem charAt_draw (r : ℚ) (h0 : 0 ≤ r) (h1 : r < 1) :
    ∃ c, c ∈ chars ∧ charAt chars (Rat.floor (r * (chars.length : ℚ))) = [c] := by
  rw [rat_floor_eq, chars_length]
  have hnn : (0 : ℤ) ≤ ⌊r * ((36 : ℕ) : ℚ)⌋ := by
    apply Int.floor_nonneg.mpr
    positivity
  have hlt : ⌊r * ((36 : ℕ) : ℚ)⌋ < 36 := by
    rw [Int.floor_lt]
    push_cast
    linarith
  have hnat : ⌊r * ((36 : ℕ) : ℚ)⌋.toNat < chars.length := by
    rw [chars_length]
    omega
  refine ⟨chars.get ⟨_, hnat⟩, List.get_mem _ _ _, ?_⟩
  simp only [charAt, hnn, if_true, List.get?_eq_get hnat]

theorem drawCode_eq (draws : Nat → ℚ) (pos : Nat) :
    drawCode draws pos
      = charAt chars (Rat.floor (draws (pos + 0) * (chars.length : ℚ)))
        ++ charAt chars (Rat.floor (draws (pos + 1) * (chars.length : ℚ)))
        ++ charAt chars (Rat.floor (draws (pos + 2) * (chars.length : ℚ)))
        ++ charAt chars (Rat.floor (draws (pos + 3) * (chars.length : ℚ)))
        ++ charAt chars (Rat.floor (draws (pos + 4) * (chars.length : ℚ)))
        ++ charAt chars (Rat.floor (draws (pos + 5) * (chars.length : ℚ))) := by
  have hr : List.range 6 = [0, 1, 2, 3, 4, 5] := by decide
  simp only [drawCode, hr, List.foldl_cons, List.foldl_nil, List.nil_append]

theorem drawCode_spec (draws : Nat → ℚ) (pos : Nat) (h : ∀ n, 0 ≤ draws n ∧ draws n < 1) :
    (drawCode draws pos).length = 6 ∧ ∀ c ∈ drawCode draws pos, c ∈ chars := by
  rw [drawCode_eq]
  obtain ⟨c0, m0, e0⟩ := charAt_draw (draws (pos + 0)) (h _).1 (h _).2
  obtain ⟨c1, m1, e1⟩ := charAt_draw (draws (pos + 1)) (h _).1 (h _).2
  obtain ⟨c2, m2, e2⟩ := charAt_draw (draws (pos + 2)) (h _).1 (h _).2
  obtain ⟨c3, m3, e3⟩ := charAt_draw (draws (pos + 3)) (h _).1 (h _).2
  obtain ⟨c4, m4, e4⟩ := charAt_draw (draws (pos + 4)) (h _).1 (h _).2
  obtain ⟨c5, m5, e5⟩ := charAt_draw (draws (pos + 5)) (h _).1 (h _).2
  rw [e0, e1, e2, e3, e4, e5]
  refine ⟨rfl, ?_⟩
  intro c hc
  simp only [List.singleton_append, List.cons_append, List.nil_append, List.mem_cons,
    List.mem_singleton, List.not_mem_nil, or_false] at hc
  rcases hc with h | h | h | h | h | h <;> rw [h] <;> assumption

theorem generateRoomCode_result (table : List (String × String)) (draws : Nat → ℚ)
    (fuel pos : Nat) (code : String) (h : generateRoomCode table draws fuel pos = some code) :
    mapHas table code = false ∧ ∃ k, code = String.mk (drawCode draws (pos + 6 * k)) := by
  induction fuel generalizing pos with
  | zero => simp [generateRoomCode] at h
  | succ fuel ih =>
    simp only [generateRoomCode] at h
    by_cases hc : mapHas table (String.mk (drawCode draws pos)) = true
    · rw [if_pos hc] at h
      obtain ⟨h1, k, hk⟩ := ih (pos + 6) h
      refine ⟨h1, k + 1, ?_⟩
      rw [hk]
      congr 2
      ring
    · rw [if_neg hc] at h
      have hcode : String.mk (drawCode draws pos) = code := Option.some.inj h
      refine ⟨by rw [← hcode]; simpa using hc, 0, ?_⟩
      rw [← hcode]
      rfl

theorem generateRoomCode_first_free_at (table : List (String × String)) (draws : Nat → ℚ)
    (k : Nat) : ∀ fuel pos,
    (∀ j, j < k → mapHas table (String.mk (drawCode draws (pos + 6 * j))) = true) →
    mapHas table (String.mk (drawCode draws (pos + 6 * k))) = false →
    generateRoomCode table draws fuel pos
      = if k < fuel then some (String.mk (drawCode draws (pos + 6 * k))) else none := by
  induction k with
  | zero =>
    intro fuel pos _ hfree
    cases fuel with
    | zero => rfl
    | succ fuel =>
      simp only [Nat.mul_zero, Nat.add_zero] at hfree ⊢
      simp [generateRoomCode, hfree]
  | succ k ih =>
    intro fuel pos hbusy hfree
    cases fuel with
    | zero => rfl
    | succ fuel =>
      have h0 : mapHas table (String.mk (drawCode draws pos)) = true := by
        simpa using hbusy 0 (Nat.succ_pos k)
      have hshift : ∀ j, pos + 6 + 6 * j = pos + 6 * (j + 1) := by intro j; ring
      have hrec := ih fuel (pos + 6)
        (fun j hj => by rw [hshift]; exact hbusy (j + 1) (Nat.succ_lt_succ hj))
        (by rw [hshift]; exact hfree)
      simp only [generateRoomCode, h0, if_true, hrec, hshift, Nat.succ_lt_succ_iff]

theorem drawCode_zeroDraws (pos : Nat) : drawCode zeroDraws pos = "AAAAAA".toList := by
  rw [drawCode_eq]
  simp only [zeroDraws]
  decide!

theorem generateRoomCode_zeroDraws (fuel pos : Nat) :
    generateRoomCode oneRoomRegistry.codeToRoomId zeroDraws fuel pos = none := by
  induction fuel generalizing pos with
  | zero => rfl
  | succ fuel ih =>
    have hbusy : mapHas oneRoomRegistry.codeToRoomId (String.mk "AAAAAA".toList) = true := by
      decide!
    simp only [generateRoomCode, drawCode_zeroDraws, hbusy, if_true, ih]

/-- C29 (counterexample): in the registry that holds one room with code `AAAAAA`, on the
stream of draws that always gives 0 every attempt of `generateRoomCode` draws `AAAAAA` again,
so for no number of nested calls does `generateRoomCode` return, and `createRoom` returns
neither a room nor a failure. -/
theorem generateRoomCode_never_returns :
    (∀ fuel, generateRoomCode oneRoomRegistry.codeToRoomId zeroDraws fuel 0 = none)
      ∧ ∀ fuel, createRoom oneRoomRegistry "room-2" .null .null 1 zeroDraws fuel true = none := by
  refine ⟨fun fuel => generateRoomCode_zeroDraws fuel 0, ?_⟩
  intro fuel
  simp only [createRoom, generateRoomCode_zeroDraws]

/-- C29 (amended): `generateRoomCode` has no cap on retries: when the first `k` codes drawn
are all in the code table and the next one is not, it returns that code, after `k` retries,
as soon as more than `k` nested calls are available, and does not return within `k` or
fewer. -/
theorem generateRoomCode_returns_first_free (table : List (String × String))
    (draws : Nat → ℚ) (k fuel : Nat)
    (hbusy : ∀ j, j < k → mapHas table (String.mk (drawCode draws (6 * j))) = true)
    (hfree : mapHas table (String.mk (drawCode draws (6 * k))) = false) :
    generateRoomCode table draws fuel 0
      = if k < fuel then some (String.mk (drawCode draws (6 * k))) else none := by
  have h := generateRoomCode_first_free_at table draws k fuel 0
    (fun j hj => by rw [Nat.zero_add]; exact hbusy j hj) (by rw [Nat.zero_add]; exact hfree)
  rw [Nat.zero_add] at h
  exact h

theorem generateRoomCode_returns_first_free_witness :
    generateRoomCode oneRoomRegistry.codeToRoomId retryDraws 2 0 = some "SSSSSS"
      ∧ generateRoomCode oneRoomRegistry.codeToRoomId retryDraws 1 0 = none :=
  ⟨(generateRoomCode_returns_first_free oneRoomRegistry.codeToRoomId retryDraws 1 2
      (fun j hj => by
        have hj0 : j = 0 := by omega
        subst hj0
        decide!)
      (by decide!)).trans (by decide!),
   (generateRoomCode_returns_first_free oneRoomRegistry.codeToRoomId retryDraws 1 1
      (fun j hj => by
        have hj0 : j = 0 := by omega
        subst hj0
        decide!)
      (by decide!)).trans (by decide!)⟩

theorem createRoom_eq (reg : Registry) (id : String) (hostUserId questionSetId : JsVal)
    (now : Nat) (draws : Nat → ℚ) (fuel : Nat) (persistOk : Bool) (reg' : Registry)
    (room : RoomRecord)
    (h : createRoom reg id hostUserId questionSetId now draws fuel persistOk
      = some (reg', room)) :
    ∃ code, generateRoomCode reg.codeToRoomId draws fuel 0 = some code
      ∧ room = { ref := reg.nextRef, id := id, hostUserId := hostUserId,
                 questionSetId := questionSetId, status := "waiting", createdAt := now,
                 code := code, players := [] }
      ∧ reg' = { memoryRooms := mapSet reg.memoryRooms id room
                 codeToRoomId := mapSet reg.codeToRoomId code id
                 nextRef := reg.nextRef + 1 } := by
  unfold createRoom at h
  cases hg : generateRoomCode reg.codeToRoomId draws fuel 0 with
  | none => rw [hg] at h; simp at h
  | some code =>
    rw [hg] at h
    simp only [ite_self, Option.some.injEq, Prod.mk.injEq] at h
    refine ⟨code, rfl, h.2.symm, ?_⟩
    rw [← h.1, ← h.2]

theorem wellFormed_consistent (reg : Registry) (h : reg.WellFormed) : reg.Consistent := by
  refine ⟨?_, h.2⟩
  intro id room hroom
  obtain ⟨h1, h2, _, h4⟩ := h.1 id room hroom
  exact ⟨h1, by simp [getRoomIdByCode, h4, h2]⟩

theorem createRoom_wellFormed (reg : Registry) (id : String) (hostUserId questionSetId : JsVal)
    (now : Nat) (draws : Nat → ℚ) (fuel : Nat) (persistOk : Bool) (reg' : Registry)
    (room : RoomRecord) (hwf : reg.WellFormed) (hid : id ≠ "")
    (hfresh : getRoomFromMemory reg id = none) (hdraws : ∀ n, 0 ≤ draws n ∧ draws n < 1)
    (h : createRoom reg id hostUserId questionSetId now draws fuel persistOk
      = some (reg', room)) : reg'.WellFormed := by
  obtain ⟨code, hgen, hroom, hreg⟩ := createRoom_eq _ _ _ _ _ _ _ _ _ _ h
  obtain ⟨hfree, k, hk⟩ := generateRoomCode_result _ _ _ _ _ hgen
  have hfree' : mapGet reg.codeToRoomId code = none := (mapHas_false_iff _ _).mp hfree
  have hcode : room.code = code := by rw [hroom]
  have hrid : room.id = id := by rw [hroom]
  have hne : code ≠ "" := by
    intro he
    have hlen := (drawCode_spec draws (0 + 6 * k) hdraws).1
    rw [he] at hk
    have : (drawCode draws (0 + 6 * k)) = [] := by
      have := congrArg String.data hk
      simpa using this.symm
    rw [this] at hlen
    simp at hlen
  have hfresh' : mapGet reg.memoryRooms id = none := hfresh
  rw [hreg]
  constructor
  · intro id' r hr
    simp only [getRoomFromMemory, mapGet_mapSet] at hr
    by_cases hi : id' = id
    · rw [if_pos hi] at hr
      have hr' : room = r := Option.some.inj hr
      rw [← hr', hi]
      refine ⟨hrid, hid, by rw [hcode]; exact hne, ?_⟩
      simp [mapGet_mapSet, hcode]
    · rw [if_neg hi] at hr
      obtain ⟨h1, h2, h3, h4⟩ := hwf.1 id' r hr
      refine ⟨h1, h2, h3, ?_⟩
      have hrc : r.code ≠ code := by
        intro he
        rw [he, hfree'] at h4
        simp at h4
      simp only [mapGet_mapSet, hrc, if_false]
      exact h4
  · intro c i hc
    simp only [mapGet_mapSet] at hc
    by_cases hcc : c = code
    · rw [if_pos hcc] at hc
      have hi : id = i := Option.some.inj hc
      refine ⟨room, ?_, by rw [hcode, hcc]⟩
      simp [getRoomFromMemory, mapGet_mapSet, ← hi]
    · rw [if_neg hcc] at hc
      obtain ⟨r, hr, hrc⟩ := hwf.2 c i hc
      have hi : i ≠ id := by
        intro he
        have hr' : mapGet reg.memoryRooms i = some r := hr
        rw [he, hfresh'] at hr'
        simp at hr'
      refine ⟨r, ?_, hrc⟩
      simp only [getRoomFromMemory, mapGet_mapSet, hi, if_false]
      exact hr

theorem removeRoom_wellFormed (reg : Registry) (id : String) (persistOk : Bool)
    (hwf : reg.WellFormed) : (removeRoom reg id persistOk).1.WellFormed := by
  cases hroom : mapGet reg.memoryRooms id with
  | none =>
    have hsame : (removeRoom reg id persistOk).1 = reg := by
      simp only [removeRoom, hroom, mapDelete_absent reg.memoryRooms id hroom]
    rw [hsame]
    exact hwf
  | some room =>
    obtain ⟨_, _, hcode, hmap⟩ := hwf.1 id room hroom
    constructor
    · intro id' r hr
      simp only [removeRoom, hroom, hcode, if_false, getRoomFromMemory, mapGet_mapDelete] at hr ⊢
      by_cases hi : id' = id
      · rw [if_pos hi] at hr
        simp at hr
      · rw [if_neg hi] at hr
        obtain ⟨h1, h2, h3, h4⟩ := hwf.1 id' r hr
        refine ⟨h1, h2, h3, ?_⟩
        have hrc : r.code ≠ room.code := by
          intro he
          rw [he, hmap] at h4
          exact hi (Option.some.inj h4).symm
        rw [if_neg hrc]
        exact h4
    · intro c i hc
      simp only [removeRoom, hroom, hcode, if_false, getRoomFromMemory, mapGet_mapDelete] at hc ⊢
      by_cases hcc : c = room.code
      · rw [if_pos hcc] at hc
        simp at hc
      · rw [if_neg hcc] at hc
        obtain ⟨r, hr, hrc⟩ := hwf.2 c i hc
        have hi : i ≠ id := by
          intro he
          have hr' : mapGet reg.memoryRooms i = some r := hr
          rw [he, hroom] at hr'
          have : room = r := Option.some.inj hr'
          exact hcc (by rw [this, hrc])
        refine ⟨r, ?_, hrc⟩
        rw [if_neg hi]
        exact hr

theorem reachable_wellFormed (reg : Registry) (h : reg.Reachable) : reg.WellFormed := by
  induction h with
  | empty =>
    constructor
    · intro id room hr
      simp [getRoomFromMemory, mapGet] at hr
    · intro c i hc
      simp [mapGet] at hc
  | createRoom reg id host qs now draws fuel persistOk reg' room _ hid hfresh hdraws hc ih =>
    exact createRoom_wellFormed reg id host qs now draws fuel persistOk reg' room ih hid hfresh
      hdraws hc
  | removeRoom reg id persistOk _ ih => exact removeRoom_wellFormed reg id persistOk ih

/-- C25: in every registry reached from the empty one by calls of `createRoom` (each with a
non-empty id that is not the id of a room in memory, and draws in `[0, 1)`) and `removeRoom`,
the code table is the inverse of the room table: each room in memory is stored under its own
id and `getRoomIdByCode` of its code gives that id, each code of the code table maps to a
room in memory whose code is that key, and so no two rooms in memory share a code. -/
theorem reachable_consistent (reg : Registry) (h : reg.Reachable) :
    reg.Consistent
      ∧ ∀ id₁ id₂ room₁ room₂, getRoomFromMemory reg id₁ = some room₁ →
          getRoomFromMemory reg id₂ = some room₂ → room₁.code = room₂.code → id₁ = id₂ := by
  have hwf := reachable_wellFormed reg h
  refine ⟨wellFormed_consistent reg hwf, ?_⟩
  intro id₁ id₂ room₁ room₂ h1 h2 hcode
  have c1 := (hwf.1 id₁ room₁ h1).2.2.2
  have c2 := (hwf.1 id₂ room₂ h2).2.2.2
  rw [hcode, c2] at c1
  exact (Option.some.inj c1).symm

theorem zeroDraws_range : ∀ n, 0 ≤ zeroDraws n ∧ zeroDraws n < 1 := by
  intro n
  simp [zeroDraws]

theorem oneRoomRegistry_reachable : oneRoomRegistry.Reachable :=
  Registry.Reachable.createRoom {} "room-1" .null .null 0 zeroDraws 1 true oneRoomRegistry
    firstRoom Registry.Reachable.empty (by decide) (by decide!) zeroDraws_range (by decide!)

theorem reachable_consistent_witness :
    oneRoomRegistry.Reachable ∧ oneRoomRegistry.Consistent :=
  ⟨oneRoomRegistry_reachable, (reachable_consistent oneRoomRegistry oneRoomRegistry_reachable).1⟩

theorem chars_alphabet : ∀ c ∈ chars, c.isUpper = true ∨ c.isDigit = true := by decide

/-- C30: whenever `createRoom` returns, with draws in `[0, 1)` and a non-empty id, the room
returned has status `waiting`, the id given, and a code of exactly 6 characters, each a
capital letter `A`-`Z` or a digit `0`-`9`, that was not a key of the code table and (in a
reachable registry) not the code of any room in memory before the call; afterwards
`getRoomFromMemory(room.id)` is that room and `getRoomIdByCode(room.code)` is `room.id`; and
the outcome is the same whether or not `Room.create` fails. -/
theorem createRoom_spec (reg : Registry) (id : String) (hostUserId questionSetId : JsVal)
    (now : Nat) (draws : Nat → ℚ) (fuel : Nat) (persistOk : Bool) (reg' : Registry)
    (room : RoomRecord) (hdraws : ∀ n, 0 ≤ draws n ∧ draws n < 1) (hid : id ≠ "")
    (h : createRoom reg id hostUserId questionSetId now draws fuel persistOk
      = some (reg', room)) :
    room.status = "waiting" ∧ room.id = id ∧ room.code.length = 6
      ∧ (∀ c ∈ room.code.toList, c.isUpper = true ∨ c.isDigit = true)
      ∧ mapHas reg.codeToRoomId room.code = false
      ∧ (reg.Reachable →
          ∀ other r, getRoomFromMemory reg other = some r → r.code ≠ room.code)
      ∧ getRoomFromMemory reg' room.id = some room
      ∧ getRoomIdByCode reg' room.code = some room.id
      ∧ createRoom reg id hostUserId questionSetId now draws fuel (!persistOk)
          = some (reg', room) := by
  obtain ⟨code, hgen, hroom, hreg⟩ := createRoom_eq _ _ _ _ _ _ _ _ _ _ h
  obtain ⟨hfree, k, hk⟩ := generateRoomCode_result _ _ _ _ _ hgen
  have hcode : room.code = code := by rw [hroom]
  have hrid : room.id = id := by rw [hroom]
  have hspec := drawCode_spec draws (0 + 6 * k) hdraws
  refine ⟨by rw [hroom], hrid, ?_, ?_, by rw [hcode]; exact hfree, ?_, ?_, ?_, ?_⟩
  · rw [hcode, hk]
    exact hspec.1
  · intro c hc
    rw [hcode, hk] at hc
    exact chars_alphabet c (hspec.2 c hc)
  · intro hreach other r hr he
    have hmap := ((reachable_wellFormed reg hreach).1 other r hr).2.2.2
    rw [he, hcode, (mapHas_false_iff _ _).mp hfree] at hmap
    simp at hmap
  · rw [hreg, hrid]
    simp [getRoomFromMemory, mapGet_mapSet]
  · rw [hreg, hrid, hcode]
    simp [getRoomIdByCode, mapGet_mapSet, hid]
  · rw [← h]
    cases persistOk <;> simp [createRoom]

theorem createRoom_spec_witness :
    firstRoom.status = "waiting" ∧ firstRoom.code.length = 6
      ∧ getRoomIdByCode oneRoomRegistry firstRoom.code = some firstRoom.id :=
  ⟨(createRoom_spec {} "room-1" .null .null 0 zeroDraws 1 true oneRoomRegistry firstRoom
      zeroDraws_range (by decide) (by decide!)).1,
   (createRoom_spec {} "room-1" .null .null 0 zeroDraws 1 true oneRoomRegistry firstRoom
      zeroDraws_range (by decide) (by decide!)).2.2.1,
   (createRoom_spec {} "room-1" .null .null 0 zeroDraws 1 true oneRoomRegistry firstRoom
      zeroDraws_range (by decide) (by decide!)).2.2.2.2.2.2.2.1⟩

/-! ## Properties of room creation and of the end of a game -/

/-- C27: the acknowledgement of `create_room` does not carry the room id and the code: for
the first room created, `roomId` is the room object itself (not the string `room-1`), `code`
is `null` although `getRoomCode` of the id is `AAAAAA` and `getRoomIdByCode` of that code is
`room-1`, and the host is stored in the ledger with the room object as `roomId`; for no input
at all does the acknowledgement carry a code. -/
theorem createRoomCommand_ack_without_id_and_code :
    (createRoomCommand {} [] "s1" "Host" .null .null "room-1" 0 zeroDraws 1 true).map
        (fun r => r.2.2) = some { ok := true, roomId := .obj 0, code := none }
      ∧ (createRoomCommand {} [] "s1" "Host" .null .null "room-1" 0 zeroDraws 1 true).map
          (fun r => r.1) = some oneRoomRegistry
      ∧ (createRoomCommand {} [] "s1" "Host" .null .null "room-1" 0 zeroDraws 1 true).map
          (fun r => r.2.1.map (fun p => (p.socketId, p.roomId))) = some [("s1", .obj 0)]
      ∧ getRoomCode oneRoomRegistry (.str "room-1") = some "AAAAAA"
      ∧ getRoomIdByCode oneRoomRegistry "AAAAAA" = some "room-1"
      ∧ ∀ reg ledger socketId displayName questionSetId userId id now draws fuel persistOk,
          (createRoomCommand reg ledger socketId displayName questionSetId userId id now draws
            fuel persistOk).bind (fun r => r.2.2.code) = none := by
  refine ⟨by decide!, by decide!, by decide!, by decide!, by decide!, ?_⟩
  intro reg ledger socketId displayName questionSetId userId id now draws fuel persistOk
  unfold createRoomCommand
  cases createRoom reg id userId questionSetId now draws fuel persistOk with
  | none => rfl
  | some r =>
    obtain ⟨reg', room⟩ := r
    simp only []
    cases addPlayer ledger socketId displayName (.obj room.ref) userId now persistOk with
    | error e => rfl
    | ok v => rfl

/-- C28: a question timer outlives the end of its room: after `choose_set` loads one question
for room `r` and then an empty list while the timer is pending, `sendCurrentQuestion` has sent
`game_over` and removed `ROOMS[r]`, yet the timer of the first question (handle 0) is still
pending; when it fires it sends `timeUp` and `reveal_answer` to room `r`, raises
`currentIndex` of the removed room object from 0 to 1 and schedules another
`sendCurrentQuestion`. -/
theorem question_timer_survives_game_over :
    reloadEmptyServer.out.drop oneQuestionServer.out.length
        = [.gameOver (.str "r") (getRanking asciiLocaleCompare twoPlayerServer.players (.str "r"))]
      ∧ reloadEmptyServer.roomRef (.str "r") = none
      ∧ reloadEmptyServer.pending
          = [{ handle := 0, delayMs := .fin 15000,
               callback := .questionTimeout (.str "r") 0 questionA }]
      ∧ currentIndexAt reloadEmptyServer 0 = some 0
      ∧ (fireTimer asciiLocaleCompare 0 reloadEmptyServer).out.drop reloadEmptyServer.out.length
          = [.timeUp (.str "r") (.num (.fin 0)), .revealAnswer (.str "r") (.num (.fin 0))]
      ∧ currentIndexAt (fireTimer asciiLocaleCompare 0 reloadEmptyServer) 0 = some 1
      ∧ (fireTimer asciiLocaleCompare 0 reloadEmptyServer).pending
          = [{ handle := 1, delayMs := .fin 700, callback := .sendQuestion (.str "r") }] := by
  refine ⟨?_, ?_, ?_, ?_, ?_, ?_, ?_⟩ <;> decide!

end QuizApp
